import Mathlib

/-!
# atmanos: the Xen guest memory manager (`src/runtime/mem_atman.go`)

A shallow embedding of `atmanMemoryManager` and of the machine state it acts on,
followed by theorems about the frame allocator, the heap-address reservation, the
four-level mapping engine, the entry points `memAlloc` and `mapFrames`, and the
bootstrap sequencer `init`.

Conventions of the embedding

* `pfn`, `mfn`, `vaddr`, `pageTableEntry` and `uintptr` are 64-bit unsigned machine
  words (the types are declared outside `mem_atman.go`; the constant
  `vaddr(0xFFFFFF8000000000)` of `getPageTable` and `sys.PtrSize = 8` fix the width):
  they are natural numbers here and every arithmetic result is reduced modulo
  `2 ^ 64` at the place where Go would wrap.
* `unsafe.Pointer` is an address; `nil` is `0`.
* Machine memory is a function from a machine frame number and a word index
  (`0 .. 511`) to the 64-bit word stored there.
* A read or a write through a virtual address goes through the four-level
  translation of the hardware; when a level is not present the access faults and
  the guest stops, which is the result `none`.
* The store that ends `mapPage` writes 8 bytes at the address it is given
  (`storeZero`): one word when the address is a multiple of 8, parts of two words,
  possibly in two pages, otherwise. The theorems that need the call to return are
  stated for aligned addresses.
* The hypervisor is an external collaborator: the status it returns for a request is
  given by an oracle, and a request it refuses (non-zero status) changes nothing.
* The loader maps guest frame `n` at the virtual address `n * 4096`; its descriptor
  and the state of the page tables it leaves are parameters of `init`.
* Page tables that form a tree are described by a labelling of frames (`Labelled`,
  `Tree`): the theorems about sequences of mapping operations are stated for such
  states, which the operations preserve.
-/

namespace Atman

/-! ## Constants and small types whose declarations live outside `mem_atman.go` -/

/-- Modelled from the spec: the constant `_PAGESIZE` is declared outside
`mem_atman.go`; a page is 4096 bytes (a 12-bit offset inside a page). -/
def _PAGESIZE : Nat := 4096

/-- Modelled from the spec: the constant `xenPageFlagShift` is declared outside
`mem_atman.go`; the flag bits of an entry occupy the 12 bits below the frame. -/
def xenPageFlagShift : Nat := 12

/-- Modelled from the spec: the constant `xenPageTablePresent` is declared
outside `mem_atman.go`; it is the "present" flag, bit 0 of an x86-64 entry. -/
def xenPageTablePresent : Nat := 1

/-- Modelled from the spec: the constant `xenPageTableWritable` is declared
outside `mem_atman.go`; it is the "writable" flag, bit 1 of an x86-64 entry. -/
def xenPageTableWritable : Nat := 2

/-- Modelled from the spec: the constant `PTE_PAGE_FLAGS` is declared outside
`mem_atman.go`; a leaf entry is installed present and writable. -/
def PTE_PAGE_FLAGS : Nat := xenPageTablePresent ||| xenPageTableWritable

/-- Modelled from the spec: the constant `PTE_PAGE_TABLE_FLAGS` is declared
outside `mem_atman.go`; a table-level entry is installed present (`mapPage` adds the
writable flag itself, `mapL4` does not). -/
def PTE_PAGE_TABLE_FLAGS : Nat := xenPageTablePresent

/-- The four levels of the hierarchy, `pageTableLevel1 .. pageTableLevel4`. -/
def pageTableLevel1 : Nat := 0
/-- Level 2 of the hierarchy. -/
def pageTableLevel2 : Nat := 1
/-- Level 3 of the hierarchy. -/
def pageTableLevel3 : Nat := 2
/-- Level 4 (the top level) of the hierarchy. -/
def pageTableLevel4 : Nat := 3

/-- Modelled from the spec: the method `vaddr.pageTableOffset` is declared outside
`mem_atman.go`; a virtual address decomposes into four 9-bit page-table indices
above a 12-bit offset, the index of level `l` (0 for L1 .. 3 for L4) being bits
`12 + 9 l .. 20 + 9 l`. -/
def pageTableOffset (a : Nat) (level : Nat) : Nat :=
  (a / 2 ^ (12 + 9 * level)) % 512

/-- Modelled from the spec: the method `pageTableEntry.hasFlag` is declared outside
`mem_atman.go`; an entry has a flag when all bits of the flag are set in it. -/
def hasFlag (e : Nat) (flag : Nat) : Bool :=
  e &&& flag == flag

/-- Modelled from the spec: the method `pageTableEntry.setFlag` is declared outside
`mem_atman.go`; it sets the bits of the flag in the entry. -/
def setFlag (e : Nat) (flag : Nat) : Nat :=
  e ||| flag

/-- Modelled from the spec: the method `pageTableEntry.mfn` is declared outside
`mem_atman.go`; the target frame of an entry is encoded in the high bits, above
the flag bits: bits 12 .. 51 of an x86-64 entry. -/
def pageTableEntry.mfn (e : Nat) : Nat :=
  (e % 2 ^ 52) / 2 ^ xenPageFlagShift

/-- The external collaborators of the memory manager. -/
structure Env where
  /-- Modelled from the spec: the frame translation `pfn.mfn()`, PFN to MFN, is
  declared outside `mem_atman.go`. -/
  p2m : Nat → Nat
  /-- Modelled from the spec: the frame translation `mfn.pfn()`, MFN to PFN, is
  declared outside `mem_atman.go`. -/
  m2p : Nat → Nat
  /-- Status returned by `HYPERVISOR_mmu_update` for the request `(ptr, val)` issued
  after the given number of earlier events. -/
  mmu_update : Nat → Nat → Nat → Int
  /-- Status returned by `HYPERVISOR_mmuext_op` for the batch of operations
  `(cmd, arg1)` issued after the given number of earlier events. -/
  mmuext_op : Nat → List (Nat × Nat) → Int

/-- What the guest asks of the hypervisor and what it prints, in order. -/
inductive Event where
  /-- A call of `HYPERVISOR_mmu_update` with one update `(ptr, val)` and the status. -/
  | mmu_update (ptr val : Nat) (ret : Int)
  /-- A call of `HYPERVISOR_mmuext_op` with a batch of operations `(cmd, arg1)` and the
  status. -/
  | mmuext_op (ops : List (Nat × Nat)) (ret : Int)
  /-- The line `writePte: HYPERVISOR_mmu_update returned ret`. -/
  | println_mmu_update (ret : Int)
  /-- The line `HYPERVISOR_mmuext_op returned ret`. -/
  | println_mmuext_op (ret : Int)
  /-- A call of `HYPERVISOR_update_va_mapping` for the virtual address `va` with the
  new entry `val`, the flags and the status. -/
  | update_va_mapping (va val flags : Nat) (ret : Int)
deriving DecidableEq, Repr

/-- The fields of `atmanMemoryManager`. -/
structure atmanMemoryManager where
  bootstrapStackPFN : Nat
  bootstrapEndPFN : Nat
  nextPFN : Nat
  lastPFN : Nat
  nextHeapPage : Nat
  l4PFN : Nat
  l4 : Nat
deriving DecidableEq, Repr

/-- The manager `_atman_mm` together with the machine state it acts on. -/
structure World where
  /-- The singleton `_atman_mm`. -/
  mm : atmanMemoryManager
  /-- The machine frame of the top-level table the hardware walks from. -/
  cr3 : Nat
  /-- Machine memory: frame number and word index to 64-bit word. -/
  mem : Nat → Nat → Nat
  /-- Requests and diagnostics issued so far, oldest first. -/
  trace : List Event

/-! ## Frame allocator and heap-address reservation -/

/-- Source: `func (mm *atmanMemoryManager) reservePFN() (pfn, bool)`. -/
def reservePFN (w : World) : (Nat × Bool) × World :=
  if w.mm.nextPFN = w.mm.lastPFN then
    ((0, false), w)
  else
    let p := w.mm.nextPFN
    ((p, true), { w with mm := { w.mm with nextPFN := (w.mm.nextPFN + 1) % 2 ^ 64 } })

/-- Source: `func (mm *atmanMemoryManager) reserveHeapPages(n uint64) unsafe.Pointer`. -/
def reserveHeapPages (w : World) (n : Nat) : Nat × World :=
  let p := w.mm.nextHeapPage
  (p, { w with mm := { w.mm with
          nextHeapPage := (w.mm.nextHeapPage + (n * _PAGESIZE) % 2 ^ 64) % 2 ^ 64 } })

/-- The results of `k` consecutive calls of `reservePFN`, in call order. -/
def reservePFNCalls : Nat → World → List (Nat × Bool)
  | 0, _ => []
  | k + 1, w => (reservePFN w).1 :: reservePFNCalls k (reservePFN w).2

/-- The state after `k` consecutive calls of `reservePFN`. -/
def afterReservePFNCalls : Nat → World → World
  | 0, w => w
  | k + 1, w => afterReservePFNCalls k (reservePFN w).2

/-- The frame numbers returned with `ok = true` by `k` consecutive calls. -/
def issuedFrames (k : Nat) (w : World) : List Nat :=
  ((reservePFNCalls k w).filter (fun r => r.2)).map (fun r => r.1)

/-- The `(base, n)` pairs of consecutive `reserveHeapPages` calls with the page
counts `ns`, in call order. -/
def reserveHeapCalls : List Nat → World → List (Nat × Nat)
  | [], _ => []
  | n :: ns, w => ((reserveHeapPages w n).1, n) :: reserveHeapCalls ns (reserveHeapPages w n).2

/-! ## Machine memory, the hardware walk and the hypercalls -/

/-- Machine memory after storing `val` in word `idx` of frame `frame`. -/
def setWord (mem : Nat → Nat → Nat) (frame idx val : Nat) : Nat → Nat → Nat :=
  fun fr i => if fr = frame ∧ i = idx then val else mem fr i

/-- Machine memory after filling frame `frame` with zero bytes. -/
def clearFrame (mem : Nat → Nat → Nat) (frame : Nat) : Nat → Nat → Nat :=
  fun fr i => if fr = frame then 0 else mem fr i

/-- The hardware translation of a virtual address: the walk starts at the
top-level table in frame `cr3` and follows the four 9-bit indices of the address;
the result is the machine frame of the page, or `none` (a page fault) when an
entry on the way is not present. Only the present flag is modelled. -/
def translate (w : World) (va : Nat) : Option Nat :=
  let e4 := w.mem w.cr3 (pageTableOffset va pageTableLevel4)
  if hasFlag e4 xenPageTablePresent then
    let e3 := w.mem (pageTableEntry.mfn e4) (pageTableOffset va pageTableLevel3)
    if hasFlag e3 xenPageTablePresent then
      let e2 := w.mem (pageTableEntry.mfn e3) (pageTableOffset va pageTableLevel2)
      if hasFlag e2 xenPageTablePresent then
        let e1 := w.mem (pageTableEntry.mfn e2) (pageTableOffset va pageTableLevel1)
        if hasFlag e1 xenPageTablePresent then
          some (pageTableEntry.mfn e1)
        else none
      else none
    else none
  else none

/-- A 64-bit load from a virtual address `va` that is a multiple of 8, as the address
of an entry of a view is: one whole word of the frame of the page. -/
def readWord (w : World) (va : Nat) : Option Nat :=
  match translate w va with
  | none => none
  | some fr => some (w.mem fr ((va % 4096) / 8))

/-- A 64-bit store of `val` to a virtual address `va` that is a multiple of 8: one
whole word of the frame of the page. -/
def writeWord (w : World) (va val : Nat) : Option World :=
  match translate w va with
  | none => none
  | some fr => some { w with mem := setWord w.mem fr ((va % 4096) / 8) val }

/-- The statement `*(*uintptr)(unsafe.Pointer(page)) = 0x0` at the end of `mapPage`: an
8-byte store of zero at the address `va` itself. The machine is amd64: byte order is
little-endian and a store need not be aligned. When `va` is a multiple of 8 the store
fills one word of the frame of the page. Otherwise it clears the upper `8 - va % 8`
bytes of the word that holds `va` and the lower `va % 8` bytes of the word after it;
for `va % 4096 > 4088` that word is the first word of the next page (addresses wrap
at `2 ^ 64`), and the store faults unless both pages are mapped. -/
def storeZero (w : World) (va : Nat) : Option World :=
  if va % 8 = 0 then writeWord w va 0
  else
    match translate w va with
    | none => none
    | some fr =>
      let k := va % 4096 / 8
      let b := 2 ^ (8 * (va % 8))
      let mem1 := setWord w.mem fr k (w.mem fr k % b)
      if k < 511 then
        some { w with mem := setWord mem1 fr (k + 1) (mem1 fr (k + 1) / b * b) }
      else
        match translate w ((va + 8) % 2 ^ 64) with
        | none => none
        | some fr2 => some { w with mem := setWord mem1 fr2 0 (mem1 fr2 0 / b * b) }

/-- Modelled from the spec: `xenPageTable.Get` is declared outside `mem_atman.go`;
a view is the virtual address of a page-table page and `Get(i)` is an ordinary
memory read of its `i`-th 8-byte entry. -/
def xenPageTable.Get (w : World) (table : Nat) (i : Nat) : Option Nat :=
  readWord w ((table + i * 8) % 2 ^ 64)

/-- Modelled from the spec: `pageTableEntry.pfn` is declared outside `mem_atman.go`;
it is the guest frame number of the frame the entry names. -/
def pageTableEntry.pfn (env : Env) (e : Nat) : Nat :=
  env.m2p (pageTableEntry.mfn e)

/-- Conversion of a Go `int` to a 64-bit unsigned word. -/
def toUint64 (x : Int) : Nat :=
  (x % 2 ^ 64).toNat

/-- Source: `func (mm *atmanMemoryManager) getPageTable(a, b, c int) xenPageTable`; the view
is the address handed to `newXenPageTable`. -/
def getPageTable (a b c : Int) : Nat :=
  let a := if a = -1 then 511 else a
  let b := if b = -1 then 511 else b
  let c := if c = -1 then 511 else c
  (0xFFFFFF8000000000 + toUint64 (a * 2 ^ 30) + toUint64 (b * 2 ^ 21)
    + toUint64 (c * 2 ^ 12)) % 2 ^ 64

/-- Modelled from the spec: the hypercall `HYPERVISOR_mmu_update` is declared outside
`mem_atman.go`; one validated update request naming the machine address `ptr` of a
slot and its new value. A request that is accepted (status 0) stores the value in the
slot, a refused one changes nothing; the request and its status are recorded. -/
def HYPERVISOR_mmu_update (env : Env) (w : World) (ptr val : Nat) : Int × World :=
  let ret := env.mmu_update w.trace.length ptr val
  (ret, { w with
    mem := if ret = 0 then setWord w.mem (ptr / 4096) ((ptr % 4096) / 8) val else w.mem
    trace := w.trace ++ [Event.mmu_update ptr val ret] })

/-- The effect of one maintenance operation: command 16 (`MMUEXT_CLEAR_PAGE`)
clears the frame `arg1`; no other command is issued by the manager. -/
def applyExtOp (mem : Nat → Nat → Nat) (op : Nat × Nat) : Nat → Nat → Nat :=
  if op.1 = 16 then clearFrame mem op.2 else mem

/-- Modelled from the spec: the hypercall `HYPERVISOR_mmuext_op` is declared outside
`mem_atman.go`; a batch of maintenance operations. When the batch is accepted
(status 0) its operations are carried out in order, a refused one changes nothing;
the request and its status are recorded. -/
def HYPERVISOR_mmuext_op (env : Env) (w : World) (ops : List (Nat × Nat)) : Int × World :=
  let ret := env.mmuext_op w.trace.length ops
  (ret, { w with
    mem := if ret = 0 then ops.foldl applyExtOp w.mem else w.mem
    trace := w.trace ++ [Event.mmuext_op ops ret] })

/-- Source: `func (mm *atmanMemoryManager) mmuExtOp(ops []mmuExtOp)`. -/
def mmuExtOp (env : Env) (w : World) (ops : List (Nat × Nat)) : World :=
  let r := HYPERVISOR_mmuext_op env w ops
  if r.1 ≠ 0 then
    { r.2 with trace := r.2.trace ++ [Event.println_mmuext_op r.1] }
  else r.2

/-- Source: `func (mm *atmanMemoryManager) clearPage(pfn pfn)`. -/
def clearPage (env : Env) (w : World) (pfn : Nat) : World :=
  mmuExtOp env w [(16, env.p2m pfn)]

/-- Source: `func (mm *atmanMemoryManager) writePte(table pfn, offset int, value mfn,
flags uintptr) pageTableEntry`. -/
def writePte (env : Env) (w : World) (table offset value flags : Nat) : Nat × World :=
  let newpte := setFlag ((value * 2 ^ xenPageFlagShift) % 2 ^ 64) flags
  let ptr := ((env.p2m table * 2 ^ xenPageFlagShift) % 2 ^ 64 + (offset * 8) % 2 ^ 64) % 2 ^ 64
  let r := HYPERVISOR_mmu_update env w ptr newpte
  if r.1 ≠ 0 then
    (newpte, { r.2 with trace := r.2.trace ++ [Event.println_mmu_update r.1] })
  else (newpte, r.2)

/-- Source: `func (mm *atmanMemoryManager) physAllocPage() (mfn, bool)`. -/
def physAllocPage (env : Env) (w : World) : (Nat × Bool) × World :=
  match reservePFN w with
  | ((pfn, ok), w1) =>
    if !ok then ((0, false), w1)
    else ((env.p2m pfn, true), clearPage env w1 pfn)

/-! ## The mapping engine -/

/-- The block that `mapPage` repeats at the levels L4, L3 and L2:
`if !pte.hasFlag(xenPageTablePresent) { pfn, ok := mm.physAllocPage();
if !ok { return false };
pte = mm.writePte(table, offset, pfn, PTE_PAGE_TABLE_FLAGS|xenPageTableWritable) }`.
The first component is the entry `pte` after the block, or `none` when the block
makes `mapPage` return `false`. -/
def mapPage.installTable (env : Env) (w : World) (pte table offset : Nat) :
    Option Nat × World :=
  if !hasFlag pte xenPageTablePresent then
    match physAllocPage env w with
    | ((pfn, ok), w1) =>
      if !ok then (none, w1)
      else
        let r := writePte env w1 table offset pfn (PTE_PAGE_TABLE_FLAGS ||| xenPageTableWritable)
        (some r.1, r.2)
  else (some pte, w)

/-- Source: `func (mm *atmanMemoryManager) mapPage(page vaddr, pageMfn mfn) bool`; `none` is
a page fault on one of the reads through a view or on the final store to `page`. -/
def mapPage (env : Env) (w : World) (page pageMfn : Nat) : Option (Bool × World) :=
  let l4offset := pageTableOffset page pageTableLevel4
  let l3offset := pageTableOffset page pageTableLevel3
  let l2offset := pageTableOffset page pageTableLevel2
  let l1offset := pageTableOffset page pageTableLevel1
  let l4 := w.mm.l4
  match xenPageTable.Get w l4 l4offset with
  | none => none
  | some l3pte0 =>
  match mapPage.installTable env w l3pte0 w.mm.l4PFN l4offset with
  | (none, w1) => some (false, w1)
  | (some l3pte, w1) =>
  let l3 := getPageTable (-1) (-1) l4offset
  match xenPageTable.Get w1 l3 l3offset with
  | none => none
  | some l2pte0 =>
  match mapPage.installTable env w1 l2pte0 (pageTableEntry.pfn env l3pte) l3offset with
  | (none, w2) => some (false, w2)
  | (some l2pte, w2) =>
  let l2 := getPageTable (-1) l4offset l3offset
  match xenPageTable.Get w2 l2 l2offset with
  | none => none
  | some l1pte0 =>
  match mapPage.installTable env w2 l1pte0 (pageTableEntry.pfn env l2pte) l2offset with
  | (none, w3) => some (false, w3)
  | (some l1pte, w3) =>
  let w4 := (writePte env w3 (pageTableEntry.pfn env l1pte) l1offset pageMfn PTE_PAGE_FLAGS).2
  match storeZero w4 page with
  | none => none
  | some w5 => some (true, w5)

/-- Source: `func (mm *atmanMemoryManager) allocPage(page vaddr) bool`. -/
def allocPage (env : Env) (w : World) (page : Nat) : Option (Bool × World) :=
  match physAllocPage env w with
  | ((pfn, ok), w1) =>
    if !ok then some (false, w1)
    else mapPage env w1 page pfn

/-- How a call of `allocPages` ends. -/
inductive Outcome where
  /-- The call returns the pointer `p` (`0` is `nil`) in the state `w`. -/
  | returned (p : Nat) (w : World)
  /-- A memory access of the call faults. -/
  | fault
  /-- The loop needs more iterations than the budget allows. -/
  | outOfFuel

/-- The loop of `allocPages`,
`for page := vaddr(v); page < vaddr(v)+vaddr(n*_PAGESIZE); page += _PAGESIZE`, with
the bound `stop` computed once and a budget of iterations. -/
def allocPagesLoop (env : Env) (v stop : Nat) : Nat → World → Nat → Outcome
  | 0, w, page => if page < stop then Outcome.outOfFuel else Outcome.returned v w
  | fuel + 1, w, page =>
    if page < stop then
      match allocPage env w page with
      | none => Outcome.fault
      | some (false, w1) => Outcome.returned 0 w1
      | some (true, w1) => allocPagesLoop env v stop fuel w1 ((page + _PAGESIZE) % 2 ^ 64)
    else Outcome.returned v w

/-- Source: `func (mm *atmanMemoryManager) allocPages(v unsafe.Pointer, n uint64)
unsafe.Pointer`; the loop never needs more than `n` iterations
(`allocPages_budget`). -/
def allocPages (env : Env) (w : World) (v n : Nat) : Outcome :=
  let r := if v = 0 then reserveHeapPages w n else (v, w)
  allocPagesLoop env r.1 ((r.1 + (n * _PAGESIZE) % 2 ^ 64) % 2 ^ 64) n r.2 r.1

/-- Source: `func (mm *atmanMemoryManager) pageTableWalk(addr vaddr)`: the entries it reads
and prints, from L4 down, ending with the first entry that is not present; `none` is
a page fault on a read through a view. -/
def pageTableWalk (w : World) (addr : Nat) : Option (List Nat) :=
  let l4offset := pageTableOffset addr pageTableLevel4
  let l3offset := pageTableOffset addr pageTableLevel3
  let l2offset := pageTableOffset addr pageTableLevel2
  let l1offset := pageTableOffset addr pageTableLevel1
  let l4 := w.mm.l4
  match xenPageTable.Get w l4 l4offset with
  | none => none
  | some l3pte =>
  if !hasFlag l3pte xenPageTablePresent then some [l3pte] else
  let l3 := getPageTable (-1) (-1) l4offset
  match xenPageTable.Get w l3 l3offset with
  | none => none
  | some l2pte =>
  if !hasFlag l2pte xenPageTablePresent then some [l3pte, l2pte] else
  let l2 := getPageTable (-1) l4offset l3offset
  match xenPageTable.Get w l2 l2offset with
  | none => none
  | some l1pte =>
  if !hasFlag l1pte xenPageTablePresent then some [l3pte, l2pte, l1pte] else
  let l1 := getPageTable l4offset l3offset l2offset
  match xenPageTable.Get w l1 l1offset with
  | none => none
  | some l0pte => some [l3pte, l2pte, l1pte, l0pte]

/-- The number of calls of `reservePFN` that can still succeed: the distance from
`nextPFN` to `lastPFN` in 64-bit arithmetic. -/
def freeFrames (w : World) : Nat :=
  (w.mm.lastPFN + 2 ^ 64 - w.mm.nextPFN) % 2 ^ 64

/-! ## Predicates used to state the theorems -/

/-- The entry `writePte` builds from a frame `value` and flag bits: `value` shifted
left by `xenPageFlagShift` in 64 bits, with the flags set. -/
def entryOf (value flags : Nat) : Nat :=
  setFlag ((value * 2 ^ xenPageFlagShift) % 2 ^ 64) flags

/-- The recursive slot is installed: entry 511 of the top-level table is present and
names the top-level table itself. -/
def Recursive (w : World) : Prop :=
  hasFlag (w.mem w.cr3 511) xenPageTablePresent = true
    ∧ pageTableEntry.mfn (w.mem w.cr3 511) = w.cr3

/-- The guest frame number `p` is still in the pool. -/
def InPool (w : World) (p : Nat) : Prop :=
  w.mm.nextPFN ≤ p ∧ p < w.mm.lastPFN

/-- The hypervisor accepts every request (status 0). -/
def Accepts (env : Env) : Prop :=
  (∀ n ptr val, env.mmu_update n ptr val = 0) ∧ (∀ n ops, env.mmuext_op n ops = 0)

/-- A correctly bootstrapped manager in an accepting environment: the cursors are
ordered 64-bit words, `mm.l4` is the view at the top of the recursive window,
`mm.l4PFN` is the frame of the table the hardware walks from, the recursive slot is
installed, and the frames still in the pool are machine frames that fit the frame
field of an entry, translate back and forth, are pairwise different and are not the
top-level table. -/
structure Installed (env : Env) (w : World) : Prop where
  accepts : Accepts env
  next_le : w.mm.nextPFN ≤ w.mm.lastPFN
  last_lt : w.mm.lastPFN < 2 ^ 64
  l4_view : w.mm.l4 = getPageTable (-1) (-1) (-1)
  l4_frame : env.p2m w.mm.l4PFN = w.cr3
  recursive : Recursive w
  pool_lt : ∀ p, InPool w p → env.p2m p < 2 ^ 40
  pool_rt : ∀ p, InPool w p → env.p2m (env.m2p (env.p2m p)) = env.p2m p
  pool_inj : ∀ p q, InPool w p → InPool w q → env.p2m p = env.p2m q → p = q
  pool_cr3 : ∀ p, InPool w p → env.p2m p ≠ w.cr3

/-- The part of the path of `v` below the table in frame `T` is well formed: every
table that a present entry on the path (at the levels `lvl + 1` down to L2, index
level `lvl` .. 1) leads to is a frame different from the tables above it and from
the frames of `above`, translates back and forth, and is not in the pool. -/
def PathClean (env : Env) (w : World) (v : Nat) : Nat → Nat → List Nat → Prop
  | 0, _, _ => True
  | lvl + 1, T, above =>
    hasFlag (w.mem T (pageTableOffset v (lvl + 1))) xenPageTablePresent = true →
      pageTableEntry.mfn (w.mem T (pageTableOffset v (lvl + 1))) ∉ T :: above
      ∧ env.p2m (env.m2p (pageTableEntry.mfn (w.mem T (pageTableOffset v (lvl + 1)))))
          = pageTableEntry.mfn (w.mem T (pageTableOffset v (lvl + 1)))
      ∧ (∀ p, InPool w p →
          env.p2m p ≠ pageTableEntry.mfn (w.mem T (pageTableOffset v (lvl + 1))))
      ∧ PathClean env w v lvl
          (pageTableEntry.mfn (w.mem T (pageTableOffset v (lvl + 1)))) (T :: above)

/-- The number of tables missing below the table in frame `T`, for the entries of
index level `lvl` down to 1 of the path of `v`. -/
def missingFrom (w : World) (v : Nat) : Nat → Nat → Nat
  | 0, _ => 0
  | lvl + 1, T =>
    if hasFlag (w.mem T (pageTableOffset v (lvl + 1))) xenPageTablePresent then
      missingFrom w v lvl (pageTableEntry.mfn (w.mem T (pageTableOffset v (lvl + 1))))
    else lvl + 1

/-- The number of intermediate tables missing on the path of `v`: 3 if the L4 entry
is absent, else 2 if the entry of the L3 table is absent, else 1 if the entry of the
L2 table is absent, else 0. -/
def missingTables (w : World) (v : Nat) : Nat :=
  missingFrom w v 3 w.cr3

/-- The state in which `mapPage env w v f` is analysed: a correctly bootstrapped
manager, a well-formed path (which keeps `v` outside the recursive window: with the
L4 index 511 the L3 table of the path would be the top-level table itself), and a
list `avoid` of frames that are neither the top-level table, nor a table on the
path, nor in the pool. -/
structure Ready (env : Env) (w : World) (v : Nat) (avoid : List Nat) : Prop where
  installed : Installed env w
  path : PathClean env w v 3 w.cr3 avoid
  cr3_avoid : w.cr3 ∉ avoid
  pool_avoid : ∀ p, InPool w p → env.p2m p ∉ avoid

/-- A manager whose frame cursor sits on the last 64-bit value, with an empty
machine memory: the state of the wrap-around examples. -/
def wrapWorld : World :=
  { mm := { bootstrapStackPFN := 0, bootstrapEndPFN := 0,
            nextPFN := 2 ^ 64 - 1, lastPFN := 1,
            nextHeapPage := 4096, l4PFN := 0, l4 := 0 },
    cr3 := 0, mem := fun _ _ => 0, trace := [] }

/-- A manager with the frames 5, 6, 7 left in its pool and an empty machine memory. -/
def smallWorld : World :=
  { mm := { bootstrapStackPFN := 0, bootstrapEndPFN := 4,
            nextPFN := 5, lastPFN := 8,
            nextHeapPage := 20480, l4PFN := 0, l4 := 0 },
    cr3 := 0, mem := fun _ _ => 0, trace := [] }

/-- What one level of `mapPage` leaves behind when it goes on. -/
structure Advanced (env : Env) (w w' : World) (v lvl T : Nat) (above : List Nat)
    (e' : Nat) : Prop where
  entry : w'.mem T (pageTableOffset v (lvl + 1)) = e'
  present : hasFlag e' xenPageTablePresent = true
  notin : pageTableEntry.mfn e' ∉ T :: above
  rt : env.p2m (env.m2p (pageTableEntry.mfn e')) = pageTableEntry.mfn e'
  pool : ∀ p, InPool w' p → env.p2m p ∉ pageTableEntry.mfn e' :: T :: above
  installed : Installed env w'
  path : PathClean env w' v lvl (pageTableEntry.mfn e') (T :: above)
  frame : ∀ fr i, (∀ p, InPool w p → env.p2m p ≠ fr) →
    ¬ (fr = T ∧ i = pageTableOffset v (lvl + 1)) → w'.mem fr i = w.mem fr i
  kept : hasFlag (w.mem T (pageTableOffset v (lvl + 1))) xenPageTablePresent = true →
    w' = w
  cr3 : w'.cr3 = w.cr3
  mm_eq : w'.mm = { w.mm with nextPFN := w'.mm.nextPFN }
  pool_sub : ∀ p, InPool w' p → InPool w p
  count : w'.mm.nextPFN + missingFrom w' v lvl (pageTableEntry.mfn e')
    = w.mm.nextPFN + missingFrom w v (lvl + 1) T
  trace : w'.trace = w.trace ++
    (if hasFlag (w.mem T (pageTableOffset v (lvl + 1))) xenPageTablePresent then []
     else [Event.mmuext_op [(16, env.p2m w.mm.nextPFN)] 0,
           Event.mmu_update (T * 4096 + pageTableOffset v (lvl + 1) * 8) e' 0])
  fresh : hasFlag (w.mem T (pageTableOffset v (lvl + 1))) xenPageTablePresent = false →
    InPool w w.mm.nextPFN ∧ pageTableEntry.mfn e' = env.p2m w.mm.nextPFN
      ∧ w'.mm.nextPFN = w.mm.nextPFN + 1 ∧ ∀ i, w'.mem (pageTableEntry.mfn e') i = 0

/-- The state `w` reached by `mapPage` on the path of `v` from `w0` once the three
intermediate levels are there, before the leaf entry is written: `e4`, `e3`, `e2`
are the present entries of the L4, L3 and L2 tables on the path. -/
structure Resolved (env : Env) (w0 w : World) (v : Nat) (avoid : List Nat)
    (e4 e3 e2 : Nat) : Prop where
  installed : Installed env w
  l4e : w.mem w.cr3 (pageTableOffset v 3) = e4
  l3e : w.mem (pageTableEntry.mfn e4) (pageTableOffset v 2) = e3
  l2e : w.mem (pageTableEntry.mfn e3) (pageTableOffset v 1) = e2
  p4 : hasFlag e4 xenPageTablePresent = true
  p3 : hasFlag e3 xenPageTablePresent = true
  p2 : hasFlag e2 xenPageTablePresent = true
  d4 : pageTableEntry.mfn e4 ∉ w.cr3 :: avoid
  d3 : pageTableEntry.mfn e3 ∉ pageTableEntry.mfn e4 :: w.cr3 :: avoid
  d2 : pageTableEntry.mfn e2
    ∉ pageTableEntry.mfn e3 :: pageTableEntry.mfn e4 :: w.cr3 :: avoid
  cr3_avoid : w.cr3 ∉ avoid
  rt4 : env.p2m (env.m2p (pageTableEntry.mfn e4)) = pageTableEntry.mfn e4
  rt3 : env.p2m (env.m2p (pageTableEntry.mfn e3)) = pageTableEntry.mfn e3
  rt2 : env.p2m (env.m2p (pageTableEntry.mfn e2)) = pageTableEntry.mfn e2
  pool : ∀ p, InPool w p → env.p2m p
    ∉ pageTableEntry.mfn e2 :: pageTableEntry.mfn e3 :: pageTableEntry.mfn e4
        :: w.cr3 :: avoid
  cr3_eq : w.cr3 = w0.cr3
  mm_eq : w.mm = { w0.mm with nextPFN := w0.mm.nextPFN + missingTables w0 v }
  enough : missingTables w0 v ≤ w0.mm.lastPFN - w0.mm.nextPFN
  pool_sub : ∀ p, InPool w p → InPool w0 p
  frame : ∀ fr i, (∀ p, InPool w0 p → env.p2m p ≠ fr) →
    ¬ (fr = w.cr3 ∧ i = pageTableOffset v 3) →
    ¬ (fr = pageTableEntry.mfn e4 ∧ i = pageTableOffset v 2) →
    ¬ (fr = pageTableEntry.mfn e3 ∧ i = pageTableOffset v 1) →
    w.mem fr i = w0.mem fr i
  kept : missingTables w0 v = 0 → w = w0

/-- The state `w` in which `mapPage` returns `false` on the path of `v`, started
from `w0`. -/
structure Failed (env : Env) (w0 w : World) (v : Nat) : Prop where
  installed : Installed env w
  cr3_eq : w.cr3 = w0.cr3
  mm_eq : w.mm = { w0.mm with nextPFN := w0.mm.lastPFN }
  short : w0.mm.lastPFN - w0.mm.nextPFN < missingTables w0 v
  remaining : missingTables w v = missingTables w0 v - (w0.mm.lastPFN - w0.mm.nextPFN)
  kept4 : hasFlag (w0.mem w0.cr3 (pageTableOffset v 3)) xenPageTablePresent = true →
    w.mem w0.cr3 (pageTableOffset v 3) = w0.mem w0.cr3 (pageTableOffset v 3)
  kept3 : hasFlag (w0.mem w0.cr3 (pageTableOffset v 3)) xenPageTablePresent = true →
    hasFlag (w0.mem (pageTableEntry.mfn (w0.mem w0.cr3 (pageTableOffset v 3)))
      (pageTableOffset v 2)) xenPageTablePresent = true →
    w.mem (pageTableEntry.mfn (w0.mem w0.cr3 (pageTableOffset v 3))) (pageTableOffset v 2)
      = w0.mem (pageTableEntry.mfn (w0.mem w0.cr3 (pageTableOffset v 3)))
          (pageTableOffset v 2)
  pool_sub : ∀ p, InPool w p → InPool w0 p
  installs : ∀ ptr val ret, Event.mmu_update ptr val ret ∈ w.trace.drop w0.trace.length →
    ret = 0 ∧ w.mem (ptr / 4096) (ptr % 4096 / 8) = val

/-- The state `mapPage` returns `true` in for an address `v` that is a multiple of 8,
from the state `w3` in which the three intermediate levels are there and `T1` is the
frame of the L1 table: the leaf entry is written and the word at `v` is set to zero
(the first word of the page when `v` is page-aligned). -/
def mapPage.finished (w3 : World) (T1 v f : Nat) : World :=
  { w3 with
    mem := setWord
      (setWord w3.mem T1 (pageTableOffset v 0) (entryOf f PTE_PAGE_FLAGS))
      (f % 2 ^ 40) (v % 4096 / 8) 0
    trace := w3.trace ++
      [Event.mmu_update (T1 * 4096 + pageTableOffset v 0 * 8) (entryOf f PTE_PAGE_FLAGS) 0] }

instance (w : World) : Decidable (Recursive w) := by
  unfold Recursive
  infer_instance

instance (w : World) (p : Nat) : Decidable (InPool w p) := by
  unfold InPool
  infer_instance

/-- An environment whose frame translations are the identity and whose hypervisor
accepts every request. -/
def idEnv : Env :=
  { p2m := fun p => p, m2p := fun m => m,
    mmu_update := fun _ _ _ => 0, mmuext_op := fun _ _ => 0 }

/-- A bootstrapped manager: the top-level table is machine frame 1, its slot 511
names frame 1 itself, nothing else is mapped, and the `n` frames `16 .. 15 + n` are
in the pool. -/
def bootWorldN (n : Nat) : World :=
  { mm := { bootstrapStackPFN := 2, bootstrapEndPFN := 15, nextPFN := 16, lastPFN := 16 + n,
            nextHeapPage := 0x1000000, l4PFN := 1, l4 := 0xFFFFFFFFFFFFF000 },
    cr3 := 1, mem := fun fr i => if fr = 1 ∧ i = 511 then 4097 else 0, trace := [] }

/-- The bootstrapped manager with ten frames in the pool. -/
def bootWorld : World := bootWorldN 10

/-- The page at 16 MB: L4 index 0, L3 index 0, L2 index 8, L1 index 0. -/
def bootPage : Nat := 0x1000000

/-- The state of a successful call, or `w` itself when the call does not succeed. -/
def stateAfter (r : Option (Bool × World)) (w : World) : World :=
  match r with
  | some (_, w') => w'
  | none => w

/-- The state after `mapPage(bootPage, 100)` in `bootWorld`. -/
def mappedWorld : World :=
  stateAfter (mapPage idEnv bootWorld bootPage 100) bootWorld

/-- The page at 4 kB: all indices 0 but the L1 index, which is 1. -/
def lowPage : Nat := 0x1000

/-- The state after `mapPage(lowPage, 100)` in `bootWorld`: the frames 16, 17 and 18
are the L3, L2 and L1 tables of the first 2 MB. -/
def lowWorld : World :=
  stateAfter (mapPage idEnv bootWorld lowPage 100) bootWorld

/-- An environment with identity frame translations whose hypervisor refuses every
page-table update with status `-1` and accepts the maintenance operations. -/
def rejectEnv : Env :=
  { p2m := fun p => p, m2p := fun m => m,
    mmu_update := fun _ _ _ => -1, mmuext_op := fun _ _ => 0 }

/-- An environment with identity frame translations whose hypervisor refuses every
maintenance operation with status `-1`. -/
def rejectExtEnv : Env :=
  { p2m := fun p => p, m2p := fun m => m,
    mmu_update := fun _ _ _ => 0, mmuext_op := fun _ _ => -1 }

/-- A manager with the frames 16 .. 25 in its pool and a machine memory in which
every word holds 7, left over from an earlier use. -/
def staleWorld : World :=
  { mm := { bootstrapStackPFN := 2, bootstrapEndPFN := 15, nextPFN := 16, lastPFN := 26,
            nextHeapPage := 0x1000000, l4PFN := 1, l4 := 0xFFFFFFFFFFFFF000 },
    cr3 := 1, mem := fun _ _ => 7, trace := [] }

/-- The pointer and the state a call of `allocPages` returns, `none` when it does
not return. -/
def Outcome.result : Outcome → Option (Nat × World)
  | Outcome.returned p w => some (p, w)
  | Outcome.fault => none
  | Outcome.outOfFuel => none

/-- The words of the spec for `allocPages`: `allocPage` is called once per page of
the list, in order, stopping at the first page that cannot be backed; the result
is `true` when every page has been backed, and the state is the one the last call
of `allocPage` left. -/
def backPages (env : Env) : List Nat → World → Option (Bool × World)
  | [], w => some (true, w)
  | page :: rest, w =>
    match allocPage env w page with
    | none => none
    | some (false, w1) => some (false, w1)
    | some (true, w1) => backPages env rest w1

/-- The pages of the range of `n` pages at `base`, in increasing order. -/
def pagesOf (base n : Nat) : List Nat :=
  (List.range n).map (fun i => base + i * 4096)

/-- What `allocPages` returns for the outcome of backing the pages of the range at
`base`. -/
def allocPagesSpec (base : Nat) (r : Option (Bool × World)) : Outcome :=
  match r with
  | none => Outcome.fault
  | some (false, w') => Outcome.returned 0 w'
  | some (true, w') => Outcome.returned base w'

/-! ## Entry points, the loader descriptor and the bootstrap sequencer -/

/-- Modelled from the spec: `round` is declared outside `mem_atman.go` (the runtime's
`round(n, a uintptr) uintptr`); it rounds `n` up to a multiple of the power of two
`a`, the sum `n + a - 1` being taken in 64-bit arithmetic before the low bits are
dropped. -/
def round (n a : Nat) : Nat :=
  (n + a - 1) % 2 ^ 64 / a * a

/-- The loop of `mapFrames`: `mapPage` is called for each frame in turn at addresses
one page apart. The list records what each call returned, which `mapFrames` does
not look at; `none` is a page fault inside a call. -/
def mapFramesLoop (env : Env) : List Nat → World → Nat → Option (List Bool × World)
  | [], w, _ => some ([], w)
  | frame :: rest, w, addr =>
    match mapPage env w addr frame with
    | none => none
    | some (ok, w1) =>
      match mapFramesLoop env rest w1 ((addr + _PAGESIZE) % 2 ^ 64) with
      | none => none
      | some (oks, w2) => some (ok :: oks, w2)

/-- Source: `func mapFrames(frames []uintptr) unsafe.Pointer`; the result of every
`mapPage` is dropped and `data` is returned whatever happened. -/
def mapFrames (env : Env) (w : World) (frames : List Nat) : Option (Nat × World) :=
  let r := reserveHeapPages w frames.length
  match mapFramesLoop env frames r.2 r.1 with
  | none => none
  | some (_, w') => some (r.1, w')

/-- Modelled from the spec: the loader-provided descriptor `_atman_start_info` is
declared outside `mem_atman.go`; the three fields `init` reads are the virtual
address of the top-level page table, the count of page-table frames the loader set
up, and the total frame count of the guest. -/
structure xenStartInfo where
  PageTableBase : Nat
  NrPageTableFrames : Nat
  NrPages : Nat

/-- Modelled from the spec: `pfn.add` is declared outside `mem_atman.go`; the frame
number `v` frames further on, in 64 bits. -/
def pfn.add (n v : Nat) : Nat :=
  (n + v) % 2 ^ 64

/-- Modelled from the spec: `pfn.vaddr` is declared outside `mem_atman.go`; the
loader maps guest frame `n` at the virtual address `n * 4096`, so the address is the
frame number shifted left by the page shift, in 64 bits. -/
def pfn.vaddr (n : Nat) : Nat :=
  (n * _PAGESIZE) % 2 ^ 64

/-- Modelled from the spec: `vaddr.pfn` is declared outside `mem_atman.go`; the guest
frame of a virtual address in the loader's mapping is the address shifted right by
the page shift. -/
def vaddr.pfn (a : Nat) : Nat :=
  a / _PAGESIZE

/-- An environment that also answers the requests only the bootstrap issues. -/
structure BootEnv extends Env where
  /-- The status the hypervisor returns for `HYPERVISOR_update_va_mapping(va, val,
  flags)` issued after the given number of earlier events. -/
  update_va_mapping : Nat → Nat → Nat → Nat → Int

/-- The frame of the L1 table that the hardware walk reaches for the virtual address
`va`, `none` when an entry of the L4, L3 or L2 table on the way is not present. -/
def l1Table (w : World) (va : Nat) : Option Nat :=
  let e4 := w.mem w.cr3 (pageTableOffset va pageTableLevel4)
  if hasFlag e4 xenPageTablePresent then
    let e3 := w.mem (pageTableEntry.mfn e4) (pageTableOffset va pageTableLevel3)
    if hasFlag e3 xenPageTablePresent then
      let e2 := w.mem (pageTableEntry.mfn e3) (pageTableOffset va pageTableLevel2)
      if hasFlag e2 xenPageTablePresent then some (pageTableEntry.mfn e2)
      else none
    else none
  else none

/-- Modelled from the spec: the hypercall `HYPERVISOR_update_va_mapping` is declared
outside `mem_atman.go`; it updates one virtual-to-physical mapping. A request that
is accepted (status 0) stores `val` in the L1 entry of `va` when the walk reaches an
L1 table, a refused one changes nothing; the request and its status are recorded. -/
def HYPERVISOR_update_va_mapping (env : BootEnv) (w : World) (va val flags : Nat) :
    Int × World :=
  let ret := env.update_va_mapping w.trace.length va val flags
  (ret, { w with
    mem := if ret = 0 then
        match l1Table w va with
        | some t1 => setWord w.mem t1 (pageTableOffset va pageTableLevel1) val
        | none => w.mem
      else w.mem
    trace := w.trace ++ [Event.update_va_mapping va val flags ret] })

/-- The loop of `unmapLowAddresses`, `for addr < 0x40000`, with a budget of
iterations. -/
def unmapLowLoop (env : BootEnv) : Nat → World → Nat → World
  | 0, w, _ => w
  | fuel + 1, w, addr =>
    if addr < 0x40000 then
      unmapLowLoop env fuel (HYPERVISOR_update_va_mapping env w addr 0 2).2 (addr + _PAGESIZE)
    else w

/-- Source: `func (mm *atmanMemoryManager) unmapLowAddresses()`; the loop ends after 64
iterations, the budget leaves room for one more test of the condition. -/
def unmapLowAddresses (env : BootEnv) (w : World) : World :=
  unmapLowLoop env 65 w 0

/-- Source: `func (mm *atmanMemoryManager) mapL4(pfn pfn) xenPageTable`. -/
def mapL4 (env : BootEnv) (w : World) (pfn : Nat) : Nat × World :=
  let r := writePte env.toEnv w pfn 511 (env.p2m pfn) PTE_PAGE_TABLE_FLAGS
  (getPageTable (-1) (-1) (-1), r.2)

/-- Source: `func (mm *atmanMemoryManager) unmapBootstrapPageTables()`. -/
def unmapBootstrapPageTables (env : BootEnv) (si : xenStartInfo) (w : World) : World :=
  (List.range si.NrPageTableFrames).foldl
    (fun w i =>
      (HYPERVISOR_update_va_mapping env w (pfn.vaddr (pfn.add w.mm.l4PFN i)) 0 2).2) w

/-- The local `bootstrapStackPFN` of `init`. -/
def init.bootstrapStackPFN (si : xenStartInfo) : Nat :=
  pfn.add (pfn.add (vaddr.pfn si.PageTableBase) si.NrPageTableFrames) 1

/-- The local `bootstrapEnd` of `init`: the bootstrap stack address padded by at
least 512 kB and rounded to 4 MB. -/
def init.bootstrapEnd (si : xenStartInfo) : Nat :=
  round ((pfn.vaddr (init.bootstrapStackPFN si) + 0x80000) % 2 ^ 64) 0x400000

/-- The manager fields `init` has assigned when it calls `mapL4`. -/
def init.ranges (si : xenStartInfo) (w : World) : World :=
  let bootstrapEndPFN := vaddr.pfn (init.bootstrapEnd si)
  let nextPFN := pfn.add bootstrapEndPFN 1
  { w with
    mm := { bootstrapStackPFN := init.bootstrapStackPFN si
            bootstrapEndPFN := bootstrapEndPFN
            nextPFN := nextPFN
            lastPFN := si.NrPages
            nextHeapPage := pfn.vaddr nextPFN
            l4PFN := vaddr.pfn si.PageTableBase
            l4 := w.mm.l4 } }

/-- Source: `func (mm *atmanMemoryManager) init()`. -/
def init (env : BootEnv) (si : xenStartInfo) (w : World) : World :=
  let w1 := init.ranges si w
  let r := mapL4 env w1 w1.mm.l4PFN
  let w2 : World := { r.2 with mm := { r.2.mm with l4 := r.1 } }
  let w3 := unmapLowAddresses env w2
  unmapBootstrapPageTables env si w3

/-- The operations of the manager that the entry points reach after `init`. -/
inductive Op where
  | reservePFN
  | physAllocPage
  | reserveHeapPages (n : Nat)
  | mapPage (v f : Nat)
  | allocPage (v : Nat)
  | allocPages (v n : Nat)
  | mapFrames (frames : List Nat)

/-- The state one operation leaves, `none` when it does not return. -/
def Op.run (env : Env) (w : World) : Op → Option World
  | Op.reservePFN => some (Atman.reservePFN w).2
  | Op.physAllocPage => some (Atman.physAllocPage env w).2
  | Op.reserveHeapPages n => some (Atman.reserveHeapPages w n).2
  | Op.mapPage v f => (Atman.mapPage env w v f).map Prod.snd
  | Op.allocPage v => (Atman.allocPage env w v).map Prod.snd
  | Op.allocPages v n => (Atman.allocPages env w v n).result.map Prod.snd
  | Op.mapFrames frames => (Atman.mapFrames env w frames).map Prod.snd

/-- The state a sequence of operations leaves, `none` when one of them does not
return. -/
def runOps (env : Env) : List Op → World → Option World
  | [], w => some w
  | op :: rest, w =>
    match Op.run env w op with
    | none => none
    | some w1 => runOps env rest w1

/-- The number of heap pages an operation reserves. -/
def Op.reserved : Op → Nat
  | Op.reserveHeapPages n => n
  | Op.allocPages v n => if v = 0 then n else 0
  | Op.mapFrames frames => frames.length
  | _ => 0

/-- The index a view argument stands for: 511 for `-1`, the argument itself otherwise. -/
def viewIndex (x : Int) : Nat :=
  if x = -1 then 511 else x.toNat

/-- An environment with identity frame translations whose hypervisor accepts every
request, those of the bootstrap included. -/
def bootIdEnv : BootEnv :=
  { toEnv := idEnv, update_va_mapping := fun _ _ _ _ => 0 }

/-- A loader descriptor: the top-level table at 1 MB (guest frame 256), four
page-table frames, 2048 frames (8 MB) in the guest. -/
def loaderInfo : xenStartInfo :=
  { PageTableBase := 0x100000, NrPageTableFrames := 4, NrPages := 2048 }

/-- The state the loader leaves for `loaderInfo`: the frames 256 .. 259 are the L4, L3,
L2 and L1 table, and the L1 table maps the first 2 MB of virtual addresses to the
frames of the same number; the manager has not been initialised. -/
def loaderWorld : World :=
  { mm := { bootstrapStackPFN := 0, bootstrapEndPFN := 0, nextPFN := 0, lastPFN := 0,
            nextHeapPage := 0, l4PFN := 0, l4 := 0 },
    cr3 := 256,
    mem := fun fr i =>
      if fr = 256 then (if i = 0 then 257 * 4096 + 3 else 0)
      else if fr = 257 then (if i = 0 then 258 * 4096 + 3 else 0)
      else if fr = 258 then (if i = 0 then 259 * 4096 + 3 else 0)
      else if fr = 259 then (if i < 512 then i * 4096 + 3 else 0)
      else 0,
    trace := [] }

/-- A loader descriptor whose page tables sit in the last frames of the 64-bit
address space. -/
def highInfo : xenStartInfo :=
  { PageTableBase := 2 ^ 64 - 8192, NrPageTableFrames := 0, NrPages := 2048 }

/-- The page tables form a tree under the labelling `lab` of frames:
`lab T = some (l, π)` says that frame `T` is the table whose entries are selected by
the index of level `l` (3 for the L4 table down to 0 for an L1 table), reached from
the top-level table by the indices coded in `π`. The top-level table is labelled,
and a present entry in slot `j` of a labelled table of level `l + 1` names the table
labelled `(l, π * 512 + j)`; slot 511 of the top-level table, the recursive slot, is
exempt. -/
structure Labelled (w : World) (lab : Nat → Option (Nat × Nat)) : Prop where
  root : lab w.cr3 = some (3, 0)
  child : ∀ T l π j, lab T = some (l + 1, π) → j < 512 → (l + 1 = 3 → j ≠ 511) →
    hasFlag (w.mem T j) xenPageTablePresent = true →
    lab (pageTableEntry.mfn (w.mem T j)) = some (l, π * 512 + j)

/-- The labelling of the four tables of `loaderWorld`. -/
def loaderLab (T : Nat) : Option (Nat × Nat) :=
  if T = 256 then some (3, 0)
  else if T = 257 then some (2, 0)
  else if T = 258 then some (1, 0)
  else if T = 259 then some (0, 0)
  else none

/-- The entries a walk from the top-level table reads for the address `va`, from L4
down, ending with the first entry that is not present. -/
def walkEntries (w : World) (va : Nat) : List Nat :=
  let e4 := w.mem w.cr3 (pageTableOffset va 3)
  if !hasFlag e4 xenPageTablePresent then [e4] else
  let e3 := w.mem (pageTableEntry.mfn e4) (pageTableOffset va 2)
  if !hasFlag e3 xenPageTablePresent then [e4, e3] else
  let e2 := w.mem (pageTableEntry.mfn e3) (pageTableOffset va 1)
  if !hasFlag e2 xenPageTablePresent then [e4, e3, e2] else
  [e4, e3, e2, w.mem (pageTableEntry.mfn e2) (pageTableOffset va 0)]

/-- Machine memory has only lost entries between `w` and `w'`: every word is as it
was or zero. -/
def ZeroedFrom (w w' : World) : Prop :=
  w'.cr3 = w.cr3 ∧ ∀ fr i, w'.mem fr i = w.mem fr i ∨ w'.mem fr i = 0

/-- Between `w` and `w'` no field of the manager but `nextPFN` has changed, and when
the cursors of `w` are ordered 64-bit words `nextPFN` has only moved towards
`lastPFN`. -/
def FramesOnly (w w' : World) : Prop :=
  w'.mm = { w.mm with nextPFN := w'.mm.nextPFN }
    ∧ (w.mm.nextPFN ≤ w.mm.lastPFN → w.mm.lastPFN < 2 ^ 64 →
        w.mm.nextPFN ≤ w'.mm.nextPFN ∧ w'.mm.nextPFN ≤ w.mm.lastPFN)

/-- A loader descriptor for a guest of 1024 frames (4 MB): the bootstrap region, padded
and rounded to 4 MB, takes all of them. -/
def tinyInfo : xenStartInfo :=
  { PageTableBase := 0x100000, NrPageTableFrames := 4, NrPages := 1024 }

/-- How far `mapPage` got on the path of `v` from `w` when it returned `false` in
`w'`: nowhere, past the L4 level, or past the L4 and L3 levels. -/
def Staged (env : Env) (w w' : World) (v : Nat) (avoid : List Nat) : Prop :=
  w' = w
    ∨ (∃ e4, Advanced env w w' v 2 w.cr3 avoid e4)
    ∨ ∃ e4 w1 e3, Advanced env w w1 v 2 w.cr3 avoid e4
        ∧ Advanced env w1 w' v 1 (pageTableEntry.mfn e4) (w.cr3 :: avoid) e3

/-- A correctly bootstrapped manager whose page tables form a tree under the labelling
`lab`, every labelled frame translating back and forth and lying outside the pool. -/
structure Tree (env : Env) (w : World) (lab : Nat → Option (Nat × Nat)) : Prop where
  installed : Installed env w
  labelled : Labelled w lab
  rt : ∀ T x, lab T = some x → env.p2m (env.m2p T) = T
  pool : ∀ T x, lab T = some x → ∀ p, InPool w p → env.p2m p ≠ T

/-- The code of the indices that lead to the L1 table of `v`. -/
def pathPrefix (v : Nat) : Nat :=
  (pageTableOffset v 3 * 512 + pageTableOffset v 2) * 512 + pageTableOffset v 1

/-- What a mapping operation leaves of a tree of page tables between `w` and `w'`: the
tables still form a tree under a labelling `lab'` that extends `lab` by frames
taken from the pool, the present entries of the tables above the L1 level are as
they were, so are the entries of the L1 tables outside the slots `exc`, and no
update request names slot 511 of the top-level table. -/
structure TreeStep (env : Env) (w w' : World) (lab lab' : Nat → Option (Nat × Nat))
    (exc : Nat → Nat → Prop) : Prop where
  tree : Tree env w' lab'
  ext : ∀ x y, lab x = some y → lab' x = some y
  born : ∀ x y, lab' x = some y →
    lab x = some y ∨ ∃ p, InPool w p ∧ ¬ InPool w' p ∧ env.p2m p = x
  cr3 : w'.cr3 = w.cr3
  pool_sub : ∀ p, InPool w' p → InPool w p
  keep_tables : ∀ T l π j, lab T = some (l + 1, π) →
    hasFlag (w.mem T j) xenPageTablePresent = true → w'.mem T j = w.mem T j
  keep_leaves : ∀ T π j, lab T = some (0, π) → ¬ exc π j → w'.mem T j = w.mem T j
  slot : ∀ ptr val ret, Event.mmu_update ptr val ret ∈ w'.trace.drop w.trace.length →
    ptr ≠ w.cr3 * 4096 + 511 * 8
  trace : ∃ l, w'.trace = w.trace ++ l

/-- The labelling of `bootWorldN n`: the top-level table in frame 1 is the only table. -/
def bootLab (T : Nat) : Option (Nat × Nat) :=
  if T = 1 then some (3, 0) else none

/-- The tables below the table in frame `T` on the path of `v` can be handed to
`writePte`: every frame that a present entry on the path (index levels `lvl` down
to 1) leads to translates back and forth and is not in the pool. Unlike `PathClean`
this does not ask the tables of the path to be different frames, so it also holds
for addresses inside the recursive window. -/
def PathSound (env : Env) (w : World) (v : Nat) : Nat → Nat → Prop
  | 0, _ => True
  | lvl + 1, T =>
    hasFlag (w.mem T (pageTableOffset v (lvl + 1))) xenPageTablePresent = true →
      env.p2m (env.m2p (pageTableEntry.mfn (w.mem T (pageTableOffset v (lvl + 1)))))
          = pageTableEntry.mfn (w.mem T (pageTableOffset v (lvl + 1)))
      ∧ (∀ p, InPool w p →
          env.p2m p ≠ pageTableEntry.mfn (w.mem T (pageTableOffset v (lvl + 1))))
      ∧ PathSound env w v lvl (pageTableEntry.mfn (w.mem T (pageTableOffset v (lvl + 1))))

/-- The address with the page-table indices `(511, 0, 0, 0)`, the first page of the
recursive window. -/
def windowPage : Nat := 0xFFFFFF8000000000

/-- A bootstrapped manager as `bootWorldN n` whose pool has not been cleaned: the frames
16 and 17, the first frames of the pool, still hold an entry for frame 40 in slot 0,
and frame 40 an entry for frame 41 in slot 8, left over from an earlier use as page
tables. -/
def stalePoolWorld (n : Nat) : World :=
  { mm := (bootWorldN n).mm, cr3 := 1,
    mem := fun fr i =>
      if fr = 1 ∧ i = 511 then 4097
      else if (fr = 16 ∨ fr = 17) ∧ i = 0 then 40 * 4096 + 3
      else if fr = 40 ∧ i = 8 then 41 * 4096 + 3
      else 0,
    trace := [] }

/-- A manager that has not been bootstrapped correctly: slot 511 of the top-level table
in frame 1 does not name the table itself but starts the chain of frames 2, 3, 4, 5,
so that the view `mm.l4` shows frame 5 and the view of the L3 table of L4 index 0
shows frame 6; one frame is in the pool. -/
def strayWorld : World :=
  { mm := (bootWorldN 1).mm, cr3 := 1,
    mem := fun fr i =>
      if fr = 1 ∧ i = 511 then 2 * 4096 + 1
      else if fr = 2 ∧ i = 511 then 3 * 4096 + 1
      else if fr = 3 ∧ i = 511 then 4 * 4096 + 1
      else if fr = 4 ∧ i = 511 then 5 * 4096 + 1
      else if fr = 4 ∧ i = 0 then 6 * 4096 + 1
      else 0,
    trace := [] }

/-- A loader descriptor whose top-level page table is mapped in the last page of the
address space, inside the recursive window. -/
def topInfo : xenStartInfo :=
  { PageTableBase := 2 ^ 64 - 4096, NrPageTableFrames := 1, NrPages := 2048 }

/-- An environment whose hypervisor accepts every request and in which the guest frame
of the last page of the address space, `2^52 - 1`, is machine frame 256, the
top-level table of `loaderWorld`; the other frames translate to themselves. -/
def topEnv : BootEnv :=
  { p2m := fun p => if p = 2 ^ 52 - 1 then 256 else p,
    m2p := fun m => if m = 256 then 2 ^ 52 - 1 else m,
    mmu_update := fun _ _ _ => 0, mmuext_op := fun _ _ => 0,
    update_va_mapping := fun _ _ _ _ => 0 }

/-- The machine address of the slot that `writePte(table, offset, ..)` names in its
update request. -/
def writePte.ptr (env : Env) (table offset : Nat) : Nat :=
  ((env.p2m table * 2 ^ xenPageFlagShift) % 2 ^ 64 + (offset * 8) % 2 ^ 64) % 2 ^ 64

/-- A sequence of calls after `init`: a frame is reserved, the page at `0x401000` is
backed, two heap pages are reserved and a frame is allocated. -/
def sampleOps : List Op :=
  [Op.reservePFN, Op.allocPage 0x401000, Op.reserveHeapPages 2, Op.physAllocPage]

/-! ## Theorems -/

theorem reservePFN_fst_of_eq (w : World) (h : w.mm.nextPFN = w.mm.lastPFN) :
    reservePFN w = ((0, false), w) := by
  simp [reservePFN, h]

theorem reservePFN_of_ne (w : World) (h : w.mm.nextPFN ≠ w.mm.lastPFN) :
    reservePFN w = ((w.mm.nextPFN, true),
      { w with mm := { w.mm with nextPFN := (w.mm.nextPFN + 1) % 2 ^ 64 } }) := by
  simp [reservePFN, h]

/-- Closed form of `k` consecutive `reservePFN` calls on a state whose cursors are
64-bit words: `freeFrames w` successes, then failures. -/
theorem reservePFNCalls_eq (k : Nat) (w : World)
    (hn : w.mm.nextPFN < 2 ^ 64) (hl : w.mm.lastPFN < 2 ^ 64) :
    reservePFNCalls k w
      = (List.range (min k (freeFrames w))).map
          (fun i => ((w.mm.nextPFN + i) % 2 ^ 64, true))
        ++ List.replicate (k - freeFrames w) (0, false) := by
  induction k generalizing w with
  | zero => simp [reservePFNCalls]
  | succ k ih =>
    by_cases h : w.mm.nextPFN = w.mm.lastPFN
    · have hd : freeFrames w = 0 := by
        unfold freeFrames; rw [h]; omega
      have ih0 := ih w hn hl
      rw [hd] at ih0 ⊢
      simp only [reservePFNCalls, reservePFN_fst_of_eq w h, ih0]
      simp [List.replicate_succ]
    · have hd : freeFrames w ≠ 0 := by
        unfold freeFrames; omega
      set w1 : World :=
        { w with mm := { w.mm with nextPFN := (w.mm.nextPFN + 1) % 2 ^ 64 } } with hw1
      have hn1 : w1.mm.nextPFN < 2 ^ 64 := by
        simp only [hw1]; omega
      have hl1 : w1.mm.lastPFN < 2 ^ 64 := by
        simpa [hw1] using hl
      have hd1 : freeFrames w1 = freeFrames w - 1 := by
        simp only [freeFrames, hw1] at hd ⊢; omega
      have ih1 := ih w1 hn1 hl1
      simp only [reservePFNCalls, reservePFN_of_ne w h]
      rw [ih1, hd1]
      have hmin : min (k + 1) (freeFrames w) = min k (freeFrames w - 1) + 1 := by omega
      have hsub : k + 1 - freeFrames w = k - (freeFrames w - 1) := by omega
      rw [hmin, hsub, List.range_succ_eq_map]
      simp only [List.map_cons, List.map_map, List.cons_append, Nat.add_zero]
      congr 1
      · simp only [Prod.mk.injEq, and_true]
        omega
      · congr 1
        apply List.map_congr_left
        intro i _
        simp only [Function.comp, hw1, Prod.mk.injEq, and_true]
        omega

/-- The cursors after `k` consecutive `reservePFN` calls. -/
theorem afterReservePFNCalls_cursors (k : Nat) (w : World)
    (hn : w.mm.nextPFN < 2 ^ 64) (hl : w.mm.lastPFN < 2 ^ 64) :
    (afterReservePFNCalls k w).mm.nextPFN
        = (w.mm.nextPFN + min k (freeFrames w)) % 2 ^ 64
      ∧ (afterReservePFNCalls k w).mm.lastPFN = w.mm.lastPFN := by
  induction k generalizing w with
  | zero =>
    simp only [afterReservePFNCalls, Nat.zero_min, Nat.add_zero, and_true]
    omega
  | succ k ih =>
    by_cases h : w.mm.nextPFN = w.mm.lastPFN
    · have hd : freeFrames w = 0 := by
        unfold freeFrames; rw [h]; omega
      have ih0 := ih w hn hl
      rw [hd] at ih0 ⊢
      simp only [afterReservePFNCalls, reservePFN_fst_of_eq w h]
      simpa using ih0
    · have hd : freeFrames w ≠ 0 := by
        unfold freeFrames; omega
      set w1 : World :=
        { w with mm := { w.mm with nextPFN := (w.mm.nextPFN + 1) % 2 ^ 64 } } with hw1
      have hn1 : w1.mm.nextPFN < 2 ^ 64 := by
        simp only [hw1]; omega
      have hl1 : w1.mm.lastPFN < 2 ^ 64 := by
        simpa [hw1] using hl
      have hd1 : freeFrames w1 = freeFrames w - 1 := by
        simp only [freeFrames, hw1] at hd ⊢; omega
      have ih1 := ih w1 hn1 hl1
      simp only [afterReservePFNCalls, reservePFN_of_ne w h]
      rw [ih1.1, ih1.2, hd1]
      have hmin : min (k + 1) (freeFrames w) = min k (freeFrames w - 1) + 1 := by omega
      rw [hmin]
      refine ⟨?_, rfl⟩
      simp only [hw1]
      omega

/-- Closed form of the frames issued by `k` consecutive `reservePFN` calls. -/
theorem issuedFrames_eq (k : Nat) (w : World)
    (hn : w.mm.nextPFN < 2 ^ 64) (hl : w.mm.lastPFN < 2 ^ 64) :
    issuedFrames k w
      = (List.range (min k (freeFrames w))).map (fun i => (w.mm.nextPFN + i) % 2 ^ 64) := by
  unfold issuedFrames
  rw [reservePFNCalls_eq k w hn hl, List.filter_append, List.map_append]
  have h1 : List.filter (fun r : Nat × Bool => r.2)
      (List.replicate (k - freeFrames w) (0, false)) = [] := by
    simp [List.filter_eq_nil_iff]
  have h2 : List.filter (fun r : Nat × Bool => r.2)
      ((List.range (min k (freeFrames w))).map
        (fun i => ((w.mm.nextPFN + i) % 2 ^ 64, true)))
      = (List.range (min k (freeFrames w))).map
        (fun i => ((w.mm.nextPFN + i) % 2 ^ 64, true)) := by
    simp [List.filter_eq_self]
  rw [h1, h2]
  simp [List.map_map, Function.comp]

theorem freeFrames_lt (w : World) : freeFrames w < 2 ^ 64 := by
  unfold freeFrames; omega

theorem freeFrames_of_le (w : World) (h : w.mm.nextPFN ≤ w.mm.lastPFN)
    (hl : w.mm.lastPFN < 2 ^ 64) : freeFrames w = w.mm.lastPFN - w.mm.nextPFN := by
  unfold freeFrames; omega

/-- C1 (as stated, refuted): from the state with `nextPFN = 2^64 - 1` and
`lastPFN = 1` two calls of `reservePFN` both succeed and return `2^64 - 1` and then
`0`: the issued frame numbers are not increasing. -/
theorem reservePFN_not_increasing_at_wrap :
    reservePFNCalls 2 wrapWorld = [(2 ^ 64 - 1, true), (0, true)]
      ∧ ¬ (issuedFrames 2 wrapWorld).Pairwise (fun a b => a < b) := by
  have h : reservePFNCalls 2 wrapWorld = [(2 ^ 64 - 1, true), (0, true)] := by
    simp [reservePFNCalls, reservePFN, wrapWorld]
  refine ⟨h, ?_⟩
  simp [issuedFrames, h]

/-- C1 (amended): for every manager state whose cursors are 64-bit words and every
number `k` of consecutive `reservePFN` calls, no frame number is returned twice by the
successful calls; and when `nextPFN ≤ lastPFN` the frame numbers returned by the
successful calls are strictly increasing in call order. -/
theorem reservePFN_issued_nodup_increasing (w : World) (k : Nat)
    (hn : w.mm.nextPFN < 2 ^ 64) (hl : w.mm.lastPFN < 2 ^ 64) :
    (issuedFrames k w).Nodup
      ∧ (w.mm.nextPFN ≤ w.mm.lastPFN →
          (issuedFrames k w).Pairwise (fun a b => a < b)) := by
  rw [issuedFrames_eq k w hn hl]
  have hfree := freeFrames_lt w
  constructor
  · apply List.Nodup.map_on _ (List.nodup_range _)
    intro i hi j hj hij
    simp only [List.mem_range] at hi hj
    omega
  · intro hle
    have hf := freeFrames_of_le w hle hl
    rw [List.pairwise_map]
    apply List.Pairwise.imp_of_mem _ (List.pairwise_lt_range _)
    intro i j hi hj hij
    simp only [List.mem_range] at hi hj
    omega

/-- Witness of `reservePFN_issued_nodup_increasing`: five calls on the state with
frames 5, 6, 7 left. -/
theorem reservePFN_issued_nodup_increasing_witness :
    (issuedFrames 5 smallWorld).Nodup
      ∧ (smallWorld.mm.nextPFN ≤ smallWorld.mm.lastPFN →
          (issuedFrames 5 smallWorld).Pairwise (fun a b => a < b)) :=
  reservePFN_issued_nodup_increasing smallWorld 5 (by decide) (by decide)

/-- C2: from a state with `nextPFN ≤ lastPFN` the first `lastPFN - nextPFN` calls of
`reservePFN` succeed and return `nextPFN, nextPFN + 1, .., lastPFN - 1` in order and
all later calls return `(0, false)`; a call made after at least that many calls
returns `(0, false)` and leaves the whole state, `nextPFN` included, unchanged; and
no frame number `≥ lastPFN` is returned with `ok = true`. -/
theorem reservePFN_exhaustion (w : World)
    (hle : w.mm.nextPFN ≤ w.mm.lastPFN) (hl : w.mm.lastPFN < 2 ^ 64) :
    (∀ k, reservePFNCalls k w
        = (List.range (min k (w.mm.lastPFN - w.mm.nextPFN))).map
            (fun i => (w.mm.nextPFN + i, true))
          ++ List.replicate (k - (w.mm.lastPFN - w.mm.nextPFN)) (0, false))
      ∧ (∀ k, w.mm.lastPFN - w.mm.nextPFN ≤ k →
          reservePFN (afterReservePFNCalls k w) = ((0, false), afterReservePFNCalls k w))
      ∧ (∀ k p, (p, true) ∈ reservePFNCalls k w → p < w.mm.lastPFN) := by
  have hn : w.mm.nextPFN < 2 ^ 64 := by omega
  have hf := freeFrames_of_le w hle hl
  have hcalls : ∀ k, reservePFNCalls k w
        = (List.range (min k (w.mm.lastPFN - w.mm.nextPFN))).map
            (fun i => (w.mm.nextPFN + i, true))
          ++ List.replicate (k - (w.mm.lastPFN - w.mm.nextPFN)) (0, false) := by
    intro k
    rw [reservePFNCalls_eq k w hn hl, hf]
    congr 1
    apply List.map_congr_left
    intro i hi
    simp only [List.mem_range] at hi
    simp only [Prod.mk.injEq, and_true]
    omega
  refine ⟨hcalls, ?_, ?_⟩
  · intro k hk
    have hc := afterReservePFNCalls_cursors k w hn hl
    apply reservePFN_fst_of_eq
    rw [hc.1, hc.2, hf]
    omega
  · intro k p hp
    rw [hcalls k] at hp
    simp only [List.mem_append, List.mem_map, List.mem_range, Prod.mk.injEq, and_true,
      List.mem_replicate, Bool.true_eq_false, and_false, or_false] at hp
    obtain ⟨i, hi, rfl⟩ := hp
    omega

/-- Witness of `reservePFN_exhaustion`: the state with frames 5, 6, 7 left. -/
theorem reservePFN_exhaustion_witness :
    (∀ k, reservePFNCalls k smallWorld
        = (List.range (min k (smallWorld.mm.lastPFN - smallWorld.mm.nextPFN))).map
            (fun i => (smallWorld.mm.nextPFN + i, true))
          ++ List.replicate (k - (smallWorld.mm.lastPFN - smallWorld.mm.nextPFN)) (0, false))
      ∧ (∀ k, smallWorld.mm.lastPFN - smallWorld.mm.nextPFN ≤ k →
          reservePFN (afterReservePFNCalls k smallWorld)
            = ((0, false), afterReservePFNCalls k smallWorld))
      ∧ (∀ k p, (p, true) ∈ reservePFNCalls k smallWorld → p < smallWorld.mm.lastPFN) :=
  reservePFN_exhaustion smallWorld (by decide) (by decide)

theorem reserveHeapPages_fst (w : World) (n : Nat) :
    (reserveHeapPages w n).1 = w.mm.nextHeapPage := rfl

theorem reserveHeapPages_cursor (w : World) (n : Nat) :
    (reserveHeapPages w n).2.mm.nextHeapPage = (w.mm.nextHeapPage + n * 4096) % 2 ^ 64 := by
  simp only [reserveHeapPages, _PAGESIZE]
  omega

theorem reserveHeapPages_cursor_of_lt (w : World) (n : Nat)
    (h : w.mm.nextHeapPage + n * 4096 < 2 ^ 64) :
    (reserveHeapPages w n).2.mm.nextHeapPage = w.mm.nextHeapPage + n * 4096 := by
  rw [reserveHeapPages_cursor]
  omega

/-- C3 (as stated, refuted): with the cursor at 4096 a request for `2^52` pages
returns 4096 and leaves the cursor at 4096, not at `4096 + 2^52 * 4096`. -/
theorem reserveHeapPages_wraps :
    (reserveHeapPages wrapWorld (2 ^ 52)).1 = 4096
      ∧ (reserveHeapPages wrapWorld (2 ^ 52)).2.mm.nextHeapPage = 4096
      ∧ (reserveHeapPages wrapWorld (2 ^ 52)).2.mm.nextHeapPage
          ≠ wrapWorld.mm.nextHeapPage + 2 ^ 52 * 4096 := by
  simp [reserveHeapPages, wrapWorld, _PAGESIZE]

/-- C3 (amended): for every state and every `n`, `reserveHeapPages n` returns the value
`nextHeapPage` had before the call and sets `nextHeapPage` to that value plus
`n * 4096` reduced modulo `2^64`, which is that value plus `n * 4096` whenever this
sum is below `2^64`; no other manager field, no word of machine memory (so no
page-table entry) and no other part of the state changes; and if the cursor was
page-aligned before the call, the returned base and the new cursor are page-aligned. -/
theorem reserveHeapPages_spec (w : World) (n : Nat) :
    (reserveHeapPages w n).1 = w.mm.nextHeapPage
      ∧ (reserveHeapPages w n).2
          = { w with mm := { w.mm with
                nextHeapPage := (w.mm.nextHeapPage + n * 4096) % 2 ^ 64 } }
      ∧ (w.mm.nextHeapPage + n * 4096 < 2 ^ 64 →
          (reserveHeapPages w n).2.mm.nextHeapPage = w.mm.nextHeapPage + n * 4096)
      ∧ (w.mm.nextHeapPage % 4096 = 0 →
          (reserveHeapPages w n).1 % 4096 = 0
            ∧ (reserveHeapPages w n).2.mm.nextHeapPage % 4096 = 0) := by
  have hcur := reserveHeapPages_cursor w n
  refine ⟨rfl, ?_, ?_, ?_⟩
  · have hmod : (w.mm.nextHeapPage + n * 4096 % 2 ^ 64) % 2 ^ 64
        = (w.mm.nextHeapPage + n * 4096) % 2 ^ 64 := by omega
    simp only [reserveHeapPages, _PAGESIZE, hmod]
  · intro h
    rw [hcur]
    omega
  · intro h
    refine ⟨h, ?_⟩
    rw [hcur]
    omega

/-- Without wrap-around every base returned by a run of `reserveHeapPages` calls is
at or above the cursor the run started from. -/
theorem reserveHeapCalls_lower (ns : List Nat) (w : World)
    (h : w.mm.nextHeapPage + 4096 * ns.sum < 2 ^ 64) :
    ∀ b ∈ reserveHeapCalls ns w, w.mm.nextHeapPage ≤ b.1 := by
  induction ns generalizing w with
  | nil => simp [reserveHeapCalls]
  | cons n ns ih =>
    simp only [List.sum_cons] at h
    have hcur : (reserveHeapPages w n).2.mm.nextHeapPage = w.mm.nextHeapPage + n * 4096 :=
      reserveHeapPages_cursor_of_lt w n (by omega)
    intro b hb
    simp only [reserveHeapCalls, List.mem_cons] at hb
    rcases hb with rfl | hb
    · exact Nat.le_of_eq (reserveHeapPages_fst w n).symm
    · have := ih (reserveHeapPages w n).2 (by rw [hcur]; omega) b hb
      omega

/-- Without wrap-around the range of every call ends at or before the base of every
later call. -/
theorem reserveHeapCalls_ordered (ns : List Nat) (w : World)
    (h : w.mm.nextHeapPage + 4096 * ns.sum < 2 ^ 64) :
    (reserveHeapCalls ns w).Pairwise (fun a b => a.1 + a.2 * 4096 ≤ b.1) := by
  induction ns generalizing w with
  | nil => simp [reserveHeapCalls]
  | cons n ns ih =>
    simp only [List.sum_cons] at h
    have hcur : (reserveHeapPages w n).2.mm.nextHeapPage = w.mm.nextHeapPage + n * 4096 :=
      reserveHeapPages_cursor_of_lt w n (by omega)
    simp only [reserveHeapCalls, List.pairwise_cons]
    constructor
    · intro b hb
      have := reserveHeapCalls_lower ns (reserveHeapPages w n).2 (by rw [hcur]; omega) b hb
      have h1 := reserveHeapPages_fst w n
      omega
    · exact ih (reserveHeapPages w n).2 (by rw [hcur]; omega)

/-- C4 (as stated, refuted): two calls with page count 0 return the same base. -/
theorem reserveHeapPages_zero_repeats :
    reserveHeapCalls [0, 0] smallWorld = [(20480, 0), (20480, 0)]
      ∧ ¬ ((reserveHeapCalls [0, 0] smallWorld).map (fun c => c.1)).Pairwise
            (fun a b => a < b)
      ∧ ¬ ((reserveHeapCalls [0, 0] smallWorld).map (fun c => c.1)).Nodup := by
  have h : reserveHeapCalls [0, 0] smallWorld = [(20480, 0), (20480, 0)] := by
    simp [reserveHeapCalls, reserveHeapPages, smallWorld, _PAGESIZE]
  refine ⟨h, ?_, ?_⟩ <;> simp [h]

/-- C4 (amended): for any sequence of `reserveHeapPages` calls with page counts
`ns` during which the cursor does not wrap around
(`nextHeapPage + 4096 * (n1 + n2 + ..) < 2^64`), the returned bases are
non-decreasing in call order, the base of a call with a positive page count is
strictly below the base of every later call (so it is not returned again), and the
ranges `[base_i, base_i + n_i * 4096)` of different calls are pairwise disjoint. -/
theorem reserveHeapPages_monotone_disjoint (ns : List Nat) (w : World)
    (h : w.mm.nextHeapPage + 4096 * ns.sum < 2 ^ 64) :
    (reserveHeapCalls ns w).Pairwise (fun a b => a.1 ≤ b.1)
      ∧ (reserveHeapCalls ns w).Pairwise (fun a b => 0 < a.2 → a.1 < b.1)
      ∧ (reserveHeapCalls ns w).Pairwise
          (fun a b => ∀ x, ¬ ((a.1 ≤ x ∧ x < a.1 + a.2 * 4096)
                              ∧ (b.1 ≤ x ∧ x < b.1 + b.2 * 4096))) := by
  have ho := reserveHeapCalls_ordered ns w h
  refine ⟨ho.imp ?_, ho.imp ?_, ho.imp ?_⟩
  · intro a b hab
    omega
  · intro a b hab hpos
    omega
  · intro a b hab x hx
    omega

/-- Witness of `reserveHeapPages_monotone_disjoint`: the page counts 2, 0, 3 from the
cursor 20480. -/
theorem reserveHeapPages_monotone_disjoint_witness :
    (reserveHeapCalls [2, 0, 3] smallWorld).Pairwise (fun a b => a.1 ≤ b.1)
      ∧ (reserveHeapCalls [2, 0, 3] smallWorld).Pairwise (fun a b => 0 < a.2 → a.1 < b.1)
      ∧ (reserveHeapCalls [2, 0, 3] smallWorld).Pairwise
          (fun a b => ∀ x, ¬ ((a.1 ≤ x ∧ x < a.1 + a.2 * 4096)
                              ∧ (b.1 ≤ x ∧ x < b.1 + b.2 * 4096))) :=
  reserveHeapPages_monotone_disjoint [2, 0, 3] smallWorld (by decide)

/-! ### Entries, views and the hardware walk -/


theorem hasFlag_present (e : Nat) :
    hasFlag e xenPageTablePresent = true ↔ e % 2 = 1 := by
  simp [hasFlag, xenPageTablePresent]

theorem hasFlag_zero : hasFlag 0 xenPageTablePresent = false := by
  decide

theorem entryOf_eq_add (value flags : Nat) (hf : flags < 4096) :
    entryOf value flags = 4096 * (value % 2 ^ 52) + flags := by
  have h1 : (value * 2 ^ 12) % 2 ^ 64 = 2 ^ 12 * (value % 2 ^ 52) := by omega
  have h2 := Nat.mul_add_lt_is_or (i := 12) (b := flags) (by omega) (value % 2 ^ 52)
  simp only [entryOf, setFlag, xenPageFlagShift, h1, ← h2]

theorem entryOf_table_present (value : Nat) :
    hasFlag (entryOf value (PTE_PAGE_TABLE_FLAGS ||| xenPageTableWritable))
      xenPageTablePresent = true := by
  have hf : PTE_PAGE_TABLE_FLAGS ||| xenPageTableWritable = 3 := by decide
  rw [hf, hasFlag_present, entryOf_eq_add _ _ (by omega)]
  omega

theorem entryOf_page_present (value : Nat) :
    hasFlag (entryOf value PTE_PAGE_FLAGS) xenPageTablePresent = true := by
  have hf : PTE_PAGE_FLAGS = 3 := by decide
  rw [hf, hasFlag_present, entryOf_eq_add _ _ (by omega)]
  omega

theorem entryOf_mfn (value flags : Nat) (hf : flags < 4096) :
    pageTableEntry.mfn (entryOf value flags) = value % 2 ^ 40 := by
  rw [entryOf_eq_add _ _ hf]
  simp only [pageTableEntry.mfn, xenPageFlagShift]
  omega

theorem mfn_lt (e : Nat) : pageTableEntry.mfn e < 2 ^ 40 := by
  simp only [pageTableEntry.mfn, xenPageFlagShift]
  omega

theorem getPageTable_l4 : getPageTable (-1) (-1) (-1) = 0xFFFFFFFFFFFFF000 := by
  decide

theorem getPageTable_l3 (a : Nat) (ha : a < 512) :
    getPageTable (-1) (-1) a = 0xFFFFFFFFFFE00000 + a * 4096 := by
  simp only [getPageTable, toUint64]
  have h1 : ¬ ((a : Int) = -1) := by omega
  simp only [h1, if_false, if_true]
  omega

theorem getPageTable_l2 (a b : Nat) (ha : a < 512) (hb : b < 512) :
    getPageTable (-1) a b = 0xFFFFFFFFC0000000 + a * 2097152 + b * 4096 := by
  simp only [getPageTable, toUint64]
  have h1 : ¬ ((a : Int) = -1) := by omega
  have h2 : ¬ ((b : Int) = -1) := by omega
  simp only [h1, h2, if_false, if_true]
  omega

theorem getPageTable_l1 (a b c : Nat) (ha : a < 512) (hb : b < 512) (hc : c < 512) :
    getPageTable a b c = 0xFFFFFF8000000000 + a * 1073741824 + b * 2097152 + c * 4096 := by
  simp only [getPageTable, toUint64]
  have h1 : ¬ ((a : Int) = -1) := by omega
  have h2 : ¬ ((b : Int) = -1) := by omega
  have h3 : ¬ ((c : Int) = -1) := by omega
  simp only [h1, h2, h3, if_false, if_true]
  omega

theorem pageTableOffset_lt (a l : Nat) : pageTableOffset a l < 512 := by
  unfold pageTableOffset; omega


theorem pageTableOffset_l4 (a : Nat) : pageTableOffset a pageTableLevel4 = a / 549755813888 % 512 := by
  simp [pageTableOffset, pageTableLevel4]
theorem pageTableOffset_l3 (a : Nat) : pageTableOffset a pageTableLevel3 = a / 1073741824 % 512 := by
  simp [pageTableOffset, pageTableLevel3]
theorem pageTableOffset_l2 (a : Nat) : pageTableOffset a pageTableLevel2 = a / 2097152 % 512 := by
  simp [pageTableOffset, pageTableLevel2]
theorem pageTableOffset_l1 (a : Nat) : pageTableOffset a pageTableLevel1 = a / 4096 % 512 := by
  simp [pageTableOffset, pageTableLevel1]

/-- At an address that is a multiple of 8 the store that ends `mapPage` fills one
word. -/
theorem storeZero_aligned (w : World) (va : Nat) (h : va % 8 = 0) :
    storeZero w va = writeWord w va 0 := by
  simp only [storeZero, h, if_true]

/-- A read through a view is a read of the page the view translates to. -/
theorem Get_eq_translate (w : World) (A i : Nat) (hA : A % 4096 = 0) (hA64 : A < 2 ^ 64)
    (hi : i < 512) :
    xenPageTable.Get w A i
      = match translate w A with
        | none => none
        | some fr => some (w.mem fr i) := by
  have h0 : (A + i * 8) % 2 ^ 64 = A + i * 8 := by omega
  have h4 : (A + i * 8) / 549755813888 % 512 = A / 549755813888 % 512 := by omega
  have h3 : (A + i * 8) / 1073741824 % 512 = A / 1073741824 % 512 := by omega
  have h2 : (A + i * 8) / 2097152 % 512 = A / 2097152 % 512 := by omega
  have h1 : (A + i * 8) / 4096 % 512 = A / 4096 % 512 := by omega
  have hw : (A + i * 8) % 4096 / 8 = i := by omega
  simp only [xenPageTable.Get, readWord, h0, translate, pageTableOffset_l4, pageTableOffset_l3,
    pageTableOffset_l2, pageTableOffset_l1, h4, h3, h2, h1, hw]


theorem Get_l4 (w : World) (hr : Recursive w) (i : Nat) (hi : i < 512) :
    xenPageTable.Get w (getPageTable (-1) (-1) (-1)) i = some (w.mem w.cr3 i) := by
  rw [getPageTable_l4, Get_eq_translate w _ i (by norm_num) (by norm_num) hi]
  simp [translate, pageTableOffset_l4, pageTableOffset_l3, pageTableOffset_l2,
    pageTableOffset_l1, hr.1, hr.2]

theorem Get_l3 (w : World) (hr : Recursive w) (a i : Nat) (ha : a < 512) (hi : i < 512)
    (hp : hasFlag (w.mem w.cr3 a) xenPageTablePresent = true) :
    xenPageTable.Get w (getPageTable (-1) (-1) a) i
      = some (w.mem (pageTableEntry.mfn (w.mem w.cr3 a)) i) := by
  rw [getPageTable_l3 a ha, Get_eq_translate w _ i (by omega) (by omega) hi]
  have h4 : (0xFFFFFFFFFFE00000 + a * 4096) / 549755813888 % 512 = 511 := by omega
  have h3 : (0xFFFFFFFFFFE00000 + a * 4096) / 1073741824 % 512 = 511 := by omega
  have h2 : (0xFFFFFFFFFFE00000 + a * 4096) / 2097152 % 512 = 511 := by omega
  have h1 : (0xFFFFFFFFFFE00000 + a * 4096) / 4096 % 512 = a := by omega
  simp [translate, pageTableOffset_l4, pageTableOffset_l3, pageTableOffset_l2,
    pageTableOffset_l1, h4, h3, h2, h1, hr.1, hr.2, hp]


/-! ### One level of `mapPage` -/

theorem physAllocPage_fresh (env : Env) (w : World) (ha : Accepts env)
    (hne : w.mm.nextPFN ≠ w.mm.lastPFN) (hlt : w.mm.nextPFN + 1 < 2 ^ 64) :
    physAllocPage env w
      = ((env.p2m w.mm.nextPFN, true),
          { w with
            mm := { w.mm with nextPFN := w.mm.nextPFN + 1 }
            mem := clearFrame w.mem (env.p2m w.mm.nextPFN)
            trace := w.trace ++ [Event.mmuext_op [(16, env.p2m w.mm.nextPFN)] 0] }) := by
  have hm : (w.mm.nextPFN + 1) % 2 ^ 64 = w.mm.nextPFN + 1 := Nat.mod_eq_of_lt hlt
  simp only [physAllocPage, reservePFN_of_ne w hne, clearPage, mmuExtOp, HYPERVISOR_mmuext_op,
    ha.2, hm]
  simp [applyExtOp]

theorem physAllocPage_exhausted (env : Env) (w : World)
    (he : w.mm.nextPFN = w.mm.lastPFN) :
    physAllocPage env w = ((0, false), w) := by
  simp [physAllocPage, reservePFN_fst_of_eq w he]

theorem writePte_accepted (env : Env) (w : World) (ha : Accepts env)
    (table offset value flags T : Nat) (hT : env.p2m table = T) (hT52 : T < 2 ^ 52)
    (ho : offset < 512) :
    writePte env w table offset value flags
      = (entryOf value flags,
          { w with
            mem := setWord w.mem T offset (entryOf value flags)
            trace := w.trace ++
              [Event.mmu_update (T * 4096 + offset * 8) (entryOf value flags) 0] }) := by
  have hptr : ((T * 2 ^ 12) % 2 ^ 64 + (offset * 8) % 2 ^ 64) % 2 ^ 64
      = T * 4096 + offset * 8 := by omega
  have h1 : (T * 4096 + offset * 8) / 4096 = T := by omega
  have h2 : (T * 4096 + offset * 8) % 4096 / 8 = offset := by omega
  simp only [writePte, HYPERVISOR_mmu_update, ha.1, hT, xenPageFlagShift, hptr, h1, h2, entryOf]
  simp

theorem setWord_same (mem : Nat → Nat → Nat) (fr i val : Nat) :
    setWord mem fr i val fr i = val := by
  simp [setWord]

theorem setWord_other (mem : Nat → Nat → Nat) (fr i val fr' i' : Nat)
    (h : ¬ (fr' = fr ∧ i' = i)) : setWord mem fr i val fr' i' = mem fr' i' := by
  simp [setWord, h]

theorem clearFrame_same (mem : Nat → Nat → Nat) (fr i : Nat) :
    clearFrame mem fr fr i = 0 := by
  simp [clearFrame]

theorem clearFrame_other (mem : Nat → Nat → Nat) (fr fr' i : Nat) (h : fr' ≠ fr) :
    clearFrame mem fr fr' i = mem fr' i := by
  simp [clearFrame, h]

theorem missingFrom_empty (w : World) (v lvl N : Nat) (h : ∀ i, w.mem N i = 0) :
    missingFrom w v lvl N = lvl := by
  cases lvl with
  | zero => rfl
  | succ l => simp [missingFrom, h, hasFlag_zero]

theorem PathClean_empty (env : Env) (w : World) (v lvl N : Nat) (above : List Nat)
    (h : ∀ i, w.mem N i = 0) : PathClean env w v lvl N above := by
  cases lvl with
  | zero => trivial
  | succ l =>
    intro hp
    rw [h, hasFlag_zero] at hp
    exact absurd hp (by decide)

/-- One level of `mapPage` in a correctly bootstrapped state: either the entry is
absent and the pool is empty, and the block makes `mapPage` return `false` in an
unchanged state, or the block goes on with a present entry. -/
theorem installTable_stage (env : Env) (w : World) (v lvl T : Nat) (above : List Nat)
    (tp : Nat) (hI : Installed env w) (htp : env.p2m tp = T) (hT : T < 2 ^ 40)
    (hpool : ∀ p, InPool w p → env.p2m p ∉ T :: above)
    (hpath : PathClean env w v (lvl + 1) T above) :
    (hasFlag (w.mem T (pageTableOffset v (lvl + 1))) xenPageTablePresent = false
        ∧ w.mm.nextPFN = w.mm.lastPFN
        ∧ mapPage.installTable env w (w.mem T (pageTableOffset v (lvl + 1))) tp
            (pageTableOffset v (lvl + 1)) = (none, w)
        ∧ missingFrom w v (lvl + 1) T = lvl + 1)
      ∨ ∃ e' w', mapPage.installTable env w (w.mem T (pageTableOffset v (lvl + 1))) tp
            (pageTableOffset v (lvl + 1)) = (some e', w')
          ∧ Advanced env w w' v lvl T above e' := by
  have hoff : pageTableOffset v (lvl + 1) < 512 := pageTableOffset_lt _ _
  by_cases hp : hasFlag (w.mem T (pageTableOffset v (lvl + 1))) xenPageTablePresent = true
  · right
    refine ⟨w.mem T (pageTableOffset v (lvl + 1)), w, ?_, ?_⟩
    · simp [mapPage.installTable, hp]
    · obtain ⟨h1, h2, h3, h4⟩ := hpath hp
      exact
        { entry := rfl
          present := hp
          notin := h1
          rt := h2
          pool := by
            intro p hpp
            simp only [List.mem_cons, not_or]
            have := hpool p hpp
            simp only [List.mem_cons, not_or] at this
            exact ⟨h3 p hpp, this⟩
          installed := hI
          path := h4
          frame := fun _ _ _ _ => rfl
          kept := fun _ => rfl
          cr3 := rfl
          mm_eq := rfl
          pool_sub := fun _ h => h
          count := by simp [missingFrom, hp]
          trace := by simp [hp]
          fresh := fun h => by rw [hp] at h; exact absurd h (by decide) }
  · have hp' : hasFlag (w.mem T (pageTableOffset v (lvl + 1))) xenPageTablePresent = false := by
      simpa using hp
    by_cases he : w.mm.nextPFN = w.mm.lastPFN
    · left
      refine ⟨hp', he, ?_, ?_⟩
      · simp [mapPage.installTable, hp', physAllocPage_exhausted env w he]
      · simp [missingFrom, hp']
    · right
      have hin : InPool w w.mm.nextPFN := ⟨le_refl _, lt_of_le_of_ne hI.next_le he⟩
      have hlast := hI.last_lt
      have hN40 := hI.pool_lt _ hin
      have hNT := hpool _ hin
      simp only [List.mem_cons, not_or] at hNT
      have hNcr3 := hI.pool_cr3 _ hin
      have hphys := physAllocPage_fresh env w hI.accepts he (by have := hin.2; omega)
      set N := env.p2m w.mm.nextPFN with hN
      set w1 : World :=
        { w with
          mm := { w.mm with nextPFN := w.mm.nextPFN + 1 }
          mem := clearFrame w.mem N
          trace := w.trace ++ [Event.mmuext_op [(16, N)] 0] } with hw1
      have hwr := writePte_accepted env w1 hI.accepts tp (pageTableOffset v (lvl + 1)) N
        (PTE_PAGE_TABLE_FLAGS ||| xenPageTableWritable) T htp (by omega) hoff
      set e' := entryOf N (PTE_PAGE_TABLE_FLAGS ||| xenPageTableWritable) with he'
      have hmfn : pageTableEntry.mfn e' = N := by
        rw [he', entryOf_mfn _ _ (by decide)]
        omega
      set w2 : World :=
        { w1 with
          mem := setWord w1.mem T (pageTableOffset v (lvl + 1)) e'
          trace := w1.trace ++
            [Event.mmu_update (T * 4096 + pageTableOffset v (lvl + 1) * 8) e' 0] } with hw2
      have hmem : w2.mem = setWord (clearFrame w.mem N) T (pageTableOffset v (lvl + 1)) e' := rfl
      have hzero : ∀ i, w2.mem N i = 0 := by
        intro i
        rw [hmem, setWord_other _ _ _ _ _ _ (by intro h; exact hNT.1 h.1), clearFrame_same]
      have hframe : ∀ fr i, (∀ p, InPool w p → env.p2m p ≠ fr) →
          ¬ (fr = T ∧ i = pageTableOffset v (lvl + 1)) → w2.mem fr i = w.mem fr i := by
        intro fr i hfr hc
        rw [hmem, setWord_other _ _ _ _ _ _ hc, clearFrame_other _ _ _ _ (fun h => hfr _ hin h.symm)]
      have hsub : ∀ p, InPool w2 p → InPool w p := by
        intro p hpp
        have h1 : w.mm.nextPFN + 1 ≤ p := hpp.1
        exact ⟨by omega, hpp.2⟩
      have hne2 : ∀ p, InPool w2 p → p ≠ w.mm.nextPFN := by
        intro p hpp
        have h1 : w.mm.nextPFN + 1 ≤ p := hpp.1
        omega
      refine ⟨e', w2, ?_, ?_⟩
      · simp only [mapPage.installTable, hp', hphys, hwr]
        simp
      · exact
          { entry := by rw [hmem, setWord_same]
            present := entryOf_table_present N
            notin := by
              rw [hmfn]
              simp only [List.mem_cons, not_or]
              exact hNT
            rt := by rw [hmfn]; exact hI.pool_rt _ hin
            pool := by
              intro p hpp
              rw [hmfn]
              have h1 := hpool p (hsub p hpp)
              simp only [List.mem_cons, not_or] at h1 ⊢
              refine ⟨?_, h1⟩
              intro h
              exact hne2 p hpp (hI.pool_inj _ _ (hsub p hpp) hin h)
            installed :=
              { accepts := hI.accepts
                next_le := by
                  have := hin.2
                  show w.mm.nextPFN + 1 ≤ w.mm.lastPFN
                  omega
                last_lt := hI.last_lt
                l4_view := hI.l4_view
                l4_frame := hI.l4_frame
                recursive := by
                  have h511 : w2.mem w.cr3 511 = w.mem w.cr3 511 :=
                    hframe _ _ (fun p hpp => hI.pool_cr3 p hpp) (fun h => by
                      have hrec := hI.recursive.1
                      rw [h.1, h.2, hp'] at hrec
                      exact absurd hrec (by decide))
                  show hasFlag (w2.mem w.cr3 511) xenPageTablePresent = true
                    ∧ pageTableEntry.mfn (w2.mem w.cr3 511) = w.cr3
                  rw [h511]
                  exact hI.recursive
                pool_lt := fun p hpp => hI.pool_lt p (hsub p hpp)
                pool_rt := fun p hpp => hI.pool_rt p (hsub p hpp)
                pool_inj := fun p q hpp hq => hI.pool_inj p q (hsub p hpp) (hsub q hq)
                pool_cr3 := fun p hpp => hI.pool_cr3 p (hsub p hpp) }
            path := by
              rw [hmfn]
              exact PathClean_empty env w2 v lvl N _ hzero
            frame := hframe
            kept := fun h => absurd h hp
            cr3 := rfl
            mm_eq := rfl
            pool_sub := hsub
            count := by
              rw [hmfn, missingFrom_empty w2 v lvl N hzero]
              simp only [missingFrom, hp']
              show w.mm.nextPFN + 1 + lvl = _
              simp
              omega
            trace := by simp [hp', hw2, hw1]
            fresh := fun _ => ⟨hin, hmfn, rfl, by rw [hmfn]; exact hzero⟩ }

theorem Get_l2 (w : World) (hr : Recursive w) (a b i : Nat) (ha : a < 512) (hb : b < 512)
    (hi : i < 512)
    (hpa : hasFlag (w.mem w.cr3 a) xenPageTablePresent = true)
    (hpb : hasFlag (w.mem (pageTableEntry.mfn (w.mem w.cr3 a)) b) xenPageTablePresent = true) :
    xenPageTable.Get w (getPageTable (-1) a b) i
      = some (w.mem (pageTableEntry.mfn (w.mem (pageTableEntry.mfn (w.mem w.cr3 a)) b)) i) := by
  rw [getPageTable_l2 a b ha hb, Get_eq_translate w _ i (by omega) (by omega) hi]
  have h4 : (0xFFFFFFFFC0000000 + a * 2097152 + b * 4096) / 549755813888 % 512 = 511 := by
    omega
  have h3 : (0xFFFFFFFFC0000000 + a * 2097152 + b * 4096) / 1073741824 % 512 = 511 := by
    omega
  have h2 : (0xFFFFFFFFC0000000 + a * 2097152 + b * 4096) / 2097152 % 512 = a := by omega
  have h1 : (0xFFFFFFFFC0000000 + a * 2097152 + b * 4096) / 4096 % 512 = b := by omega
  simp [translate, pageTableOffset_l4, pageTableOffset_l3, pageTableOffset_l2,
    pageTableOffset_l1, h4, h3, h2, h1, hr.1, hr.2, hpa, hpb]

theorem Get_l1 (w : World) (hr : Recursive w) (a b c i : Nat) (ha : a < 512) (hb : b < 512)
    (hc : c < 512) (hi : i < 512)
    (hpa : hasFlag (w.mem w.cr3 a) xenPageTablePresent = true)
    (hpb : hasFlag (w.mem (pageTableEntry.mfn (w.mem w.cr3 a)) b) xenPageTablePresent = true)
    (hpc : hasFlag (w.mem (pageTableEntry.mfn
      (w.mem (pageTableEntry.mfn (w.mem w.cr3 a)) b)) c) xenPageTablePresent = true) :
    xenPageTable.Get w (getPageTable a b c) i
      = some (w.mem (pageTableEntry.mfn (w.mem (pageTableEntry.mfn
          (w.mem (pageTableEntry.mfn (w.mem w.cr3 a)) b)) c)) i) := by
  rw [getPageTable_l1 a b c ha hb hc, Get_eq_translate w _ i (by omega) (by omega) hi]
  have h4 : (0xFFFFFF8000000000 + a * 1073741824 + b * 2097152 + c * 4096)
      / 549755813888 % 512 = 511 := by omega
  have h3 : (0xFFFFFF8000000000 + a * 1073741824 + b * 2097152 + c * 4096)
      / 1073741824 % 512 = a := by omega
  have h2 : (0xFFFFFF8000000000 + a * 1073741824 + b * 2097152 + c * 4096)
      / 2097152 % 512 = b := by omega
  have h1 : (0xFFFFFF8000000000 + a * 1073741824 + b * 2097152 + c * 4096)
      / 4096 % 512 = c := by omega
  simp [translate, pageTableOffset_l4, pageTableOffset_l3, pageTableOffset_l2,
    pageTableOffset_l1, h4, h3, h2, h1, hr.1, hr.2, hpa, hpb, hpc]

theorem cr3_lt (w : World) (hr : Recursive w) : w.cr3 < 2 ^ 40 := by
  rw [← hr.2]
  exact mfn_lt _

theorem mm_eta (m : atmanMemoryManager) (n : Nat) (h : m.nextPFN = n) :
    m = { m with nextPFN := n } := by
  cases m
  simp_all

/-- The cell an update request names, for a slot inside a table frame. -/
theorem slot_cell (T off : Nat) (ho : off < 512) :
    (T * 4096 + off * 8) / 4096 = T ∧ (T * 4096 + off * 8) % 4096 / 8 = off := by
  omega

theorem mm_trans (a b c : atmanMemoryManager) (x y : Nat)
    (h1 : a = { b with nextPFN := x }) (h2 : b = { c with nextPFN := y }) :
    a = { c with nextPFN := x } := by
  subst h2
  exact h1

theorem missingFrom_succ_present (w : World) (v lvl T : Nat)
    (h : hasFlag (w.mem T (pageTableOffset v (lvl + 1))) xenPageTablePresent = true) :
    missingFrom w v (lvl + 1) T
      = missingFrom w v lvl (pageTableEntry.mfn (w.mem T (pageTableOffset v (lvl + 1)))) := by
  simp [missingFrom, h]

theorem missingFrom_succ_zero (w : World) (v lvl T : Nat)
    (h : missingFrom w v (lvl + 1) T = 0) :
    hasFlag (w.mem T (pageTableOffset v (lvl + 1))) xenPageTablePresent = true
      ∧ missingFrom w v lvl
          (pageTableEntry.mfn (w.mem T (pageTableOffset v (lvl + 1)))) = 0 := by
  by_cases hp : hasFlag (w.mem T (pageTableOffset v (lvl + 1))) xenPageTablePresent = true
  · exact ⟨hp, by rw [← missingFrom_succ_present w v lvl T hp]; exact h⟩
  · simp [missingFrom, hp] at h

/-- The events one level of `mapPage` adds name a cell that holds the value of the
update. -/
theorem Advanced.update_mem {env : Env} {w w' : World} {v lvl T : Nat} {above : List Nat}
    {e' : Nat} (A : Advanced env w w' v lvl T above e') (ptr val : Nat) (ret : Int)
    (h : Event.mmu_update ptr val ret ∈ w'.trace.drop w.trace.length) :
    ret = 0 ∧ ptr = T * 4096 + pageTableOffset v (lvl + 1) * 8 ∧ val = e' := by
  rw [A.trace, List.drop_left] at h
  split at h
  · simp at h
  · simp only [List.mem_cons, Event.mmu_update.injEq, List.mem_singleton, List.not_mem_nil,
      or_false, false_or] at h
    rcases h with h | h
    · exact absurd h (by simp)
    · exact ⟨h.2.2, h.1, h.2.1⟩

theorem Advanced.trace_length {env : Env} {w w' : World} {v lvl T : Nat} {above : List Nat}
    {e' : Nat} (A : Advanced env w w' v lvl T above e') :
    w.trace.length ≤ w'.trace.length := by
  rw [A.trace]
  simp

theorem Advanced.trace_prefix {env : Env} {w w' : World} {v lvl T : Nat} {above : List Nat}
    {e' : Nat} (A : Advanced env w w' v lvl T above e') :
    ∃ l, w'.trace = w.trace ++ l ∧ w'.trace.drop w.trace.length = l :=
  ⟨_, A.trace, by rw [A.trace, List.drop_left]⟩

/-! ### The three levels of `mapPage` together -/

theorem mm_last (a b : atmanMemoryManager) (x : Nat) (h : a = { b with nextPFN := x }) :
    a.lastPFN = b.lastPFN := by
  rw [h]

/-- A well-formed path keeps `v` outside the recursive window: its L4 index is not
511. -/
theorem Ready.not_window {env : Env} {w : World} {v : Nat} {avoid : List Nat}
    (hR : Ready env w v avoid) : pageTableOffset v pageTableLevel4 ≠ 511 := by
  intro h
  have h3 : pageTableOffset v (2 + 1) = 511 := h
  have hrec := hR.installed.recursive
  have hp : PathClean env w v (2 + 1) w.cr3 avoid := hR.path
  simp only [PathClean, h3, hrec.1, hrec.2, List.mem_cons, true_or, not_true_eq_false,
    false_and, true_implies] at hp

/-- The analysis of `mapPage` in a correctly bootstrapped state: either it runs out
of frames and returns `false`, or it reaches the leaf level with the three
intermediate levels present. -/
theorem mapPage_stages (env : Env) (w : World) (v f : Nat) (avoid : List Nat)
    (hR : Ready env w v avoid) :
    (∃ w', mapPage env w v f = some (false, w') ∧ Failed env w w' v
        ∧ Staged env w w' v avoid)
      ∨ ∃ w3 e4 e3 e2, Resolved env w w3 v avoid e4 e3 e2
          ∧ mapPage env w v f
              = (match storeZero (writePte env w3 (env.m2p (pageTableEntry.mfn e2))
                    (pageTableOffset v 0) f PTE_PAGE_FLAGS).2 v with
                | none => none
                | some w5 => some (true, w5))
          ∧ ∃ w1 w2, Advanced env w w1 v 2 w.cr3 avoid e4
              ∧ Advanced env w1 w2 v 1 (pageTableEntry.mfn e4) (w.cr3 :: avoid) e3
              ∧ Advanced env w2 w3 v 0 (pageTableEntry.mfn e3)
                  (pageTableEntry.mfn e4 :: w.cr3 :: avoid) e2 := by
  have hI := hR.installed
  have hcr3 := cr3_lt w hI.recursive
  have ho3 : pageTableOffset v 3 < 512 := pageTableOffset_lt _ _
  have ho2 : pageTableOffset v 2 < 512 := pageTableOffset_lt _ _
  have ho1 : pageTableOffset v 1 < 512 := pageTableOffset_lt _ _
  have hG1 : xenPageTable.Get w (getPageTable (-1) (-1) (-1)) (pageTableOffset v 3)
      = some (w.mem w.cr3 (pageTableOffset v 3)) := Get_l4 w hI.recursive _ ho3
  have hpool1 : ∀ p, InPool w p → env.p2m p ∉ w.cr3 :: avoid := by
    intro p hp
    simp only [List.mem_cons, not_or]
    exact ⟨hI.pool_cr3 p hp, hR.pool_avoid p hp⟩
  have hk : missingTables w v = missingFrom w v 3 w.cr3 := rfl
  rcases installTable_stage env w v 2 w.cr3 avoid w.mm.l4PFN hI hI.l4_frame hcr3 hpool1
      hR.path with ⟨hp1, he1, hi1, hm1⟩ | ⟨e4, w1, hi1, A1⟩
  · -- the pool is empty at the L4 level
    left
    have hi1' : mapPage.installTable env w (w.mem w.cr3 (pageTableOffset v 3)) w.mm.l4PFN
        (pageTableOffset v 3) = (none, w) := hi1
    have hm1' : missingFrom w v 3 w.cr3 = 3 := hm1
    refine ⟨w, ?_, ?_, Or.inl rfl⟩
    · simp only [mapPage, pageTableLevel4, hI.l4_view, hG1, hi1']
    · exact
        { installed := hI
          cr3_eq := rfl
          mm_eq := mm_eta w.mm _ he1
          short := by rw [hk, hm1', he1]; omega
          remaining := by rw [hk, hm1', he1]; omega
          kept4 := fun _ => rfl
          kept3 := fun _ _ => rfl
          pool_sub := fun _ h => h
          installs := by simp }
  · have hi1' : mapPage.installTable env w (w.mem w.cr3 (pageTableOffset v 3)) w.mm.l4PFN
        (pageTableOffset v 3) = (some e4, w1) := hi1
    have hI1 := A1.installed
    have hc1 : w1.cr3 = w.cr3 := A1.cr3
    have hE4 : w1.mem w1.cr3 (pageTableOffset v 3) = e4 := by rw [hc1]; exact A1.entry
    have hn4 := A1.notin
    simp only [List.mem_cons, not_or] at hn4
    have hG2 : xenPageTable.Get w1 (getPageTable (-1) (-1) (pageTableOffset v 3))
        (pageTableOffset v 2) = some (w1.mem (pageTableEntry.mfn e4) (pageTableOffset v 2)) := by
      have := Get_l3 w1 hI1.recursive _ _ ho3 ho2 (by rw [hE4]; exact A1.present)
      rw [hE4] at this
      exact this
    have hcount1 : w1.mm.nextPFN + missingFrom w1 v 2 (pageTableEntry.mfn e4)
        = w.mm.nextPFN + missingFrom w v 3 w.cr3 := A1.count
    have hl1 : w1.mm.lastPFN = w.mm.lastPFN := mm_last _ _ _ A1.mm_eq
    rcases installTable_stage env w1 v 1 (pageTableEntry.mfn e4) (w.cr3 :: avoid)
        (env.m2p (pageTableEntry.mfn e4)) hI1 A1.rt (mfn_lt _) A1.pool A1.path
      with ⟨hp2, he2, hi2, hm2⟩ | ⟨e3, w2, hi2, A2⟩
    · -- the pool is empty at the L3 level
      left
      have hi2' : mapPage.installTable env w1
          (w1.mem (pageTableEntry.mfn e4) (pageTableOffset v 2))
          (env.m2p (pageTableEntry.mfn e4)) (pageTableOffset v 2) = (none, w1) := hi2
      have hm2' : missingFrom w1 v 2 (pageTableEntry.mfn e4) = 2 := hm2
      have hnl := hI.next_le
      refine ⟨w1, ?_, ?_, Or.inr (Or.inl ⟨e4, A1⟩)⟩
      · simp only [mapPage, pageTableLevel4, pageTableLevel3, hI.l4_view, hG1, hi1', hG2,
          pageTableEntry.pfn, hi2']
      · exact
          { installed := hI1
            cr3_eq := hc1
            mm_eq := by
              have h := A1.mm_eq
              rw [he2, hl1] at h
              exact h
            short := by rw [hk]; omega
            remaining := by
              have : missingTables w1 v = 2 := by
                rw [missingTables, missingFrom_succ_present w1 v 2 w1.cr3
                  (by rw [hE4]; exact A1.present), hE4]
                exact hm2'
              rw [this, hk]
              omega
            kept4 := by
              intro h
              rw [A1.kept h]
            kept3 := by
              intro h _
              rw [A1.kept h]
            pool_sub := A1.pool_sub
            installs := by
              intro ptr val ret h
              obtain ⟨h1, h2, h3⟩ := A1.update_mem ptr val ret h
              have hs := slot_cell w.cr3 (pageTableOffset v 3) ho3
              refine ⟨h1, ?_⟩
              rw [h2, h3, hs.1, hs.2]
              exact A1.entry }
    · have hi2' : mapPage.installTable env w1
          (w1.mem (pageTableEntry.mfn e4) (pageTableOffset v 2))
          (env.m2p (pageTableEntry.mfn e4)) (pageTableOffset v 2) = (some e3, w2) := hi2
      have hI2 := A2.installed
      have hc2 : w2.cr3 = w1.cr3 := A2.cr3
      have hn3 := A2.notin
      simp only [List.mem_cons, not_or] at hn3
      have hE3 : w2.mem (pageTableEntry.mfn e4) (pageTableOffset v 2) = e3 := A2.entry
      have hE4' : w2.mem w2.cr3 (pageTableOffset v 3) = e4 := by
        rw [hc2, ← hE4]
        exact A2.frame _ _ (fun p hp => hI1.pool_cr3 p hp)
          (fun h => hn4.1 (h.1.symm.trans hc1))
      have hG3 : xenPageTable.Get w2 (getPageTable (-1) (pageTableOffset v 3)
          (pageTableOffset v 2)) (pageTableOffset v 1)
          = some (w2.mem (pageTableEntry.mfn e3) (pageTableOffset v 1)) := by
        have := Get_l2 w2 hI2.recursive _ _ _ ho3 ho2 ho1 (by rw [hE4']; exact A1.present)
          (by rw [hE4', hE3]; exact A2.present)
        rw [hE4', hE3] at this
        exact this
      have hcount2 : w2.mm.nextPFN + missingFrom w2 v 1 (pageTableEntry.mfn e3)
          = w1.mm.nextPFN + missingFrom w1 v 2 (pageTableEntry.mfn e4) := A2.count
      have hl2 : w2.mm.lastPFN = w1.mm.lastPFN := mm_last _ _ _ A2.mm_eq
      rcases installTable_stage env w2 v 0 (pageTableEntry.mfn e3)
          (pageTableEntry.mfn e4 :: w.cr3 :: avoid)
          (env.m2p (pageTableEntry.mfn e3)) hI2 A2.rt (mfn_lt _) A2.pool A2.path
        with ⟨hp3, he3, hi3, hm3⟩ | ⟨e2, w3, hi3, A3⟩
      · -- the pool is empty at the L2 level
        left
        have hi3' : mapPage.installTable env w2
            (w2.mem (pageTableEntry.mfn e3) (pageTableOffset v 1))
            (env.m2p (pageTableEntry.mfn e3)) (pageTableOffset v 1) = (none, w2) := hi3
        have hm3' : missingFrom w2 v 1 (pageTableEntry.mfn e3) = 1 := hm3
        have hnl := hI.next_le
        have hnl1 := hI1.next_le
        refine ⟨w2, ?_, ?_, Or.inr (Or.inr ⟨e4, w1, e3, A1, A2⟩)⟩
        · simp only [mapPage, pageTableLevel4, pageTableLevel3, pageTableLevel2, hI.l4_view,
            hG1, hi1', hG2, pageTableEntry.pfn, hi2', hG3, hi3']
        have h4w2 : w2.mem w.cr3 (pageTableOffset v 3) = e4 := by
          rw [← hc1, ← hc2]; exact hE4'
        · exact
            { installed := hI2
              cr3_eq := hc2.trans hc1
              mm_eq := by
                have h := mm_trans _ _ _ _ _ A2.mm_eq A1.mm_eq
                rw [he3, hl2, hl1] at h
                exact h
              short := by rw [hk]; omega
              remaining := by
                have : missingTables w2 v = 1 := by
                  rw [missingTables, missingFrom_succ_present w2 v 2 w2.cr3
                    (by rw [hE4']; exact A1.present), hE4',
                    missingFrom_succ_present w2 v 1 _ (by rw [hE3]; exact A2.present), hE3]
                  exact hm3'
                rw [this, hk]
                omega
              kept4 := by
                intro h
                have h4' : w.mem w.cr3 (pageTableOffset v 3) = e4 := by
                  have := A1.entry
                  rw [A1.kept h] at this
                  exact this
                rw [h4w2, h4']
              kept3 := by
                intro h h'
                have hw1 := A1.kept h
                have h4' : w.mem w.cr3 (pageTableOffset v 3) = e4 := by
                  have := A1.entry
                  rw [hw1] at this
                  exact this
                rw [h4'] at h' ⊢
                have hw2 := A2.kept (by rw [hw1]; exact h')
                rw [hw2, hw1]
              pool_sub := fun p hp => A1.pool_sub p (A2.pool_sub p hp)
              installs := by
                intro ptr val ret h
                obtain ⟨l1, ht1, hd1⟩ := A1.trace_prefix
                obtain ⟨l2, ht2, hd2⟩ := A2.trace_prefix
                have hd : w2.trace.drop w.trace.length = l1 ++ l2 := by
                  rw [ht2, ht1, List.append_assoc, List.drop_left]
                rw [hd, List.mem_append] at h
                rcases h with h | h
                · obtain ⟨h1, h2, h3⟩ := A1.update_mem ptr val ret (by rw [hd1]; exact h)
                  have hs := slot_cell w.cr3 (pageTableOffset v 3) ho3
                  refine ⟨h1, ?_⟩
                  rw [h2, h3, hs.1, hs.2]
                  exact h4w2
                · obtain ⟨h1, h2, h3⟩ := A2.update_mem ptr val ret (by rw [hd2]; exact h)
                  have hs := slot_cell (pageTableEntry.mfn e4) (pageTableOffset v 2) ho2
                  refine ⟨h1, ?_⟩
                  rw [h2, h3, hs.1, hs.2]
                  exact hE3 }
      · -- all three levels are there
        right
        have hi3' : mapPage.installTable env w2
            (w2.mem (pageTableEntry.mfn e3) (pageTableOffset v 1))
            (env.m2p (pageTableEntry.mfn e3)) (pageTableOffset v 1) = (some e2, w3) := hi3
        have hI3 := A3.installed
        have hc3 : w3.cr3 = w2.cr3 := A3.cr3
        have hc : w3.cr3 = w.cr3 := hc3.trans (hc2.trans hc1)
        have hn2 := A3.notin
        simp only [List.mem_cons, not_or] at hn2
        have hp2 := A2.pool
        have hE2 : w3.mem (pageTableEntry.mfn e3) (pageTableOffset v 1) = e2 := A3.entry
        have hE3' : w3.mem (pageTableEntry.mfn e4) (pageTableOffset v 2) = e3 := by
          rw [← hE3]
          refine A3.frame _ _ (fun p hp => ?_) (fun h => hn3.1 h.1.symm)
          have := hp2 p hp
          simp only [List.mem_cons, not_or] at this
          exact this.2.1
        have hE4'' : w3.mem w3.cr3 (pageTableOffset v 3) = e4 := by
          rw [hc3, ← hE4']
          exact A3.frame _ _ (fun p hp => hI2.pool_cr3 p hp)
            (fun h => hn3.2.1 (h.1.symm.trans (hc2.trans hc1)))
        have hcount3 : w3.mm.nextPFN + missingFrom w3 v 0 (pageTableEntry.mfn e2)
            = w2.mm.nextPFN + missingFrom w2 v 1 (pageTableEntry.mfn e3) := A3.count
        have hm0 : missingFrom w3 v 0 (pageTableEntry.mfn e2) = 0 := rfl
        have hl3 : w3.mm.lastPFN = w2.mm.lastPFN := mm_last _ _ _ A3.mm_eq
        have hnext : w3.mm.nextPFN = w.mm.nextPFN + missingTables w v := by
          rw [hk]; omega
        refine ⟨w3, e4, e3, e2, ?_, ?_, w1, w2, A1, A2, A3⟩
        · exact
            { installed := hI3
              l4e := hE4''
              l3e := hE3'
              l2e := hE2
              p4 := A1.present
              p3 := A2.present
              p2 := A3.present
              d4 := by rw [hc]; exact A1.notin
              d3 := by rw [hc]; exact A2.notin
              d2 := by rw [hc]; exact A3.notin
              cr3_avoid := by rw [hc]; exact hR.cr3_avoid
              rt4 := A1.rt
              rt3 := A2.rt
              rt2 := A3.rt
              pool := by rw [hc]; exact A3.pool
              cr3_eq := hc
              mm_eq := by
                have h := mm_trans _ _ _ _ _ (mm_trans _ _ _ _ _ A3.mm_eq A2.mm_eq) A1.mm_eq
                rw [hnext] at h
                exact h
              enough := by
                have := hI3.next_le
                omega
              pool_sub := fun p hp => A1.pool_sub p (A2.pool_sub p (A3.pool_sub p hp))
              frame := by
                intro fr i hfr h4 h3 h2
                rw [hc] at h4
                rw [A3.frame fr i (fun p hp => hfr p (A1.pool_sub p (A2.pool_sub p hp))) h2,
                  A2.frame fr i (fun p hp => hfr p (A1.pool_sub p hp)) h3,
                  A1.frame fr i hfr h4]
              kept := by
                intro h0
                rw [hk] at h0
                obtain ⟨q1, r1⟩ := missingFrom_succ_zero w v 2 w.cr3 h0
                have hw1 := A1.kept q1
                have h4' : w.mem w.cr3 (pageTableOffset v 3) = e4 := by
                  have := A1.entry
                  rw [hw1] at this
                  exact this
                rw [h4'] at r1
                obtain ⟨q2, r2⟩ := missingFrom_succ_zero w v 1 _ r1
                have hw2 := A2.kept (by rw [hw1]; exact q2)
                have h3' : w.mem (pageTableEntry.mfn e4) (pageTableOffset v 2) = e3 := by
                  have := A2.entry
                  rw [hw2, hw1] at this
                  exact this
                rw [h3'] at r2
                obtain ⟨q3, _⟩ := missingFrom_succ_zero w v 0 _ r2
                have hw3 := A3.kept (by rw [hw2, hw1]; exact q3)
                rw [hw3, hw2, hw1] }
        · simp only [mapPage, pageTableLevel4, pageTableLevel3, pageTableLevel2,
            pageTableLevel1, hI.l4_view, hG1, hi1', hG2, pageTableEntry.pfn, hi2', hG3, hi3']

/-- The two ways `mapPage` ends in a state ready for it: it returns `false` with the
pool used up, or the three intermediate levels are there and it goes on to write
the leaf entry. -/
theorem mapPage_cases (env : Env) (w : World) (v f : Nat) (avoid : List Nat)
    (hR : Ready env w v avoid) :
    (∃ w', mapPage env w v f = some (false, w') ∧ Failed env w w' v)
      ∨ ∃ w3 e4 e3 e2, Resolved env w w3 v avoid e4 e3 e2
          ∧ mapPage env w v f
              = match storeZero (writePte env w3 (env.m2p (pageTableEntry.mfn e2))
                    (pageTableOffset v 0) f PTE_PAGE_FLAGS).2 v with
                | none => none
                | some w5 => some (true, w5) := by
  rcases mapPage_stages env w v f avoid hR with ⟨w', h1, h2, -⟩ | ⟨w3, e4, e3, e2, R, he, -⟩
  · exact Or.inl ⟨w', h1, h2⟩
  · exact Or.inr ⟨w3, e4, e3, e2, R, he⟩

theorem translate_path (w : World) (v e4 e3 e2 e1 : Nat)
    (h4 : w.mem w.cr3 (pageTableOffset v 3) = e4)
    (h3 : w.mem (pageTableEntry.mfn e4) (pageTableOffset v 2) = e3)
    (h2 : w.mem (pageTableEntry.mfn e3) (pageTableOffset v 1) = e2)
    (h1 : w.mem (pageTableEntry.mfn e2) (pageTableOffset v 0) = e1)
    (p4 : hasFlag e4 xenPageTablePresent = true)
    (p3 : hasFlag e3 xenPageTablePresent = true)
    (p2 : hasFlag e2 xenPageTablePresent = true)
    (p1 : hasFlag e1 xenPageTablePresent = true) :
    translate w v = some (pageTableEntry.mfn e1) := by
  simp only [translate, pageTableLevel4, pageTableLevel3, pageTableLevel2, pageTableLevel1,
    h4, p4, h3, p3, h2, p2, h1, p1, if_true]

theorem pageTableWalk_path (w : World) (v e4 e3 e2 e1 : Nat)
    (hr : Recursive w) (hl4 : w.mm.l4 = getPageTable (-1) (-1) (-1))
    (h4 : w.mem w.cr3 (pageTableOffset v 3) = e4)
    (h3 : w.mem (pageTableEntry.mfn e4) (pageTableOffset v 2) = e3)
    (h2 : w.mem (pageTableEntry.mfn e3) (pageTableOffset v 1) = e2)
    (h1 : w.mem (pageTableEntry.mfn e2) (pageTableOffset v 0) = e1)
    (p4 : hasFlag e4 xenPageTablePresent = true)
    (p3 : hasFlag e3 xenPageTablePresent = true)
    (p2 : hasFlag e2 xenPageTablePresent = true) :
    pageTableWalk w v = some [e4, e3, e2, e1] := by
  have ho3 : pageTableOffset v 3 < 512 := pageTableOffset_lt _ _
  have ho2 : pageTableOffset v 2 < 512 := pageTableOffset_lt _ _
  have ho1 : pageTableOffset v 1 < 512 := pageTableOffset_lt _ _
  have ho0 : pageTableOffset v 0 < 512 := pageTableOffset_lt _ _
  have g4 := Get_l4 w hr _ ho3
  have g3 := Get_l3 w hr _ _ ho3 ho2 (by rw [h4]; exact p4)
  have g2 := Get_l2 w hr _ _ _ ho3 ho2 ho1 (by rw [h4]; exact p4) (by rw [h4, h3]; exact p3)
  have g1 := Get_l1 w hr _ _ _ _ ho3 ho2 ho1 ho0 (by rw [h4]; exact p4)
    (by rw [h4, h3]; exact p3) (by rw [h4, h3, h2]; exact p2)
  rw [h4] at g4 g3 g2 g1
  rw [h3] at g3 g2 g1
  rw [h2] at g2 g1
  rw [h1] at g1
  simp only [pageTableWalk, pageTableLevel4, pageTableLevel3, pageTableLevel2, pageTableLevel1,
    hl4, g4, g3, g2, g1, p4, p3, p2]
  simp

/-- Once the three intermediate levels are there `mapPage` writes the leaf entry,
touches the page and returns `true`, for an address that is a multiple of 8. -/
theorem Resolved.finish {env : Env} {w0 w3 : World} {v : Nat} {avoid : List Nat}
    {e4 e3 e2 : Nat} (R : Resolved env w0 w3 v avoid e4 e3 e2) (f : Nat)
    (hal : v % 8 = 0) :
    (match storeZero (writePte env w3 (env.m2p (pageTableEntry.mfn e2))
          (pageTableOffset v 0) f PTE_PAGE_FLAGS).2 v with
      | none => none
      | some w5 => some (true, w5))
      = some (true, mapPage.finished w3 (pageTableEntry.mfn e2) v f) := by
  have ho0 : pageTableOffset v 0 < 512 := pageTableOffset_lt _ _
  have hT1 := mfn_lt e2
  have hwr := writePte_accepted env w3 R.installed.accepts (env.m2p (pageTableEntry.mfn e2))
    (pageTableOffset v 0) f PTE_PAGE_FLAGS _ R.rt2 (by omega) ho0
  have hd2 := R.d2
  have hd3 := R.d3
  simp only [List.mem_cons, not_or] at hd2 hd3
  rw [hwr]
  have htr : translate
      { w3 with
        mem := setWord w3.mem (pageTableEntry.mfn e2) (pageTableOffset v 0)
          (entryOf f PTE_PAGE_FLAGS)
        trace := w3.trace ++ [Event.mmu_update
          (pageTableEntry.mfn e2 * 4096 + pageTableOffset v 0 * 8)
          (entryOf f PTE_PAGE_FLAGS) 0] } v = some (f % 2 ^ 40) := by
    rw [← entryOf_mfn f PTE_PAGE_FLAGS (by decide)]
    apply translate_path _ v e4 e3 e2 _ _ _ _ _ R.p4 R.p3 R.p2 (entryOf_page_present f)
    · show setWord _ _ _ _ _ _ = _
      rw [setWord_other _ _ _ _ _ _ (fun h => hd2.2.2.1 h.1.symm)]
      exact R.l4e
    · show setWord _ _ _ _ _ _ = _
      rw [setWord_other _ _ _ _ _ _ (fun h => hd2.2.1 h.1.symm)]
      exact R.l3e
    · show setWord _ _ _ _ _ _ = _
      rw [setWord_other _ _ _ _ _ _ (fun h => hd2.1 h.1.symm)]
      exact R.l2e
    · show setWord _ _ _ _ _ _ = _
      rw [setWord_same]
  simp only [storeZero_aligned _ _ hal, writeWord, htr]
  rfl

/-! ### The walk after a successful `mapPage` -/

theorem idEnv_accepts : Accepts idEnv :=
  ⟨fun _ _ _ => rfl, fun _ _ => rfl⟩

theorem bootWorldN_installed (n : Nat) (hn : n ≤ 1000) : Installed idEnv (bootWorldN n) :=
  { accepts := idEnv_accepts
    next_le := by
      show 16 ≤ 16 + n
      omega
    last_lt := by
      show 16 + n < 2 ^ 64
      omega
    l4_view := by
      show (0xFFFFFFFFFFFFF000 : Nat) = getPageTable (-1) (-1) (-1)
      decide
    l4_frame := rfl
    recursive := by
      show hasFlag 4097 xenPageTablePresent = true ∧ pageTableEntry.mfn 4097 = 1
      decide
    pool_lt := by
      intro p hp
      have h2 : p < 16 + n := hp.2
      show p < 2 ^ 40
      omega
    pool_rt := fun _ _ => rfl
    pool_inj := fun _ _ _ _ h => h
    pool_cr3 := by
      intro p hp
      have h1 : 16 ≤ p := hp.1
      show p ≠ 1
      omega }

theorem bootWorldN_ready (n : Nat) (hn : n ≤ 1000) (avoid : List Nat)
    (ha : ∀ x ∈ avoid, 16 + n ≤ x) : Ready idEnv (bootWorldN n) bootPage avoid :=
  { installed := bootWorldN_installed n hn
    path := by
      intro h
      have h0 : hasFlag 0 xenPageTablePresent = true := h
      exact absurd h0 (by decide)
    cr3_avoid := by
      intro h
      have := ha _ h
      have h1 : (bootWorldN n).cr3 = 1 := rfl
      omega
    pool_avoid := by
      intro p hp h
      have h2 : p < 16 + n := hp.2
      have := ha _ h
      have h1 : idEnv.p2m p = p := rfl
      omega }

theorem finished_mem_other (w3 : World) (T1 v f fr i : Nat) (h1 : fr ≠ T1) (h2 : fr ≠ f % 2 ^ 40) :
    (mapPage.finished w3 T1 v f).mem fr i = w3.mem fr i := by
  show setWord (setWord _ _ _ _) _ _ _ _ _ = _
  rw [setWord_other _ _ _ _ _ _ (fun h => h2 h.1), setWord_other _ _ _ _ _ _ (fun h => h1 h.1)]

theorem finished_mem_leaf (w3 : World) (T1 v f : Nat) (h : T1 ≠ f % 2 ^ 40) :
    (mapPage.finished w3 T1 v f).mem T1 (pageTableOffset v 0) = entryOf f PTE_PAGE_FLAGS := by
  show setWord (setWord _ _ _ _) _ _ _ _ _ = _
  rw [setWord_other _ _ _ _ _ _ (fun h' => h h'.1), setWord_same]

/-- C5 (as stated, refuted): in a state with the recursive slot installed and a
hypervisor that accepts every update, `mapPage(bootPage, 2^52)` returns `true`, and
the walk from `bootPage` finds four present entries whose leaf names frame 0, not
frame `2^52`: the frame is shifted left by 12 in a 64-bit word. -/
theorem mapPage_walk_truncates_frame :
    Recursive bootWorld ∧ Accepts idEnv ∧ bootPage % 4096 = 0
      ∧ (mapPage idEnv bootWorld bootPage (2 ^ 52)).map (fun r => r.1) = some true
      ∧ pageTableWalk (stateAfter (mapPage idEnv bootWorld bootPage (2 ^ 52)) bootWorld)
          bootPage = some [65539, 69635, 73731, 3]
      ∧ pageTableEntry.mfn 3 = 0 ∧ (0 : Nat) ≠ 2 ^ 52 :=
  ⟨by decide, idEnv_accepts, by decide, by decide, by decide, by decide, by decide⟩

/-- C5 (amended): in a correctly bootstrapped state (`Ready`: the recursive slot is
installed, the hypervisor accepts every request, the frames of the pool are fresh
machine frames, the tables on the path of `v` are pairwise different frames) for a
page-aligned address `v` outside the recursive window and a target frame `f < 2^40`
that is neither a page table on the path of `v`, nor the top-level table, nor a
frame of the pool: if `mapPage(v, f)` returns `true`, the walk from `v` reads four
entries, all with the present flag, and the frame of the leaf entry is `f`. -/
theorem mapPage_walk_resolves (env : Env) (w : World) (v f : Nat)
    (hal : v % 4096 = 0) (hR : Ready env w v [f]) (hf : f < 2 ^ 40) (w' : World)
    (hret : mapPage env w v f = some (true, w')) :
    ∃ e4 e3 e2 e1, pageTableWalk w' v = some [e4, e3, e2, e1]
      ∧ hasFlag e4 xenPageTablePresent = true ∧ hasFlag e3 xenPageTablePresent = true
      ∧ hasFlag e2 xenPageTablePresent = true ∧ hasFlag e1 xenPageTablePresent = true
      ∧ pageTableEntry.mfn e1 = f := by
  rcases mapPage_cases env w v f [f] hR with ⟨w'', hm, _⟩ | ⟨w3, e4, e3, e2, R, hm⟩
  · rw [hm] at hret
    simp at hret
  · rw [R.finish f (by omega), hret] at hm
    simp only [Option.some.injEq, Prod.mk.injEq, true_and] at hm
    subst hm
    have hfm : f % 2 ^ 40 = f := Nat.mod_eq_of_lt hf
    have hd2 := R.d2
    have hd3 := R.d3
    have hd4 := R.d4
    have hca := R.cr3_avoid
    simp only [List.mem_cons, List.mem_singleton, List.not_mem_nil, or_false, not_or]
      at hd2 hd3 hd4 hca
    have hc : (mapPage.finished w3 (pageTableEntry.mfn e2) v f).cr3 = w3.cr3 := rfl
    have hother : ∀ fr i, fr ≠ pageTableEntry.mfn e2 → fr ≠ f →
        (mapPage.finished w3 (pageTableEntry.mfn e2) v f).mem fr i = w3.mem fr i := by
      intro fr i h1 h2
      exact finished_mem_other w3 _ v f fr i h1 (by rw [hfm]; exact h2)
    refine ⟨e4, e3, e2, entryOf f PTE_PAGE_FLAGS, ?_, R.p4, R.p3, R.p2,
      entryOf_page_present f, ?_⟩
    · apply pageTableWalk_path
      · show hasFlag ((mapPage.finished w3 _ v f).mem w3.cr3 511) _ = true
          ∧ pageTableEntry.mfn ((mapPage.finished w3 _ v f).mem w3.cr3 511) = w3.cr3
        rw [hother _ _ (fun h => hd2.2.2.1 h.symm) hca]
        exact R.installed.recursive
      · exact R.installed.l4_view
      · rw [hc, hother _ _ (fun h => hd2.2.2.1 h.symm) hca]
        exact R.l4e
      · rw [hother _ _ (fun h => hd2.2.1 h.symm) hd4.2]
        exact R.l3e
      · rw [hother _ _ (fun h => hd2.1 h.symm) hd3.2.2]
        exact R.l2e
      · exact finished_mem_leaf w3 _ v f (by rw [hfm]; exact hd2.2.2.2)
      · exact R.p4
      · exact R.p3
      · exact R.p2
    · rw [entryOf_mfn f PTE_PAGE_FLAGS (by decide)]
      exact hfm

/-- Witness of `mapPage_walk_resolves`: mapping frame 100 at 16 MB in the freshly
bootstrapped state. -/
theorem mapPage_walk_resolves_witness :
    ∃ e4 e3 e2 e1, pageTableWalk mappedWorld bootPage = some [e4, e3, e2, e1]
      ∧ hasFlag e4 xenPageTablePresent = true ∧ hasFlag e3 xenPageTablePresent = true
      ∧ hasFlag e2 xenPageTablePresent = true ∧ hasFlag e1 xenPageTablePresent = true
      ∧ pageTableEntry.mfn e1 = 100 :=
  mapPage_walk_resolves idEnv bootWorld bootPage 100 (by decide)
    (bootWorldN_ready 10 (by decide) [100] (by decide)) (by decide) mappedWorld (by rfl)

/-! ### Exhaustion inside `mapPage`, and pages that share tables -/

theorem missingFrom_le (w : World) (v lvl T : Nat) : missingFrom w v lvl T ≤ lvl := by
  induction lvl generalizing T with
  | zero => simp [missingFrom]
  | succ l ih =>
    simp only [missingFrom]
    split
    · exact Nat.le_succ_of_le (ih _)
    · exact le_refl _

/-- The state after a successful `mapPage(v, f)` with a frame `f` that is not a page
table: the path of `v` is complete and the manager is still correctly bootstrapped. -/
theorem Resolved.after {env : Env} {w0 w3 : World} {v f : Nat}
    {e4 e3 e2 : Nat} (R : Resolved env w0 w3 v [f] e4 e3 e2) (hf : f < 2 ^ 40) :
    Installed env (mapPage.finished w3 (pageTableEntry.mfn e2) v f)
      ∧ (mapPage.finished w3 (pageTableEntry.mfn e2) v f).mem w3.cr3 (pageTableOffset v 3) = e4
      ∧ (mapPage.finished w3 (pageTableEntry.mfn e2) v f).mem (pageTableEntry.mfn e4)
          (pageTableOffset v 2) = e3
      ∧ (mapPage.finished w3 (pageTableEntry.mfn e2) v f).mem (pageTableEntry.mfn e3)
          (pageTableOffset v 1) = e2 := by
  have hfm : f % 2 ^ 40 = f := Nat.mod_eq_of_lt hf
  have hd2 := R.d2
  have hd3 := R.d3
  have hd4 := R.d4
  have hca := R.cr3_avoid
  simp only [List.mem_cons, List.mem_singleton, List.not_mem_nil, or_false, not_or]
    at hd2 hd3 hd4 hca
  have hother : ∀ fr i, fr ≠ pageTableEntry.mfn e2 → fr ≠ f →
      (mapPage.finished w3 (pageTableEntry.mfn e2) v f).mem fr i = w3.mem fr i := by
    intro fr i h1 h2
    exact finished_mem_other w3 _ v f fr i h1 (by rw [hfm]; exact h2)
  have hI := R.installed
  refine ⟨?_, ?_, ?_, ?_⟩
  · exact
      { accepts := hI.accepts
        next_le := hI.next_le
        last_lt := hI.last_lt
        l4_view := hI.l4_view
        l4_frame := hI.l4_frame
        recursive := by
          show hasFlag ((mapPage.finished w3 _ v f).mem w3.cr3 511) _ = true
            ∧ pageTableEntry.mfn ((mapPage.finished w3 _ v f).mem w3.cr3 511) = w3.cr3
          rw [hother _ _ (fun h => hd2.2.2.1 h.symm) hca]
          exact hI.recursive
        pool_lt := hI.pool_lt
        pool_rt := hI.pool_rt
        pool_inj := hI.pool_inj
        pool_cr3 := hI.pool_cr3 }
  · rw [hother _ _ (fun h => hd2.2.2.1 h.symm) hca]
    exact R.l4e
  · rw [hother _ _ (fun h => hd2.2.1 h.symm) hd4.2]
    exact R.l3e
  · rw [hother _ _ (fun h => hd2.1 h.symm) hd3.2.2]
    exact R.l2e

/-- C8 (amended): in a correctly bootstrapped state (`Ready`), for a page-aligned
address `v1`, a frame `f1 < 2^40` that is neither a page table on the path of `v1`,
nor the top-level table, nor a frame of the pool, and for any page-aligned `v2` with
the L4, L3 and L2 indices of `v1` and any frame `f2`: when `mapPage(v1, f1)` succeeds
it has advanced `nextPFN` by the number of tables that were missing on the path,
afterwards no table is missing on the path of `v2`, and `mapPage(v2, f2)` succeeds
and leaves the manager, `nextPFN` included, unchanged; more generally, after the
first call at most two tables are missing for a page that shares the L4 index with
`v1` and at most one for a page that shares the L4 and L3 indices. -/
theorem mapPage_shared_tables (env : Env) (w : World) (v1 v2 f1 f2 : Nat)
    (hal1 : v1 % 4096 = 0) (hal2 : v2 % 4096 = 0)
    (hR : Ready env w v1 [f1]) (hf1 : f1 < 2 ^ 40)
    (h4 : pageTableOffset v2 3 = pageTableOffset v1 3)
    (h3 : pageTableOffset v2 2 = pageTableOffset v1 2)
    (h2 : pageTableOffset v2 1 = pageTableOffset v1 1)
    (w1 : World) (hret : mapPage env w v1 f1 = some (true, w1)) :
    w1.mm.nextPFN = w.mm.nextPFN + missingTables w v1
      ∧ missingTables w1 v2 = 0
      ∧ (∃ w2, mapPage env w1 v2 f2 = some (true, w2) ∧ w2.mm = w1.mm)
      ∧ (∀ v', pageTableOffset v' 3 = pageTableOffset v1 3 → missingTables w1 v' ≤ 2)
      ∧ (∀ v', pageTableOffset v' 3 = pageTableOffset v1 3 →
          pageTableOffset v' 2 = pageTableOffset v1 2 → missingTables w1 v' ≤ 1) := by
  rcases mapPage_cases env w v1 f1 [f1] hR with ⟨w'', hm, _⟩ | ⟨w3, e4, e3, e2, R, hm⟩
  · rw [hm] at hret
    simp at hret
  · rw [R.finish f1 (by omega), hret] at hm
    simp only [Option.some.injEq, Prod.mk.injEq, true_and] at hm
    subst hm
    obtain ⟨hI, c4, c3, c2⟩ := R.after hf1
    have hd2 := R.d2
    have hd3 := R.d3
    have hd4 := R.d4
    simp only [List.mem_cons, List.mem_singleton, List.not_mem_nil, or_false, not_or]
      at hd2 hd3 hd4
    have hpool := R.pool
    have hc : (mapPage.finished w3 (pageTableEntry.mfn e2) v1 f1).cr3 = w3.cr3 := rfl
    have hmm : (mapPage.finished w3 (pageTableEntry.mfn e2) v1 f1).mm = w3.mm := rfl
    have hk2 : missingTables (mapPage.finished w3 (pageTableEntry.mfn e2) v1 f1) v2 = 0 := by
      rw [missingTables, hc,
        missingFrom_succ_present _ v2 2 _ (by rw [h4, c4]; exact R.p4), h4, c4,
        missingFrom_succ_present _ v2 1 _ (by rw [h3, c3]; exact R.p3), h3, c3,
        missingFrom_succ_present _ v2 0 _ (by rw [h2, c2]; exact R.p2)]
      rfl
    have hR2 : Ready env (mapPage.finished w3 (pageTableEntry.mfn e2) v1 f1) v2 [] :=
      { installed := hI
        path := by
          have hp4 : ∀ p, InPool (mapPage.finished w3 (pageTableEntry.mfn e2) v1 f1) p →
              env.p2m p ≠ pageTableEntry.mfn e4 ∧ env.p2m p ≠ pageTableEntry.mfn e3
                ∧ env.p2m p ≠ pageTableEntry.mfn e2 := by
            intro p hp
            have := hpool p hp
            simp only [List.mem_cons, not_or] at this
            exact ⟨this.2.2.1, this.2.1, this.1⟩
          intro q4
          rw [hc, h4, c4]
          refine ⟨by simpa using hd4.1, R.rt4, fun p hp => (hp4 p hp).1, ?_⟩
          intro q3
          rw [h3, c3]
          refine ⟨by simpa using ⟨hd3.1, hd3.2.1⟩, R.rt3, fun p hp => (hp4 p hp).2.1, ?_⟩
          intro q2
          rw [h2, c2]
          refine ⟨by simpa using ⟨hd2.1, hd2.2.1, hd2.2.2.1⟩, R.rt2,
            fun p hp => (hp4 p hp).2.2, trivial⟩
        cr3_avoid := by simp
        pool_avoid := by simp }
    refine ⟨?_, hk2, ?_, ?_, ?_⟩
    · rw [hmm, R.mm_eq]
    · rcases mapPage_cases env _ v2 f2 [] hR2 with ⟨w'', hm2, F⟩ | ⟨w3', e4', e3', e2', R2, hm2⟩
      · have := F.short
        rw [hk2] at this
        omega
      · rw [R2.finish f2 (by omega)] at hm2
        refine ⟨_, hm2, ?_⟩
        show w3'.mm = _
        rw [R2.kept hk2]
    · intro v' q4
      rw [missingTables, hc,
        missingFrom_succ_present _ v' 2 _ (by rw [q4, c4]; exact R.p4)]
      exact missingFrom_le _ _ _ _
    · intro v' q4 q3
      rw [missingTables, hc,
        missingFrom_succ_present _ v' 2 _ (by rw [q4, c4]; exact R.p4), q4, c4,
        missingFrom_succ_present _ v' 1 _ (by rw [q3, c3]; exact R.p3)]
      exact missingFrom_le _ _ _ _

/-- The final store of `mapPage` can undo the mapping it has just installed: in
`lowWorld` frame 17 is the L2 table of the first 2 MB; `mapPage(0x2000, 17)` returns
`true`, and afterwards the walk from `0x2000` stops at the entry of the L2 table,
which is no longer present. -/
theorem mapPage_touch_clears_table_entry :
    (mapPage idEnv lowWorld 0x2000 17).map (fun r => r.1) = some true
      ∧ pageTableWalk (stateAfter (mapPage idEnv lowWorld 0x2000 17) lowWorld) 0x2000
          = some [65539, 69635, 0] := by
  decide

/-- C8 (as stated, refuted): the pages `0x2000` and `0x3000` have the same L4, L3
and L2 indices. In `lowWorld` frame 17 is the L2 table of their path;
`mapPage(0x2000, 17)` returns `true` and its final store to the page clears entry 0
of that table, so the following `mapPage(0x3000, 300)` returns `true` after
allocating a new L1 table: `nextPFN` goes from 19 to 20. -/
theorem mapPage_shared_table_reallocated :
    pageTableOffset 0x3000 3 = pageTableOffset 0x2000 3
      ∧ pageTableOffset 0x3000 2 = pageTableOffset 0x2000 2
      ∧ pageTableOffset 0x3000 1 = pageTableOffset 0x2000 1
      ∧ (mapPage idEnv lowWorld 0x2000 17).map (fun r => (r.1, r.2.mm.nextPFN))
          = some (true, 19)
      ∧ (mapPage idEnv (stateAfter (mapPage idEnv lowWorld 0x2000 17) lowWorld)
            0x3000 300).map (fun r => (r.1, r.2.mm.nextPFN)) = some (true, 20) := by
  decide

/-- Witness of `mapPage_shared_tables`: after frame 100 is mapped at 16 MB, frame
200 is mapped at 16 MB + 4 kB without a new table. -/
theorem mapPage_shared_tables_witness :
    ∃ w2, mapPage idEnv mappedWorld (bootPage + 4096) 200 = some (true, w2)
      ∧ w2.mm = mappedWorld.mm :=
  (mapPage_shared_tables idEnv bootWorld bootPage (bootPage + 4096) 100 200
    (by decide) (by decide)
    (bootWorldN_ready 10 (by decide) [100] (by decide)) (by decide) (by decide) (by decide)
    (by decide) mappedWorld (by rfl)).2.2.1

/-! ### Refused requests -/

theorem installTable_none (env : Env) (w w1 : World) (pte table offset : Nat)
    (h : mapPage.installTable env w pte table offset = (none, w1)) :
    w1 = w ∧ w.mm.nextPFN = w.mm.lastPFN ∧ hasFlag pte xenPageTablePresent = false := by
  unfold mapPage.installTable at h
  by_cases hp : hasFlag pte xenPageTablePresent = true
  · simp [hp] at h
  · have hp' : hasFlag pte xenPageTablePresent = false := by simpa using hp
    by_cases he : w.mm.nextPFN = w.mm.lastPFN
    · simp [hp', physAllocPage_exhausted env w he] at h
      exact ⟨h.symm, he, hp'⟩
    · simp [hp', physAllocPage, reservePFN_of_ne w he] at h

/-- The function `mapPage` returns `false` only out of a block whose allocation failed. -/
theorem mapPage_false_exhausted (env : Env) (w : World) (v f : Nat) (w' : World)
    (h : mapPage env w v f = some (false, w')) : w'.mm.nextPFN = w'.mm.lastPFN := by
  simp only [mapPage] at h
  split at h
  · simp at h
  · split at h
    · rename_i h1
      simp only [Option.some.injEq, Prod.mk.injEq, true_and] at h
      obtain ⟨q1, q2, _⟩ := installTable_none _ _ _ _ _ _ h1
      rw [← h, q1]
      exact q2
    · split at h
      · simp at h
      · split at h
        · rename_i h2
          simp only [Option.some.injEq, Prod.mk.injEq, true_and] at h
          obtain ⟨q1, q2, _⟩ := installTable_none _ _ _ _ _ _ h2
          rw [← h, q1]
          exact q2
        · split at h
          · simp at h
          · split at h
            · rename_i h3
              simp only [Option.some.injEq, Prod.mk.injEq, true_and] at h
              obtain ⟨q1, q2, _⟩ := installTable_none _ _ _ _ _ _ h3
              rw [← h, q1]
              exact q2
            · split at h <;> simp at h

theorem writePte_fst (env : Env) (w : World) (table offset value flags : Nat) :
    (writePte env w table offset value flags).1 = entryOf value flags := by
  simp only [writePte]
  split <;> rfl

theorem writePte_mm (env : Env) (w : World) (table offset value flags : Nat) :
    (writePte env w table offset value flags).2.mm = w.mm := by
  simp only [writePte]
  split <;> rfl

/-- C7 (as stated, refuted): in `mappedWorld` the page `bootPage` is mapped to frame
100. With a hypervisor that refuses every page-table update, `mapPage(bootPage, 200)`
issues one update, gets the status `-1`, prints it and returns `true`; the walk from
`bootPage` still ends in frame 100; `allocPage(bootPage)` returns `true` as well. -/
theorem mapPage_true_despite_rejection :
    (mapPage rejectEnv mappedWorld bootPage 200).map
        (fun r => (r.1, r.2.trace.drop mappedWorld.trace.length))
        = some (true, [Event.mmu_update 73728 819203 (-1), Event.println_mmu_update (-1)])
      ∧ pageTableWalk (stateAfter (mapPage rejectEnv mappedWorld bootPage 200) mappedWorld)
          bootPage = some [65539, 69635, 73731, 409603]
      ∧ pageTableEntry.mfn 409603 = 100
      ∧ (allocPage rejectEnv mappedWorld bootPage).map (fun r => r.1) = some true := by
  decide

/-- C9 (as stated, refuted): with a hypervisor that refuses the maintenance
operation, `physAllocPage` returns frame 16 with `ok = true` although the frame
still holds its old contents (every word is 7); the request was issued for frame 16
and its status `-1` was only printed. -/
theorem physAllocPage_returns_uncleared_frame :
    (physAllocPage rejectExtEnv staleWorld).1 = (16, true)
      ∧ (physAllocPage rejectExtEnv staleWorld).2.mem 16 0 = 7
      ∧ (physAllocPage rejectExtEnv staleWorld).2.trace
          = [Event.mmuext_op [(16, 16)] (-1), Event.println_mmuext_op (-1)] := by
  decide

/-- C9 (amended): when the pool is exhausted `physAllocPage` returns `(0, false)`
without any request; otherwise it reserves the next frame number `p`, then issues
exactly one maintenance request, a clear-page operation (command 16) for the machine
frame of `p`, and returns that machine frame with `ok = true`. If the hypervisor
carries the request out (status 0) every word of the returned frame is zero at the
moment of return; a non-zero status is printed, the frame is returned all the same and
memory is unchanged. -/
theorem physAllocPage_spec (env : Env) (w : World) :
    (w.mm.nextPFN = w.mm.lastPFN → physAllocPage env w = ((0, false), w))
      ∧ (w.mm.nextPFN ≠ w.mm.lastPFN →
          (physAllocPage env w).1 = (env.p2m w.mm.nextPFN, true)
          ∧ (physAllocPage env w).2.mm
              = { w.mm with nextPFN := (w.mm.nextPFN + 1) % 2 ^ 64 }
          ∧ (physAllocPage env w).2.trace
              = w.trace
                ++ Event.mmuext_op [(16, env.p2m w.mm.nextPFN)]
                    (env.mmuext_op w.trace.length [(16, env.p2m w.mm.nextPFN)])
                  :: (if env.mmuext_op w.trace.length [(16, env.p2m w.mm.nextPFN)] ≠ 0 then
                        [Event.println_mmuext_op
                          (env.mmuext_op w.trace.length [(16, env.p2m w.mm.nextPFN)])]
                      else [])
          ∧ (env.mmuext_op w.trace.length [(16, env.p2m w.mm.nextPFN)] = 0 →
              ∀ i, (physAllocPage env w).2.mem (env.p2m w.mm.nextPFN) i = 0)
          ∧ (env.mmuext_op w.trace.length [(16, env.p2m w.mm.nextPFN)] ≠ 0 →
              (physAllocPage env w).2.mem = w.mem)) := by
  refine ⟨physAllocPage_exhausted env w, ?_⟩
  intro hne
  by_cases hr : env.mmuext_op w.trace.length [(16, env.p2m w.mm.nextPFN)] = 0
  · simp [physAllocPage, reservePFN_of_ne w hne, clearPage, mmuExtOp, HYPERVISOR_mmuext_op,
      hr, applyExtOp, clearFrame]
  · simp [physAllocPage, reservePFN_of_ne w hne, clearPage, mmuExtOp, HYPERVISOR_mmuext_op,
      hr]

/-! ### `allocPages` -/

theorem pagesOf_succ (base n : Nat) :
    pagesOf base (n + 1) = base :: pagesOf (base + 4096) n := by
  simp only [pagesOf, List.range_succ_eq_map, List.map_cons, List.map_map, Nat.zero_mul,
    Nat.add_zero, List.cons.injEq, true_and]
  apply List.map_congr_left
  intro i _
  simp only [Function.comp]
  omega

/-- Without wrap-around the loop of `allocPages` backs the pages one after the
other. -/
theorem allocPagesLoop_eq (env : Env) (v : Nat) (fuel : Nat) (w : World) (page : Nat)
    (h : page + fuel * 4096 < 2 ^ 64) :
    allocPagesLoop env v (page + fuel * 4096) fuel w page
      = allocPagesSpec v (backPages env (pagesOf page fuel) w) := by
  induction fuel generalizing w page with
  | zero => simp [allocPagesLoop, pagesOf, backPages, allocPagesSpec]
  | succ k ih =>
    have hlt : page < page + (k + 1) * 4096 := by omega
    have hstop : page + (k + 1) * 4096 = (page + 4096) + k * 4096 := by omega
    have hmod : (page + _PAGESIZE) % 2 ^ 64 = page + 4096 := by
      simp only [_PAGESIZE]
      omega
    rw [pagesOf_succ]
    simp only [allocPagesLoop, hlt, if_true, backPages, hmod]
    cases hcall : allocPage env w page with
    | none => simp [allocPagesSpec]
    | some r =>
      obtain ⟨b, w1⟩ := r
      cases b with
      | false => simp [allocPagesSpec]
      | true =>
        simp only []
        rw [hstop]
        exact ih w1 (page + 4096) (by omega)

/-- The loop of `allocPages` never needs more iterations than its budget: when the
bound is `count` pages above `page`, or at or below `page`, a budget of `count`
iterations is enough. -/
theorem allocPagesLoop_budget (env : Env) (v stop : Nat) (fuel : Nat) (w : World)
    (page : Nat)
    (h : stop ≤ page ∨ ∃ count, count ≤ fuel ∧ stop = page + count * 4096 ∧ stop < 2 ^ 64) :
    allocPagesLoop env v stop fuel w page ≠ Outcome.outOfFuel := by
  induction fuel generalizing w page with
  | zero =>
    have hn : ¬ page < stop := by
      rcases h with h | ⟨c, hc, hs, _⟩
      · omega
      · omega
    simp [allocPagesLoop, hn]
  | succ k ih =>
    by_cases hlt : page < stop
    · rcases h with h | ⟨c, hc, hs, hb⟩
      · omega
      · have hmod : (page + _PAGESIZE) % 2 ^ 64 = page + 4096 := by
          simp only [_PAGESIZE]
          omega
        simp only [allocPagesLoop, hlt, if_true, hmod]
        cases hcall : allocPage env w page with
        | none => simp
        | some r =>
          obtain ⟨b, w1⟩ := r
          cases b with
          | false => simp
          | true =>
            simp only []
            apply ih
            right
            exact ⟨c - 1, by omega, by omega, hb⟩
    · simp [allocPagesLoop, hlt]

/-- The function `allocPages` is total on 64-bit arguments: its loop ends within `n`
iterations. -/
theorem allocPages_budget (env : Env) (w : World) (v n : Nat)
    (hv : v < 2 ^ 64) (hh : w.mm.nextHeapPage < 2 ^ 64) :
    allocPages env w v n ≠ Outcome.outOfFuel := by
  unfold allocPages
  apply allocPagesLoop_budget
  have hb : (if v = 0 then reserveHeapPages w n else (v, w)).1 < 2 ^ 64 := by
    split
    · exact hh
    · exact hv
  revert hb
  generalize (if v = 0 then reserveHeapPages w n else (v, w)).1 = base
  intro hb
  simp only [_PAGESIZE]
  by_cases hw : base + n * 4096 % 2 ^ 64 < 2 ^ 64
  · right
    refine ⟨n * 4096 % 2 ^ 64 / 4096, ?_, ?_, ?_⟩
    · omega
    · omega
    · omega
  · left
    omega

theorem physAllocPage_mm (env : Env) (w : World) :
    (physAllocPage env w).2.mm
      = { w.mm with nextPFN := (physAllocPage env w).2.mm.nextPFN } := by
  by_cases he : w.mm.nextPFN = w.mm.lastPFN
  · rw [physAllocPage_exhausted env w he]
  · by_cases hr : env.mmuext_op w.trace.length [(16, env.p2m w.mm.nextPFN)] = 0
    · simp [physAllocPage, reservePFN_of_ne w he, clearPage, mmuExtOp, HYPERVISOR_mmuext_op,
        hr]
    · simp [physAllocPage, reservePFN_of_ne w he, clearPage, mmuExtOp, HYPERVISOR_mmuext_op,
        hr]

theorem installTable_mm (env : Env) (w : World) (pte table offset : Nat) :
    (mapPage.installTable env w pte table offset).2.mm
      = { w.mm with nextPFN := (mapPage.installTable env w pte table offset).2.mm.nextPFN } := by
  unfold mapPage.installTable
  by_cases hp : hasFlag pte xenPageTablePresent = true
  · simp [hp]
  · have hp' : hasFlag pte xenPageTablePresent = false := by simpa using hp
    have h := physAllocPage_mm env w
    simp only [hp', Bool.not_false, if_true]
    cases hph : physAllocPage env w with
    | mk r w1 =>
      obtain ⟨pfn, ok⟩ := r
      rw [hph] at h
      cases ok with
      | false => simpa using h
      | true =>
        simp only [Bool.not_true, Bool.false_eq_true, if_false, writePte_mm]
        simpa using h

theorem installTable_mm_of (env : Env) (w : World) (pte table offset : Nat)
    (r : Option Nat) (w1 : World)
    (h : mapPage.installTable env w pte table offset = (r, w1)) :
    w1.mm = { w.mm with nextPFN := w1.mm.nextPFN } := by
  have := installTable_mm env w pte table offset
  rw [h] at this
  exact this

theorem writeWord_mm (w w' : World) (va val : Nat) (h : writeWord w va val = some w') :
    w'.mm = w.mm := by
  unfold writeWord at h
  split at h
  · simp at h
  · simp only [Option.some.injEq] at h
    rw [← h]

theorem storeZero_mm (w w' : World) (va : Nat) (h : storeZero w va = some w') :
    w'.mm = w.mm := by
  unfold storeZero at h
  split at h
  · exact writeWord_mm _ _ _ _ h
  · split at h
    · simp at h
    · simp only at h
      split at h
      · simp only [Option.some.injEq] at h
        rw [← h]
      · split at h
        · simp at h
        · simp only [Option.some.injEq] at h
          rw [← h]

/-- The function `mapPage` changes no field of the manager but `nextPFN`. -/
theorem mapPage_mm (env : Env) (w : World) (v f : Nat) (b : Bool) (w' : World)
    (h : mapPage env w v f = some (b, w')) :
    w'.mm = { w.mm with nextPFN := w'.mm.nextPFN } := by
  simp only [mapPage] at h
  split at h
  · simp at h
  · split at h
    · rename_i h1
      simp only [Option.some.injEq, Prod.mk.injEq] at h
      have := installTable_mm_of _ _ _ _ _ _ _ h1
      rw [← h.2]
      exact this
    · rename_i h1
      have m1 := installTable_mm_of _ _ _ _ _ _ _ h1
      split at h
      · simp at h
      · split at h
        · rename_i h2
          simp only [Option.some.injEq, Prod.mk.injEq] at h
          have m2 := installTable_mm_of _ _ _ _ _ _ _ h2
          rw [← h.2]
          exact mm_trans _ _ _ _ _ m2 m1
        · rename_i h2
          have m2 := installTable_mm_of _ _ _ _ _ _ _ h2
          split at h
          · simp at h
          · split at h
            · rename_i h3
              simp only [Option.some.injEq, Prod.mk.injEq] at h
              have m3 := installTable_mm_of _ _ _ _ _ _ _ h3
              rw [← h.2]
              exact mm_trans _ _ _ _ _ m3 (mm_trans _ _ _ _ _ m2 m1)
            · rename_i h3
              have m3 := installTable_mm_of _ _ _ _ _ _ _ h3
              split at h
              · simp at h
              · rename_i h4
                simp only [Option.some.injEq, Prod.mk.injEq] at h
                have m4 := storeZero_mm _ _ _ h4
                rw [writePte_mm] at m4
                rw [← h.2, m4]
                exact mm_trans _ _ _ _ _ m3 (mm_trans _ _ _ _ _ m2 m1)

/-- The function `allocPage` changes no field of the manager but `nextPFN`. -/
theorem allocPage_mm (env : Env) (w : World) (page : Nat) (b : Bool) (w' : World)
    (h : allocPage env w page = some (b, w')) :
    w'.mm = { w.mm with nextPFN := w'.mm.nextPFN } := by
  unfold allocPage at h
  have m := physAllocPage_mm env w
  cases hph : physAllocPage env w with
  | mk r w1 =>
    obtain ⟨pfn, ok⟩ := r
    rw [hph] at m h
    cases ok with
    | false =>
      simp only [Bool.not_false, if_true, Option.some.injEq, Prod.mk.injEq] at h
      rw [← h.2]
      exact m
    | true =>
      simp only [Bool.not_true, Bool.false_eq_true, if_false] at h
      exact mm_trans _ _ _ _ _ (mapPage_mm _ _ _ _ _ _ h) m

/-- Backing a list of pages changes no field of the manager but `nextPFN`. -/
theorem backPages_mm (env : Env) (pages : List Nat) (w : World) (b : Bool) (w' : World)
    (h : backPages env pages w = some (b, w')) :
    w'.mm = { w.mm with nextPFN := w'.mm.nextPFN } := by
  induction pages generalizing w with
  | nil =>
    simp only [backPages, Option.some.injEq, Prod.mk.injEq] at h
    rw [← h.2]
  | cons page rest ih =>
    simp only [backPages] at h
    cases hc : allocPage env w page with
    | none => simp [hc] at h
    | some r =>
      obtain ⟨b1, w1⟩ := r
      have m1 := allocPage_mm _ _ _ _ _ hc
      rw [hc] at h
      cases b1 with
      | false =>
        simp only [Option.some.injEq, Prod.mk.injEq] at h
        rw [← h.2]
        exact m1
      | true =>
        simp only [] at h
        exact mm_trans _ _ _ _ _ (ih w1 h) m1

/-- C10 (as stated, refuted): for `v = 2^64 - 4096` and `n = 1` the bound
`v + n * 4096` wraps around to 0, the loop body never runs, and `allocPages` returns
the non-nil `v` in an unchanged state: no frame was reserved and no request issued,
although a call of `allocPage` in that state issues requests. -/
theorem allocPages_wraps_without_backing :
    (allocPages idEnv bootWorld (2 ^ 64 - 4096) 1).result.map
        (fun r => (r.1, r.2.mm, r.2.trace)) = some (2 ^ 64 - 4096, bootWorld.mm, [])
      ∧ (allocPage idEnv bootWorld (2 ^ 64 - 4096)).map (fun r => r.2.trace.length) ≠ some 0 := by
  decide

/-- C10 (amended): when the range does not wrap around (`base + n * 4096 < 2^64`,
where `base` is `v`, or the heap cursor before the call when `v` is nil),
`allocPages(v, n)` first reserves the range when `v` is nil and then is the
sequential backing of the pages `base, base + 4096, .., base + (n - 1) * 4096` in
increasing order, one `allocPage` call per page, that stops at the first call
returning `false` and then returns nil in the state that call left; a returned state
differs from the state after the reservation in `nextPFN` at most (the heap cursor
is not restored), and a non-nil pointer is returned only as `base` and only when
every one of the `n` calls has returned `true`. -/
theorem allocPages_backs_in_order (env : Env) (w : World) (v n : Nat)
    (hwrap : (if v = 0 then w.mm.nextHeapPage else v) + n * 4096 < 2 ^ 64) :
    allocPages env w v n
        = allocPagesSpec (if v = 0 then w.mm.nextHeapPage else v)
            (backPages env (pagesOf (if v = 0 then w.mm.nextHeapPage else v) n)
              (if v = 0 then (reserveHeapPages w n).2 else w))
      ∧ ∀ p w', allocPages env w v n = Outcome.returned p w' →
          w'.mm = { (if v = 0 then (reserveHeapPages w n).2 else w).mm with
                    nextPFN := w'.mm.nextPFN }
          ∧ (p ≠ 0 → p = (if v = 0 then w.mm.nextHeapPage else v)
              ∧ backPages env (pagesOf (if v = 0 then w.mm.nextHeapPage else v) n)
                  (if v = 0 then (reserveHeapPages w n).2 else w) = some (true, w')) := by
  have heq : allocPages env w v n
        = allocPagesSpec (if v = 0 then w.mm.nextHeapPage else v)
            (backPages env (pagesOf (if v = 0 then w.mm.nextHeapPage else v) n)
              (if v = 0 then (reserveHeapPages w n).2 else w)) := by
    have hstop : ∀ base, base + n * 4096 < 2 ^ 64 →
        (base + n * _PAGESIZE % 2 ^ 64) % 2 ^ 64 = base + n * 4096 := by
      intro base hb
      simp only [_PAGESIZE]
      omega
    unfold allocPages
    by_cases hv : v = 0
    · simp only [hv, if_true] at hwrap ⊢
      rw [reserveHeapPages_fst, hstop _ hwrap]
      exact allocPagesLoop_eq env _ n _ _ hwrap
    · simp only [hv, if_false] at hwrap ⊢
      rw [hstop _ hwrap]
      exact allocPagesLoop_eq env _ n _ _ hwrap
  refine ⟨heq, ?_⟩
  intro p w' hret
  rw [heq] at hret
  cases hb : backPages env (pagesOf (if v = 0 then w.mm.nextHeapPage else v) n)
      (if v = 0 then (reserveHeapPages w n).2 else w) with
  | none => simp [hb, allocPagesSpec] at hret
  | some r =>
    obtain ⟨b, w1⟩ := r
    have hm := backPages_mm _ _ _ _ _ hb
    rw [hb] at hret
    cases b with
    | false =>
      simp only [allocPagesSpec, Outcome.returned.injEq] at hret
      obtain ⟨hp, hw⟩ := hret
      subst hw
      exact ⟨hm, fun h => absurd hp.symm h⟩
    | true =>
      simp only [allocPagesSpec, Outcome.returned.injEq] at hret
      obtain ⟨hp, hw⟩ := hret
      subst hw
      exact ⟨hm, fun _ => ⟨hp.symm, rfl⟩⟩

/-- Witness of `allocPages_backs_in_order`: three pages at the heap cursor of the
freshly bootstrapped state. -/
theorem allocPages_backs_in_order_witness :
    allocPages idEnv bootWorld 0 3
        = allocPagesSpec (if (0 : Nat) = 0 then bootWorld.mm.nextHeapPage else 0)
            (backPages idEnv (pagesOf (if (0 : Nat) = 0 then bootWorld.mm.nextHeapPage else 0) 3)
              (if (0 : Nat) = 0 then (reserveHeapPages bootWorld 3).2 else bootWorld)) :=
  (allocPages_backs_in_order idEnv bootWorld 0 3 (by decide)).1

/-! ### A state with a built path satisfies the hypotheses of the analysis -/

theorem lowWorld_mm : lowWorld.mm = { bootWorld.mm with nextPFN := 19 } := by decide

theorem lowWorld_installed : Installed idEnv lowWorld :=
  { accepts := idEnv_accepts
    next_le := by decide
    last_lt := by decide
    l4_view := by decide
    l4_frame := by decide
    recursive := by decide
    pool_lt := by
      intro p hp
      have h2 : p < 26 := hp.2
      show p < 2 ^ 40
      omega
    pool_rt := fun _ _ => rfl
    pool_inj := fun _ _ _ _ h => h
    pool_cr3 := by
      intro p hp
      have h1 : 19 ≤ p := hp.1
      show p ≠ 1
      omega }

/-- The hypotheses of the analysis hold in a state whose path is already built: in
`lowWorld` the tables of the page `0x2000` are the frames 16, 17 and 18. -/
theorem lowWorld_ready (f : Nat) (hf : 26 ≤ f) : Ready idEnv lowWorld 0x2000 [f] :=
  { installed := lowWorld_installed
    path := by
      have hpool : ∀ p, InPool lowWorld p → 19 ≤ p := fun p hp => hp.1
      have e4 : lowWorld.mem lowWorld.cr3 (pageTableOffset 0x2000 (2 + 1)) = 65539 := by decide
      have e3 : lowWorld.mem 16 (pageTableOffset 0x2000 (1 + 1)) = 69635 := by decide
      have e2 : lowWorld.mem 17 (pageTableOffset 0x2000 (0 + 1)) = 73731 := by decide
      have m4 : pageTableEntry.mfn 65539 = 16 := by decide
      have m3 : pageTableEntry.mfn 69635 = 17 := by decide
      have m2 : pageTableEntry.mfn 73731 = 18 := by decide
      have c : lowWorld.cr3 = 1 := rfl
      intro _
      rw [e4, m4]
      refine ⟨?_, rfl, ?_, ?_⟩
      · simp only [c, List.mem_cons, List.mem_singleton, List.not_mem_nil, or_false, not_or]
        omega
      · intro p hp
        have := hpool p hp
        show p ≠ 16
        omega
      · intro _
        rw [e3, m3]
        refine ⟨?_, rfl, ?_, ?_⟩
        · simp only [c, List.mem_cons, List.mem_singleton, List.not_mem_nil, or_false, not_or]
          omega
        · intro p hp
          have := hpool p hp
          show p ≠ 17
          omega
        · intro _
          rw [e2, m2]
          refine ⟨?_, rfl, ?_, trivial⟩
          · simp only [c, List.mem_cons, List.mem_singleton, List.not_mem_nil, or_false,
              not_or]
            omega
          · intro p hp
            have := hpool p hp
            show p ≠ 18
            omega
    cr3_avoid := by
      simp only [List.mem_singleton]
      show (1 : Nat) ≠ f
      omega
    pool_avoid := by
      intro p hp
      have h2 : p < 26 := hp.2
      simp only [List.mem_singleton]
      show p ≠ f
      omega }

/-! ### The recursive window, memAlloc and the bootstrap ranges -/

theorem getPageTable_viewIndex (a b c : Int)
    (ha : a = -1 ∨ (0 ≤ a ∧ a ≤ 511)) (hb : b = -1 ∨ (0 ≤ b ∧ b ≤ 511))
    (hc : c = -1 ∨ (0 ≤ c ∧ c ≤ 511)) :
    getPageTable a b c
      = 0xFFFFFF8000000000 + viewIndex a * 1073741824 + viewIndex b * 2097152
          + viewIndex c * 4096
      ∧ viewIndex a < 512 ∧ viewIndex b < 512 ∧ viewIndex c < 512 := by
  have key : ∀ x : Int, (x = -1 ∨ (0 ≤ x ∧ x ≤ 511)) →
      (if x = -1 then (511 : Int) else x) = ((viewIndex x : Nat) : Int) ∧ viewIndex x < 512 := by
    intro x hx
    unfold viewIndex
    rcases hx with hx | hx
    · subst hx; simp
    · have h1 : ¬ (x = -1) := by omega
      simp only [h1, if_false]
      omega
  obtain ⟨ea, la⟩ := key a ha
  obtain ⟨eb, lb⟩ := key b hb
  obtain ⟨ec, lc⟩ := key c hc
  refine ⟨?_, la, lb, lc⟩
  rw [← getPageTable_l1 _ _ _ la lb lc]
  have h1 : ¬ (((viewIndex a : Nat) : Int) = -1) := by omega
  have h2 : ¬ (((viewIndex b : Nat) : Int) = -1) := by omega
  have h3 : ¬ (((viewIndex c : Nat) : Int) = -1) := by omega
  simp only [getPageTable, ea, eb, ec, h1, h2, h3, if_false]

/-- C18: for arguments that are each `-1` or an index in `[0, 511]`, `getPageTable`
returns the address `0xFFFFFF8000000000 + a' * 2^30 + b' * 2^21 + c' * 2^12` (below
`2^64`, so nothing wraps), where `x'` is 511 for `-1` and `x` otherwise; the address
is page-aligned and its four page-table indices are `(511, a', b', c')`; two
argument triples with the same address have the same indices; and
`getPageTable(-1, -1, -1)` is `0xFFFFFFFFFFFFF000`. -/
theorem getPageTable_window_address (a b c : Int)
    (ha : a = -1 ∨ (0 ≤ a ∧ a ≤ 511)) (hb : b = -1 ∨ (0 ≤ b ∧ b ≤ 511))
    (hc : c = -1 ∨ (0 ≤ c ∧ c ≤ 511)) :
    getPageTable a b c
        = 0xFFFFFF8000000000 + viewIndex a * 2 ^ 30 + viewIndex b * 2 ^ 21
            + viewIndex c * 2 ^ 12
      ∧ 0xFFFFFF8000000000 + viewIndex a * 2 ^ 30 + viewIndex b * 2 ^ 21
            + viewIndex c * 2 ^ 12 < 2 ^ 64
      ∧ getPageTable a b c % 4096 = 0
      ∧ pageTableOffset (getPageTable a b c) pageTableLevel4 = 511
      ∧ pageTableOffset (getPageTable a b c) pageTableLevel3 = viewIndex a
      ∧ pageTableOffset (getPageTable a b c) pageTableLevel2 = viewIndex b
      ∧ pageTableOffset (getPageTable a b c) pageTableLevel1 = viewIndex c
      ∧ (∀ a2 b2 c2 : Int, (a2 = -1 ∨ (0 ≤ a2 ∧ a2 ≤ 511)) →
          (b2 = -1 ∨ (0 ≤ b2 ∧ b2 ≤ 511)) → (c2 = -1 ∨ (0 ≤ c2 ∧ c2 ≤ 511)) →
          getPageTable a b c = getPageTable a2 b2 c2 →
          viewIndex a = viewIndex a2 ∧ viewIndex b = viewIndex b2
            ∧ viewIndex c = viewIndex c2)
      ∧ getPageTable (-1) (-1) (-1) = 0xFFFFFFFFFFFFF000 := by
  obtain ⟨h, la, lb, lc⟩ := getPageTable_viewIndex a b c ha hb hc
  rw [pageTableOffset_l4, pageTableOffset_l3, pageTableOffset_l2, pageTableOffset_l1, h]
  refine ⟨by norm_num, by norm_num; omega, by omega, by omega, by omega, by omega, by omega,
    ?_, getPageTable_l4⟩
  intro a2 b2 c2 ha2 hb2 hc2 heq
  obtain ⟨h2, la2, lb2, lc2⟩ := getPageTable_viewIndex a2 b2 c2 ha2 hb2 hc2
  rw [h2] at heq
  omega

theorem getPageTable_window_address_witness :
    getPageTable 3 (-1) 0 = 0xFFFFFF8000000000 + 3 * 2 ^ 30 + 511 * 2 ^ 21 + 0 * 2 ^ 12
      ∧ pageTableOffset (getPageTable 3 (-1) 0) pageTableLevel3 = 3 := by
  have h := getPageTable_window_address 3 (-1) 0 (by decide) (by decide) (by decide)
  exact ⟨h.1, h.2.2.2.2.1⟩

theorem PathClean_congr (env : Env) (w w' : World) (v : Nat)
    (hmem : ∀ fr i, (∀ p, InPool w p → env.p2m p ≠ fr) → w'.mem fr i = w.mem fr i)
    (hsub : ∀ p, InPool w' p → InPool w p) :
    ∀ lvl T above above', (∀ x ∈ above', x ∈ above ∨ ∃ p, InPool w p ∧ env.p2m p = x) →
      (∀ p, InPool w p → env.p2m p ≠ T) → PathClean env w v lvl T above →
      PathClean env w' v lvl T above' := by
  intro lvl
  induction lvl with
  | zero => intro T above above' _ _ _; trivial
  | succ l ih =>
    intro T above above' hab hT h
    simp only [PathClean] at h ⊢
    rw [hmem T _ hT]
    intro hp
    obtain ⟨h1, h2, h3, h4⟩ := h hp
    simp only [List.mem_cons, not_or] at h1
    refine ⟨?_, h2, fun p hpp => h3 p (hsub p hpp), ih _ (T :: above) _ ?_ h3 h4⟩
    · simp only [List.mem_cons, not_or]
      refine ⟨h1.1, fun hx => ?_⟩
      rcases hab _ hx with h5 | ⟨p, hp1, hp2⟩
      · exact h1.2 h5
      · exact h3 p hp1 hp2
    · intro x hx
      simp only [List.mem_cons] at hx ⊢
      rcases hx with hx | hx
      · exact Or.inl (Or.inl hx)
      · rcases hab _ hx with h5 | h5
        · exact Or.inl (Or.inr h5)
        · exact Or.inr h5

theorem missingFrom_congr (env : Env) (w w' : World) (v : Nat)
    (hmem : ∀ fr i, (∀ p, InPool w p → env.p2m p ≠ fr) → w'.mem fr i = w.mem fr i) :
    ∀ lvl T above, (∀ p, InPool w p → env.p2m p ≠ T) → PathClean env w v lvl T above →
      missingFrom w' v lvl T = missingFrom w v lvl T := by
  intro lvl
  induction lvl with
  | zero => intro T above _ _; rfl
  | succ l ih =>
    intro T above hT h
    simp only [PathClean] at h
    simp only [missingFrom]
    rw [hmem T _ hT]
    by_cases hp : hasFlag (w.mem T (pageTableOffset v (l + 1))) xenPageTablePresent = true
    · obtain ⟨h1, h2, h3, h4⟩ := h hp
      simp only [hp, if_true]
      exact ih _ _ h3 h4
    · simp [hp]

/-- The state after a successful `physAllocPage` in a state ready for `mapPage` on
`v`: it is again ready, with the frame just issued as one that is no page table, one
frame fewer in the pool and the same tables on the path of `v`. -/
theorem physAllocPage_ready (env : Env) (w : World) (v : Nat) (avoid : List Nat)
    (hR : Ready env w v avoid) (hne : w.mm.nextPFN ≠ w.mm.lastPFN) :
    ∃ w1, physAllocPage env w = ((env.p2m w.mm.nextPFN, true), w1)
      ∧ Ready env w1 v (env.p2m w.mm.nextPFN :: avoid)
      ∧ w1.mm = { w.mm with nextPFN := w.mm.nextPFN + 1 }
      ∧ w1.cr3 = w.cr3
      ∧ missingTables w1 v = missingTables w v
      ∧ InPool w w.mm.nextPFN
      ∧ (∀ p, InPool w1 p → InPool w p)
      ∧ (∀ fr i, fr ≠ env.p2m w.mm.nextPFN → w1.mem fr i = w.mem fr i)
      ∧ (∀ i, w1.mem (env.p2m w.mm.nextPFN) i = 0)
      ∧ w1.trace = w.trace ++ [Event.mmuext_op [(16, env.p2m w.mm.nextPFN)] 0] := by
  have hI := hR.installed
  have hin : InPool w w.mm.nextPFN := ⟨le_refl _, lt_of_le_of_ne hI.next_le hne⟩
  have hlast := hI.last_lt
  have hphys := physAllocPage_fresh env w hI.accepts hne (by have := hin.2; omega)
  refine ⟨_, hphys, ?_, rfl, rfl, ?_, hin, ?_, ?_, ?_, rfl⟩
  · have hsub : ∀ p, InPool
        ({ w with
            mm := { w.mm with nextPFN := w.mm.nextPFN + 1 }
            mem := clearFrame w.mem (env.p2m w.mm.nextPFN)
            trace := w.trace ++ [Event.mmuext_op [(16, env.p2m w.mm.nextPFN)] 0] } : World) p
        → InPool w p ∧ p ≠ w.mm.nextPFN := by
      intro p hpp
      have h1 : w.mm.nextPFN + 1 ≤ p := hpp.1
      exact ⟨⟨by omega, hpp.2⟩, by omega⟩
    have hmem : ∀ fr i, (∀ p, InPool w p → env.p2m p ≠ fr) →
        (clearFrame w.mem (env.p2m w.mm.nextPFN)) fr i = w.mem fr i := by
      intro fr i hfr
      exact clearFrame_other _ _ _ _ (fun h => hfr _ hin h.symm)
    refine
      { installed :=
          { accepts := hI.accepts
            next_le := by
              have := hin.2
              show w.mm.nextPFN + 1 ≤ w.mm.lastPFN
              omega
            last_lt := hI.last_lt
            l4_view := hI.l4_view
            l4_frame := hI.l4_frame
            recursive := by
              show hasFlag (clearFrame w.mem (env.p2m w.mm.nextPFN) w.cr3 511)
                  xenPageTablePresent = true
                ∧ pageTableEntry.mfn (clearFrame w.mem (env.p2m w.mm.nextPFN) w.cr3 511) = w.cr3
              rw [hmem _ _ (fun p hpp => hI.pool_cr3 p hpp)]
              exact hI.recursive
            pool_lt := fun p hpp => hI.pool_lt p (hsub p hpp).1
            pool_rt := fun p hpp => hI.pool_rt p (hsub p hpp).1
            pool_inj := fun p q hpp hq => hI.pool_inj p q (hsub p hpp).1 (hsub q hq).1
            pool_cr3 := fun p hpp => hI.pool_cr3 p (hsub p hpp).1 }
        path := ?_
        cr3_avoid := ?_
        pool_avoid := ?_ }
    · refine PathClean_congr env w _ v hmem (fun p hpp => (hsub p hpp).1) 3 w.cr3 avoid _ ?_
        (fun p hpp => hI.pool_cr3 p hpp) hR.path
      intro x hx
      simp only [List.mem_cons] at hx
      rcases hx with hx | hx
      · exact Or.inr ⟨_, hin, hx.symm⟩
      · exact Or.inl hx
    · intro h
      simp only [List.mem_cons] at h
      rcases h with h | h
      · exact hI.pool_cr3 _ hin h.symm
      · exact hR.cr3_avoid h
    · intro p hpp h
      simp only [List.mem_cons] at h
      rcases h with h | h
      · exact (hsub p hpp).2 (hI.pool_inj _ _ (hsub p hpp).1 hin h)
      · exact hR.pool_avoid p (hsub p hpp).1 h
  · exact missingFrom_congr env w _ v
      (fun fr i hfr => clearFrame_other _ _ _ _ (fun h => hfr _ hin h.symm)) 3 w.cr3 avoid
      (fun p hpp => hI.pool_cr3 p hpp) hR.path
  · intro p hpp
    have h1 : w.mm.nextPFN + 1 ≤ p := hpp.1
    exact ⟨by omega, hpp.2⟩
  · intro fr i hfr
    exact clearFrame_other _ _ _ _ hfr
  · intro i
    exact clearFrame_same _ _ _

/-! ### The ranges computed by `init` -/

theorem update_va_mapping_mm (env : BootEnv) (w : World) (va val flags : Nat) :
    (HYPERVISOR_update_va_mapping env w va val flags).2.mm = w.mm := rfl

theorem update_va_mapping_cr3 (env : BootEnv) (w : World) (va val flags : Nat) :
    (HYPERVISOR_update_va_mapping env w va val flags).2.cr3 = w.cr3 := rfl

theorem unmapLowLoop_mm (env : BootEnv) (fuel : Nat) (w : World) (addr : Nat) :
    (unmapLowLoop env fuel w addr).mm = w.mm ∧ (unmapLowLoop env fuel w addr).cr3 = w.cr3 := by
  induction fuel generalizing w addr with
  | zero => exact ⟨rfl, rfl⟩
  | succ k ih =>
    simp only [unmapLowLoop]
    split
    · have h := ih (HYPERVISOR_update_va_mapping env w addr 0 2).2 (addr + _PAGESIZE)
      exact ⟨h.1, h.2⟩
    · exact ⟨rfl, rfl⟩

theorem unmapFold_mm (env : BootEnv) (l : List Nat) (w : World) :
    (l.foldl (fun w i =>
      (HYPERVISOR_update_va_mapping env w (pfn.vaddr (pfn.add w.mm.l4PFN i)) 0 2).2) w).mm = w.mm
    ∧ (l.foldl (fun w i =>
      (HYPERVISOR_update_va_mapping env w (pfn.vaddr (pfn.add w.mm.l4PFN i)) 0 2).2) w).cr3
        = w.cr3 := by
  induction l generalizing w with
  | nil => exact ⟨rfl, rfl⟩
  | cons i rest ih =>
    simp only [List.foldl_cons]
    have h := ih (HYPERVISOR_update_va_mapping env w (pfn.vaddr (pfn.add w.mm.l4PFN i)) 0 2).2
    exact ⟨h.1, h.2⟩

theorem writePte_cr3 (env : Env) (w : World) (table offset value flags : Nat) :
    (writePte env w table offset value flags).2.cr3 = w.cr3 := by
  simp only [writePte]
  split <;> rfl

/-- The manager after `init`: the fields computed from the descriptor, and the view
at the top of the recursive window. -/
theorem init_mm (env : BootEnv) (si : xenStartInfo) (w : World) :
    (init env si w).mm
        = { (init.ranges si w).mm with l4 := getPageTable (-1) (-1) (-1) }
      ∧ (init env si w).cr3 = w.cr3 := by
  unfold init unmapBootstrapPageTables unmapLowAddresses
  refine ⟨?_, ?_⟩
  · rw [(unmapFold_mm env _ _).1, (unmapLowLoop_mm env _ _ _).1]
    simp only [mapL4, writePte_mm]
  · rw [(unmapFold_mm env _ _).2, (unmapLowLoop_mm env _ _ _).2]
    simp only [mapL4, writePte_cr3]
    rfl

theorem round_4mb (x : Nat) (hx : x + 0x400000 ≤ 2 ^ 64) :
    round x 0x400000 % 0x400000 = 0 ∧ x ≤ round x 0x400000
      ∧ round x 0x400000 < x + 0x400000 := by
  simp only [round]
  omega

/-- C19 (as stated, refuted): for the descriptor `highInfo` the bootstrap stack address
is `2^64 - 4096`, the padded address wraps around, and the end-of-bootstrap address
`0x400000` does not lie `0x80000` above the stack address; and for the ordinary
descriptor `loaderInfo`, whose end-of-bootstrap address is `0x400000` (frame 1024),
the cursors do not begin at that address: `nextPFN` is 1025 and `nextHeapPage` is
`0x401000`. -/
theorem init_end_wraps_and_skips_a_frame :
    pfn.vaddr (init.bootstrapStackPFN highInfo) = 2 ^ 64 - 4096
      ∧ init.bootstrapEnd highInfo = 0x400000
      ∧ ¬ (pfn.vaddr (init.bootstrapStackPFN highInfo) + 0x80000 ≤ init.bootstrapEnd highInfo)
      ∧ (init bootIdEnv highInfo loaderWorld).mm.bootstrapEndPFN = 1024
      ∧ init.bootstrapEnd loaderInfo = 0x400000
      ∧ (init bootIdEnv loaderInfo loaderWorld).mm.bootstrapEndPFN = 1024
      ∧ (init bootIdEnv loaderInfo loaderWorld).mm.nextPFN = 1025
      ∧ (init bootIdEnv loaderInfo loaderWorld).mm.nextHeapPage = 0x401000 := by
  have e1 : init.bootstrapStackPFN highInfo = 2 ^ 52 - 1 := by
    simp only [init.bootstrapStackPFN, pfn.add, vaddr.pfn, _PAGESIZE, highInfo]
    norm_num
  have e2 : pfn.vaddr (init.bootstrapStackPFN highInfo) = 2 ^ 64 - 4096 := by
    rw [e1]
    simp only [pfn.vaddr, _PAGESIZE]
    norm_num
  have e3 : init.bootstrapEnd highInfo = 0x400000 := by
    simp only [init.bootstrapEnd, e2, round]
    norm_num
  have e4 : init.bootstrapEnd loaderInfo = 0x400000 := by
    simp only [init.bootstrapEnd, init.bootstrapStackPFN, pfn.add, pfn.vaddr, vaddr.pfn,
      _PAGESIZE, loaderInfo, round]
    norm_num
  refine ⟨e2, e3, ?_, ?_, e4, ?_, ?_, ?_⟩
  · rw [e2, e3]
    norm_num
  · simp only [init_mm, init.ranges, e3, vaddr.pfn, _PAGESIZE]
  · simp only [init_mm, init.ranges, e4, vaddr.pfn, _PAGESIZE]
  · simp only [init_mm, init.ranges, e4, vaddr.pfn, pfn.add, _PAGESIZE]
    norm_num
  · simp only [init_mm, init.ranges, e4, vaddr.pfn, pfn.add, pfn.vaddr, _PAGESIZE]
    norm_num

/-- C19 (amended): for a loader descriptor whose padded bootstrap stack address does not
leave the 64-bit range (`stack + 0x80000 + 0x400000 ≤ 2^64`, where `stack` is the
address of the frame one past `pageTableBase`'s frame plus `NrPageTableFrames`),
`init` computes an end-of-bootstrap address that is a multiple of `0x400000` and lies
at least `0x80000` and less than `0x80000 + 0x400000` above `stack`; it sets
`bootstrapEndPFN` to the frame of that address, `nextPFN` to the frame after it and
`nextHeapPage` to the page-aligned address of that frame, one page above the
end-of-bootstrap address, and `lastPFN` to `NrPages`. -/
theorem init_ranges_spec (env : BootEnv) (si : xenStartInfo) (w : World)
    (hs : (si.PageTableBase / 4096 + si.NrPageTableFrames + 1) * 4096 + 0x80000 + 0x400000
      ≤ 2 ^ 64) :
    pfn.vaddr (init.bootstrapStackPFN si)
        = (si.PageTableBase / 4096 + si.NrPageTableFrames + 1) * 4096
      ∧ (init env si w).mm.bootstrapStackPFN
          = si.PageTableBase / 4096 + si.NrPageTableFrames + 1
      ∧ init.bootstrapEnd si % 0x400000 = 0
      ∧ pfn.vaddr (init.bootstrapStackPFN si) + 0x80000 ≤ init.bootstrapEnd si
      ∧ init.bootstrapEnd si < pfn.vaddr (init.bootstrapStackPFN si) + 0x80000 + 0x400000
      ∧ (init env si w).mm.bootstrapEndPFN = init.bootstrapEnd si / 4096
      ∧ (init env si w).mm.nextPFN = init.bootstrapEnd si / 4096 + 1
      ∧ (init env si w).mm.nextHeapPage = init.bootstrapEnd si + 4096
      ∧ (init env si w).mm.nextHeapPage = pfn.vaddr (init env si w).mm.nextPFN
      ∧ (init env si w).mm.nextHeapPage % 4096 = 0
      ∧ (init env si w).mm.lastPFN = si.NrPages := by
  have hpfn : init.bootstrapStackPFN si = si.PageTableBase / 4096 + si.NrPageTableFrames + 1 := by
    simp only [init.bootstrapStackPFN, pfn.add, vaddr.pfn, _PAGESIZE]
    omega
  have hstack : pfn.vaddr (init.bootstrapStackPFN si)
      = (si.PageTableBase / 4096 + si.NrPageTableFrames + 1) * 4096 := by
    rw [hpfn]
    simp only [pfn.vaddr, _PAGESIZE]
    omega
  have hend : init.bootstrapEnd si
      = round ((si.PageTableBase / 4096 + si.NrPageTableFrames + 1) * 4096 + 0x80000)
          0x400000 := by
    have hm : ((si.PageTableBase / 4096 + si.NrPageTableFrames + 1) * 4096 + 0x80000) % 2 ^ 64
        = (si.PageTableBase / 4096 + si.NrPageTableFrames + 1) * 4096 + 0x80000 := by
      omega
    simp only [init.bootstrapEnd, hstack, hm]
  obtain ⟨r1, r2, r3⟩ := round_4mb
    ((si.PageTableBase / 4096 + si.NrPageTableFrames + 1) * 4096 + 0x80000) (by omega)
  rw [← hend] at r1 r2 r3
  have hmm := (init_mm env si w).1
  have h1 : (init env si w).mm.bootstrapStackPFN = init.bootstrapStackPFN si := by
    rw [hmm]; rfl
  have h2 : (init env si w).mm.bootstrapEndPFN = init.bootstrapEnd si / 4096 := by
    rw [hmm]; rfl
  have h3 : (init env si w).mm.nextPFN = (init.bootstrapEnd si / 4096 + 1) % 2 ^ 64 := by
    rw [hmm]; rfl
  have h4 : (init env si w).mm.nextHeapPage
      = ((init.bootstrapEnd si / 4096 + 1) % 2 ^ 64 * 4096) % 2 ^ 64 := by
    rw [hmm]; rfl
  have h5 : (init env si w).mm.lastPFN = si.NrPages := by
    rw [hmm]; rfl
  rw [h1, h2, h3, h4, h5, hstack, hpfn]
  simp only [pfn.vaddr, _PAGESIZE]
  clear h1 h2 h3 h4 h5 hmm hend hstack hpfn
  generalize init.bootstrapEnd si = e at r1 r2 r3 ⊢
  have hb : e + 4194304 ≤ 2 ^ 64 := by
    have h1 : e = 4194304 * (e / 4194304) := by omega
    have h2 : e / 4194304 < 2 ^ 42 := by omega
    omega
  have hq : e / 4096 * 4096 = e := by omega
  have hn : (e / 4096 + 1) % 2 ^ 64 = e / 4096 + 1 := by omega
  have hmul : (e / 4096 + 1) * 4096 = e + 4096 := by omega
  have hmod : (e + 4096) % 2 ^ 64 = e + 4096 := by omega
  rw [hn, hmul, hmod]
  refine ⟨?_, ?_, r1, r2, r3, ?_, ?_, ?_, ?_, ?_, ?_⟩ <;> first | exact True.intro | omega

theorem init_ranges_spec_witness :
    (loaderInfo.PageTableBase / 4096 + loaderInfo.NrPageTableFrames + 1) * 4096 + 0x80000
        + 0x400000 ≤ 2 ^ 64
      ∧ init.bootstrapEnd loaderInfo = 0x400000
      ∧ (init bootIdEnv loaderInfo loaderWorld).mm.nextPFN
          = init.bootstrapEnd loaderInfo / 4096 + 1 :=
  ⟨by decide, by decide,
    (init_ranges_spec bootIdEnv loaderInfo loaderWorld (by decide)).2.2.2.2.2.2.1⟩

/-! ### The bootstrap sequencer -/

theorem writePte_status (env : Env) (w : World) (table offset value flags T : Nat)
    (hT : env.p2m table = T) (hT52 : T < 2 ^ 52) (ho : offset < 512)
    (h0 : env.mmu_update w.trace.length (T * 4096 + offset * 8) (entryOf value flags) = 0) :
    writePte env w table offset value flags
      = (entryOf value flags,
          { w with
            mem := setWord w.mem T offset (entryOf value flags)
            trace := w.trace ++
              [Event.mmu_update (T * 4096 + offset * 8) (entryOf value flags) 0] }) := by
  have hptr : ((T * 2 ^ 12) % 2 ^ 64 + (offset * 8) % 2 ^ 64) % 2 ^ 64
      = T * 4096 + offset * 8 := by omega
  have h1 : (T * 4096 + offset * 8) / 4096 = T := by omega
  have h2 : (T * 4096 + offset * 8) % 4096 / 8 = offset := by omega
  have h0' : env.mmu_update w.trace.length (T * 4096 + offset * 8)
      (setFlag (value * 2 ^ 12 % 2 ^ 64) flags) = 0 := h0
  simp only [writePte, HYPERVISOR_mmu_update, hT, xenPageFlagShift, hptr, h1, h2, entryOf, h0']
  simp

theorem l1Table_labelled (w : World) (lab : Nat → Option (Nat × Nat)) (va t1 : Nat)
    (hL : Labelled w lab) (hw : pageTableOffset va 3 ≠ 511) (h : l1Table w va = some t1) :
    lab t1 = some (0, (pageTableOffset va 3 * 512 + pageTableOffset va 2) * 512
      + pageTableOffset va 1) := by
  simp only [l1Table, pageTableLevel4, pageTableLevel3, pageTableLevel2] at h
  split at h
  · rename_i p4
    have l3 := hL.child _ 2 0 _ hL.root (pageTableOffset_lt va 3) (fun _ => hw) p4
    split at h
    · rename_i p3
      have l2 := hL.child _ 1 _ _ l3 (pageTableOffset_lt va 2) (by omega) p3
      split at h
      · rename_i p2
        have l1 := hL.child _ 0 _ _ l2 (pageTableOffset_lt va 1) (by omega) p2
        simp only [Option.some.injEq] at h
        rw [← h, l1]
        simp
      · simp at h
    · simp at h
  · simp at h

/-- An unmap request for an address outside the recursive window leaves every entry
of the intermediate tables as it was, and the tables stay a tree. -/
theorem update_va_mapping_labelled (env : BootEnv) (w : World)
    (lab : Nat → Option (Nat × Nat)) (va val flags : Nat)
    (hL : Labelled w lab) (hw : pageTableOffset va 3 ≠ 511) :
    Labelled (HYPERVISOR_update_va_mapping env w va val flags).2 lab
      ∧ ∀ T l π j, lab T = some (l + 1, π) →
          (HYPERVISOR_update_va_mapping env w va val flags).2.mem T j = w.mem T j := by
  have key : ∀ T l π j, lab T = some (l + 1, π) →
      (HYPERVISOR_update_va_mapping env w va val flags).2.mem T j = w.mem T j := by
    intro T l π j hT
    simp only [HYPERVISOR_update_va_mapping]
    split
    · cases h1 : l1Table w va with
      | none => rfl
      | some t1 =>
        have ht := l1Table_labelled w lab va t1 hL hw h1
        simp only []
        apply setWord_other
        intro hc
        rw [hc.1, ht] at hT
        simp at hT
    · rfl
  refine ⟨⟨hL.root, ?_⟩, key⟩
  intro T l π j hT hj h511 hp
  rw [key T l π j hT] at hp ⊢
  exact hL.child T l π j hT hj h511 hp

theorem unmapLowLoop_labelled (env : BootEnv) (lab : Nat → Option (Nat × Nat))
    (fuel : Nat) (w : World) (addr : Nat) (hL : Labelled w lab) :
    Labelled (unmapLowLoop env fuel w addr) lab
      ∧ ∀ T l π j, lab T = some (l + 1, π) →
          (unmapLowLoop env fuel w addr).mem T j = w.mem T j := by
  induction fuel generalizing w addr with
  | zero => exact ⟨hL, fun _ _ _ _ _ => rfl⟩
  | succ k ih =>
    simp only [unmapLowLoop]
    split
    · rename_i hlt
      have hw : pageTableOffset addr 3 ≠ 511 := by
        simp only [pageTableOffset]
        omega
      obtain ⟨h1, h2⟩ := update_va_mapping_labelled env w lab addr 0 2 hL hw
      obtain ⟨h3, h4⟩ := ih (HYPERVISOR_update_va_mapping env w addr 0 2).2
        (addr + _PAGESIZE) h1
      exact ⟨h3, fun T l π j hT => by rw [h4 T l π j hT, h2 T l π j hT]⟩
    · exact ⟨hL, fun _ _ _ _ _ => rfl⟩

theorem unmapFold_labelled (env : BootEnv) (lab : Nat → Option (Nat × Nat))
    (l : List Nat) (w : World) (hL : Labelled w lab)
    (hw : ∀ i ∈ l, pageTableOffset (pfn.vaddr (pfn.add w.mm.l4PFN i)) 3 ≠ 511) :
    Labelled (l.foldl (fun w i =>
        (HYPERVISOR_update_va_mapping env w (pfn.vaddr (pfn.add w.mm.l4PFN i)) 0 2).2) w) lab
      ∧ ∀ T l' π j, lab T = some (l' + 1, π) →
          (l.foldl (fun w i =>
            (HYPERVISOR_update_va_mapping env w (pfn.vaddr (pfn.add w.mm.l4PFN i)) 0 2).2)
            w).mem T j = w.mem T j := by
  induction l generalizing w with
  | nil => exact ⟨hL, fun _ _ _ _ _ => rfl⟩
  | cons i rest ih =>
    simp only [List.foldl_cons]
    obtain ⟨h1, h2⟩ := update_va_mapping_labelled env w lab
      (pfn.vaddr (pfn.add w.mm.l4PFN i)) 0 2 hL (hw i (List.mem_cons_self _ _))
    obtain ⟨h3, h4⟩ := ih
      (HYPERVISOR_update_va_mapping env w (pfn.vaddr (pfn.add w.mm.l4PFN i)) 0 2).2 h1
      (fun i' hi' => hw i' (List.mem_cons_of_mem _ hi'))
    exact ⟨h3, fun T l' π j hT => by rw [h4 T l' π j hT, h2 T l' π j hT]⟩

/-- What `init` leaves of the loader's tables when the loader's tables form a tree,
its page-table base is the table the hardware walks from, the hypervisor accepts the
update of the recursive slot and the loader's page-table frames are mapped outside
the recursive window: the tables still form a tree, slot 511 of the top-level table
holds the entry `mapL4` wrote, and every other entry of a table above the L1 level
is as the loader set it. -/
theorem init_tables (env : BootEnv) (si : xenStartInfo) (w : World)
    (lab : Nat → Option (Nat × Nat)) (hL : Labelled w lab)
    (hbase : env.p2m (vaddr.pfn si.PageTableBase) = w.cr3) (hcr3 : w.cr3 < 2 ^ 40)
    (hacc : env.mmu_update w.trace.length (w.cr3 * 4096 + 511 * 8)
      (entryOf w.cr3 PTE_PAGE_TABLE_FLAGS) = 0)
    (hpt : ∀ i, i < si.NrPageTableFrames →
      pageTableOffset (pfn.vaddr (pfn.add (vaddr.pfn si.PageTableBase) i)) 3 ≠ 511) :
    Labelled (init env si w) lab
      ∧ (init env si w).mem w.cr3 511 = entryOf w.cr3 PTE_PAGE_TABLE_FLAGS
      ∧ ∀ T l π j, lab T = some (l + 1, π) → ¬ (T = w.cr3 ∧ j = 511) →
          (init env si w).mem T j = w.mem T j := by
  have hwr := writePte_status env.toEnv (init.ranges si w) (vaddr.pfn si.PageTableBase) 511
    (env.p2m (vaddr.pfn si.PageTableBase)) PTE_PAGE_TABLE_FLAGS w.cr3 hbase (by omega)
    (by decide) (by rw [hbase]; exact hacc)
  rw [hbase] at hwr
  have hw2mem : ∀ w2 : World, w2.cr3 = w.cr3 →
      w2.mem = setWord w.mem w.cr3 511 (entryOf w.cr3 PTE_PAGE_TABLE_FLAGS) →
      Labelled w2 lab := by
    intro w2 hc hm
    refine ⟨by rw [hc]; exact hL.root, ?_⟩
    intro T l π j hT hj h511 hp
    have hne : ¬ (T = w.cr3 ∧ j = 511) := by
      intro hcj
      rw [hcj.1, hL.root] at hT
      simp only [Option.some.injEq, Prod.mk.injEq] at hT
      exact h511 (by omega) hcj.2
    rw [hm, setWord_other _ _ _ _ _ _ hne] at hp ⊢
    exact hL.child T l π j hT hj h511 hp
  unfold init
  simp only [mapL4, init.ranges] at hwr ⊢
  rw [hbase, hwr]
  simp only []
  set w2 : World :=
    { mm := { bootstrapStackPFN := init.bootstrapStackPFN si
              bootstrapEndPFN := vaddr.pfn (init.bootstrapEnd si)
              nextPFN := pfn.add (vaddr.pfn (init.bootstrapEnd si)) 1
              lastPFN := si.NrPages
              nextHeapPage := pfn.vaddr (pfn.add (vaddr.pfn (init.bootstrapEnd si)) 1)
              l4PFN := vaddr.pfn si.PageTableBase
              l4 := getPageTable (-1) (-1) (-1) }
      cr3 := w.cr3
      mem := setWord w.mem w.cr3 511 (entryOf w.cr3 PTE_PAGE_TABLE_FLAGS)
      trace := w.trace ++
        [Event.mmu_update (w.cr3 * 4096 + 511 * 8) (entryOf w.cr3 PTE_PAGE_TABLE_FLAGS) 0] }
    with hw2
  have hL2 : Labelled w2 lab := hw2mem w2 rfl rfl
  obtain ⟨hL3, hk3⟩ := unmapLowLoop_labelled env lab 65 w2 0 hL2
  have hmm3 := unmapLowLoop_mm env 65 w2 0
  unfold unmapBootstrapPageTables unmapLowAddresses
  obtain ⟨hL4, hk4⟩ := unmapFold_labelled env lab (List.range si.NrPageTableFrames)
    (unmapLowLoop env 65 w2 0) hL3 (by
      intro i hi
      rw [hmm3.1]
      exact hpt i (List.mem_range.mp hi))
  refine ⟨hL4, ?_, ?_⟩
  · rw [hk4 _ 2 0 511 hL.root, hk3 _ 2 0 511 hL.root]
    exact setWord_same _ _ _ _
  · intro T l π j hT hne
    rw [hk4 _ l π j hT, hk3 _ l π j hT]
    exact setWord_other _ _ _ _ _ _ hne

theorem loaderWorld_labelled : Labelled loaderWorld loaderLab := by
  refine ⟨by decide, ?_⟩
  intro T l π j hT hj h511 hp
  simp only [loaderLab] at hT
  split at hT
  · rename_i h
    subst h
    simp only [Option.some.injEq, Prod.mk.injEq] at hT
    obtain ⟨hl, hπ⟩ := hT
    have hl2 : l = 2 := by omega
    subst hl2
    subst hπ
    simp only [loaderWorld, if_true] at hp ⊢
    by_cases hj0 : j = 0
    · subst hj0
      decide
    · simp [hj0, hasFlag_zero] at hp
  · split at hT
    · rename_i h0 h
      subst h
      simp only [Option.some.injEq, Prod.mk.injEq] at hT
      obtain ⟨hl, hπ⟩ := hT
      have hl2 : l = 1 := by omega
      subst hl2
      subst hπ
      simp only [loaderWorld] at hp ⊢
      by_cases hj0 : j = 0
      · subst hj0
        decide
      · simp [hj0, hasFlag_zero] at hp
    · split at hT
      · rename_i h0 h1 h
        subst h
        simp only [Option.some.injEq, Prod.mk.injEq] at hT
        obtain ⟨hl, hπ⟩ := hT
        have hl2 : l = 0 := by omega
        subst hl2
        subst hπ
        simp only [loaderWorld] at hp ⊢
        by_cases hj0 : j = 0
        · subst hj0
          decide
        · simp [hj0, hasFlag_zero] at hp
      · split at hT
        · simp only [Option.some.injEq, Prod.mk.injEq] at hT
          omega
        · simp at hT

/-- C12 (amended): when the loader's tables form a tree, its page-table base is the
table the hardware walks from, the hypervisor accepts the update issued by `mapL4` and the
loader has mapped its page-table frames outside the recursive window, then after
`init` the entry in slot 511 of the top-level table is present and its frame is the
machine frame of the top-level table itself, which is the machine frame of the
loader's page-table base, and `mm.l4` is the view at `0xFFFFFFFFFFFFF000`, the
address whose four page-table indices are all 511. -/
theorem init_recursive_slot (env : BootEnv) (si : xenStartInfo) (w : World)
    (lab : Nat → Option (Nat × Nat)) (hL : Labelled w lab)
    (hbase : env.p2m (vaddr.pfn si.PageTableBase) = w.cr3) (hcr3 : w.cr3 < 2 ^ 40)
    (hacc : env.mmu_update w.trace.length (w.cr3 * 4096 + 511 * 8)
      (entryOf w.cr3 PTE_PAGE_TABLE_FLAGS) = 0)
    (hpt : ∀ i, i < si.NrPageTableFrames →
      pageTableOffset (pfn.vaddr (pfn.add (vaddr.pfn si.PageTableBase) i)) 3 ≠ 511) :
    hasFlag ((init env si w).mem (init env si w).cr3 511) xenPageTablePresent = true
      ∧ pageTableEntry.mfn ((init env si w).mem (init env si w).cr3 511) = (init env si w).cr3
      ∧ (init env si w).cr3 = env.p2m (init env si w).mm.l4PFN
      ∧ (init env si w).mm.l4PFN = vaddr.pfn si.PageTableBase
      ∧ (init env si w).mm.l4 = 0xFFFFFFFFFFFFF000
      ∧ pageTableOffset (init env si w).mm.l4 pageTableLevel4 = 511
      ∧ pageTableOffset (init env si w).mm.l4 pageTableLevel3 = 511
      ∧ pageTableOffset (init env si w).mm.l4 pageTableLevel2 = 511
      ∧ pageTableOffset (init env si w).mm.l4 pageTableLevel1 = 511 := by
  obtain ⟨-, h511, -⟩ := init_tables env si w lab hL hbase hcr3 hacc hpt
  obtain ⟨hmm, hc⟩ := init_mm env si w
  have hl4 : (init env si w).mm.l4 = 0xFFFFFFFFFFFFF000 := by
    rw [hmm]
    exact getPageTable_l4
  have hpfn : (init env si w).mm.l4PFN = vaddr.pfn si.PageTableBase := by
    rw [hmm]
    rfl
  rw [hc, h511, hl4, hpfn, hbase]
  refine ⟨?_, ?_, rfl, rfl, rfl, by decide, by decide, by decide, by decide⟩
  · rw [hasFlag_present]
    simp only [entryOf, setFlag, PTE_PAGE_TABLE_FLAGS, xenPageTablePresent, xenPageFlagShift]
    have h : (w.cr3 * 2 ^ 12 % 2 ^ 64 ||| 1) % 2 = 1 := by
      rw [Nat.or_mod_two_eq_one]
      right
      rfl
    exact h
  · rw [entryOf_mfn _ _ (by decide)]
    omega

theorem init_recursive_slot_witness :
    hasFlag ((init bootIdEnv loaderInfo loaderWorld).mem
        (init bootIdEnv loaderInfo loaderWorld).cr3 511) xenPageTablePresent = true
      ∧ pageTableEntry.mfn ((init bootIdEnv loaderInfo loaderWorld).mem
          (init bootIdEnv loaderInfo loaderWorld).cr3 511)
          = (init bootIdEnv loaderInfo loaderWorld).cr3 := by
  have h := init_recursive_slot bootIdEnv loaderInfo loaderWorld loaderLab
    loaderWorld_labelled (by decide) (by decide) (by decide) (by
      intro i hi
      have hi4 : i < 4 := hi
      simp only [pfn.vaddr, pfn.add, vaddr.pfn, loaderInfo, _PAGESIZE, pageTableOffset]
      omega)
  exact ⟨h.1, h.2.1⟩

/-! ### Low-address teardown -/

theorem ZeroedFrom.zrefl (w : World) : ZeroedFrom w w :=
  ⟨rfl, fun _ _ => Or.inl rfl⟩

theorem ZeroedFrom.ztrans {a b c : World} (h1 : ZeroedFrom a b) (h2 : ZeroedFrom b c) :
    ZeroedFrom a c := by
  refine ⟨h2.1.trans h1.1, fun fr i => ?_⟩
  rcases h2.2 fr i with h | h
  · rw [h]
    exact h1.2 fr i
  · exact Or.inr h

theorem ZeroedFrom.present {w w' : World} (h : ZeroedFrom w w') (fr i : Nat)
    (hp : hasFlag (w'.mem fr i) xenPageTablePresent = true) : w'.mem fr i = w.mem fr i := by
  rcases h.2 fr i with h1 | h1
  · exact h1
  · rw [h1, hasFlag_zero] at hp
    exact absurd hp (by decide)

/-- An address that is mapped after entries have only been lost was mapped before, by
the same entries. -/
theorem ZeroedFrom.translate_some {w w' : World} (h : ZeroedFrom w w') (va g : Nat)
    (ht : translate w' va = some g) :
    translate w va = some g ∧ l1Table w va = l1Table w' va
      ∧ ∃ t1, l1Table w' va = some t1
          ∧ hasFlag (w'.mem t1 (pageTableOffset va pageTableLevel1)) xenPageTablePresent = true := by
  simp only [translate, l1Table] at ht ⊢
  rw [h.1] at ht ⊢
  split at ht
  · rename_i p4
    have e4 := h.present _ _ p4
    rw [e4] at p4 ht ⊢
    split at ht
    · rename_i p3
      have e3 := h.present _ _ p3
      rw [e3] at p3 ht ⊢
      split at ht
      · rename_i p2
        have e2 := h.present _ _ p2
        rw [e2] at p2 ht ⊢
        split at ht
        · rename_i p1
          have e1 := h.present _ _ p1
          simp only [p4, p3, p2, if_true]
          rw [← e1]
          simp only [p1, if_true]
          exact ⟨ht, trivial, _, rfl, p1⟩
        · simp at ht
      · simp at ht
    · simp at ht
  · simp at ht

theorem ZeroedFrom.translate_none {w w' : World} (h : ZeroedFrom w w') (va : Nat)
    (ht : translate w va = none) : translate w' va = none := by
  cases h' : translate w' va with
  | none => rfl
  | some g =>
    rw [(h.translate_some va g h').1] at ht
    simp at ht

theorem update_va_mapping_zeroed (env : BootEnv) (w : World) (va flags : Nat) :
    ZeroedFrom w (HYPERVISOR_update_va_mapping env w va 0 flags).2 := by
  refine ⟨rfl, fun fr i => ?_⟩
  simp only [HYPERVISOR_update_va_mapping]
  split
  · cases l1Table w va with
    | none => exact Or.inl rfl
    | some t1 =>
      simp only [setWord]
      split
      · exact Or.inr rfl
      · exact Or.inl rfl
  · exact Or.inl rfl

/-- An accepted unmap request leaves its address unmapped. -/
theorem update_va_mapping_unmaps (env : BootEnv) (w : World) (va flags : Nat)
    (hacc : env.update_va_mapping w.trace.length va 0 flags = 0) :
    translate (HYPERVISOR_update_va_mapping env w va 0 flags).2 va = none := by
  cases h' : translate (HYPERVISOR_update_va_mapping env w va 0 flags).2 va with
  | none => rfl
  | some g =>
    exfalso
    obtain ⟨-, hl, t1, ht1, hp⟩ := (update_va_mapping_zeroed env w va flags).translate_some va g h'
    rw [← hl] at ht1
    simp only [HYPERVISOR_update_va_mapping, hacc, if_true, ht1, setWord_same] at hp
    rw [hasFlag_zero] at hp
    exact absurd hp (by decide)

theorem unmapLowLoop_zeroed (env : BootEnv) (fuel : Nat) (w : World) (addr : Nat) :
    ZeroedFrom w (unmapLowLoop env fuel w addr) := by
  induction fuel generalizing w addr with
  | zero => exact ZeroedFrom.zrefl w
  | succ k ih =>
    simp only [unmapLowLoop]
    split
    · exact (update_va_mapping_zeroed env w addr 2).ztrans (ih _ _)
    · exact ZeroedFrom.zrefl w

theorem unmapFold_zeroed (env : BootEnv) (l : List Nat) (w : World) :
    ZeroedFrom w (l.foldl (fun w i =>
      (HYPERVISOR_update_va_mapping env w (pfn.vaddr (pfn.add w.mm.l4PFN i)) 0 2).2) w) := by
  induction l generalizing w with
  | nil => exact ZeroedFrom.zrefl w
  | cons i rest ih =>
    simp only [List.foldl_cons]
    exact (update_va_mapping_zeroed env w _ 2).ztrans (ih _)

/-- The loop of `unmapLowAddresses`, when every request is accepted and the budget
reaches the threshold, leaves every page address from `addr` up to the threshold
unmapped. -/
theorem unmapLowLoop_unmaps (env : BootEnv)
    (hacc : ∀ n va val flags, env.update_va_mapping n va val flags = 0)
    (fuel : Nat) (w : World) (addr : Nat) (ha : addr % 4096 = 0)
    (hf : 0x40000 ≤ addr + fuel * 4096) :
    ∀ a, a % 4096 = 0 → addr ≤ a → a < 0x40000 →
      translate (unmapLowLoop env fuel w addr) a = none := by
  induction fuel generalizing w addr with
  | zero => intro a _ h1 h2; omega
  | succ k ih =>
    intro a ha0 h1 h2
    have hlt : addr < 0x40000 := by omega
    simp only [unmapLowLoop, hlt, if_true]
    by_cases hEq : a = addr
    · subst hEq
      exact (unmapLowLoop_zeroed env k _ _).translate_none a
        (update_va_mapping_unmaps env w a 2 (hacc _ _ _ _))
    · exact ih _ (addr + _PAGESIZE) (by simp only [_PAGESIZE]; omega)
        (by simp only [_PAGESIZE]; omega) a ha0 (by simp only [_PAGESIZE]; omega) h2

/-- The loop of `unmapLowAddresses` ends by its condition: once the budget reaches the
threshold, a larger budget gives the same state, so the budget of 65 in
`unmapLowAddresses` is never used up. -/
theorem unmapLowLoop_budget (env : BootEnv) (fuel extra : Nat) (w : World) (addr : Nat)
    (hf : 0x40000 ≤ addr + fuel * 4096) :
    unmapLowLoop env (fuel + extra) w addr = unmapLowLoop env fuel w addr := by
  induction fuel generalizing w addr with
  | zero =>
    have hn : ¬ addr < 0x40000 := by omega
    cases extra with
    | zero => rfl
    | succ k => simp [unmapLowLoop, hn]
  | succ k ih =>
    have e : k + 1 + extra = (k + extra) + 1 := by omega
    rw [e]
    simp only [unmapLowLoop]
    split
    · exact ih _ _ (by simp only [_PAGESIZE]; omega)
    · rfl

theorem pageTableOffset_page (va l : Nat) (hl : l ≤ 3) :
    pageTableOffset (va / 4096 * 4096) l = pageTableOffset va l := by
  have h : l = 0 ∨ l = 1 ∨ l = 2 ∨ l = 3 := by omega
  rcases h with h | h | h | h <;> subst h <;> simp only [pageTableOffset] <;> omega

theorem translate_page (w : World) (va : Nat) :
    translate w (va / 4096 * 4096) = translate w va := by
  simp only [translate, pageTableLevel4, pageTableLevel3, pageTableLevel2, pageTableLevel1,
    pageTableOffset_page _ _ (le_refl 3), pageTableOffset_page _ 2 (by omega),
    pageTableOffset_page _ 1 (by omega), pageTableOffset_page _ 0 (by omega)]

/-- After `init`, when every unmap request is accepted, no address below `0x40000` is
mapped. -/
theorem init_low_unmapped (env : BootEnv) (si : xenStartInfo) (w : World)
    (hacc : ∀ n va val flags, env.update_va_mapping n va val flags = 0)
    (va : Nat) (hva : va < 0x40000) : translate (init env si w) va = none := by
  rw [← translate_page]
  unfold init unmapBootstrapPageTables unmapLowAddresses
  apply (unmapFold_zeroed env _ _).translate_none
  exact unmapLowLoop_unmaps env hacc 65 _ 0 (by decide) (by decide) _ (by omega) (by omega)
    (by omega)

/-- With the recursive slot installed, `pageTableWalk` reads the entries of the walk
from the top-level table. -/
theorem pageTableWalk_eq (w : World) (va : Nat) (hr : Recursive w)
    (hl4 : w.mm.l4 = getPageTable (-1) (-1) (-1)) :
    pageTableWalk w va = some (walkEntries w va) := by
  have ho3 : pageTableOffset va 3 < 512 := pageTableOffset_lt _ _
  have ho2 : pageTableOffset va 2 < 512 := pageTableOffset_lt _ _
  have ho1 : pageTableOffset va 1 < 512 := pageTableOffset_lt _ _
  have ho0 : pageTableOffset va 0 < 512 := pageTableOffset_lt _ _
  have g4 := Get_l4 w hr _ ho3
  simp only [pageTableWalk, walkEntries, pageTableLevel4, pageTableLevel3, pageTableLevel2,
    pageTableLevel1, hl4, g4]
  by_cases p4 : hasFlag (w.mem w.cr3 (pageTableOffset va 3)) xenPageTablePresent = true
  · have g3 := Get_l3 w hr _ _ ho3 ho2 p4
    simp only [p4, g3, Bool.not_true, Bool.false_eq_true, if_false]
    by_cases p3 : hasFlag (w.mem (pageTableEntry.mfn (w.mem w.cr3 (pageTableOffset va 3)))
        (pageTableOffset va 2)) xenPageTablePresent = true
    · have g2 := Get_l2 w hr _ _ _ ho3 ho2 ho1 p4 p3
      simp only [p3, g2, Bool.not_true, Bool.false_eq_true, if_false]
      by_cases p2 : hasFlag (w.mem (pageTableEntry.mfn (w.mem (pageTableEntry.mfn
          (w.mem w.cr3 (pageTableOffset va 3))) (pageTableOffset va 2)))
          (pageTableOffset va 1)) xenPageTablePresent = true
      · have g1 := Get_l1 w hr _ _ _ _ ho3 ho2 ho1 ho0 p4 p3 p2
        simp only [p2, g1, Bool.not_true, Bool.false_eq_true, if_false]
      · simp [p2]
    · simp [p3]
  · simp [p4]

/-- The walk of an unmapped address ends with an entry that is not present. -/
theorem walkEntries_unmapped (w : World) (va : Nat) (h : translate w va = none) :
    ∃ e, (walkEntries w va).getLast? = some e ∧ hasFlag e xenPageTablePresent = false := by
  simp only [translate, pageTableLevel4, pageTableLevel3, pageTableLevel2, pageTableLevel1] at h
  simp only [walkEntries]
  by_cases p4 : hasFlag (w.mem w.cr3 (pageTableOffset va 3)) xenPageTablePresent = true
  · simp only [p4, if_true, Bool.not_true, Bool.false_eq_true, if_false] at h ⊢
    by_cases p3 : hasFlag (w.mem (pageTableEntry.mfn (w.mem w.cr3 (pageTableOffset va 3)))
        (pageTableOffset va 2)) xenPageTablePresent = true
    · simp only [p3, if_true, Bool.not_true, Bool.false_eq_true, if_false] at h ⊢
      by_cases p2 : hasFlag (w.mem (pageTableEntry.mfn (w.mem (pageTableEntry.mfn
          (w.mem w.cr3 (pageTableOffset va 3))) (pageTableOffset va 2)))
          (pageTableOffset va 1)) xenPageTablePresent = true
      · simp only [p2, if_true, Bool.not_true, Bool.false_eq_true, if_false] at h ⊢
        by_cases p1 : hasFlag (w.mem (pageTableEntry.mfn (w.mem (pageTableEntry.mfn
            (w.mem (pageTableEntry.mfn (w.mem w.cr3 (pageTableOffset va 3)))
            (pageTableOffset va 2))) (pageTableOffset va 1))) (pageTableOffset va 0))
            xenPageTablePresent = true
        · simp [p1] at h
        · exact ⟨_, rfl, by simpa using p1⟩
      · have p2' := Bool.eq_false_iff.mpr p2
        simp only [p2', Bool.not_false, if_true]
        exact ⟨_, rfl, p2'⟩
    · have p3' := Bool.eq_false_iff.mpr p3
      simp only [p3', Bool.not_false, if_true]
      exact ⟨_, rfl, p3'⟩
  · have p4' := Bool.eq_false_iff.mpr p4
    simp only [p4', Bool.not_false, if_true]
    exact ⟨_, rfl, p4'⟩

theorem walkEntries_head (w : World) (va : Nat) :
    (walkEntries w va).head? = some (w.mem w.cr3 (pageTableOffset va 3)) := by
  simp only [walkEntries]
  split
  · rfl
  · split
    · rfl
    · split <;> rfl

theorem walkEntries_length (w : World) (va t1 : Nat) (h : l1Table w va = some t1) :
    (walkEntries w va).length = 4 := by
  simp only [l1Table, pageTableLevel4, pageTableLevel3, pageTableLevel2] at h
  simp only [walkEntries]
  split at h
  · rename_i p4
    split at h
    · rename_i p3
      split at h
      · rename_i p2
        simp [p4, p3, p2]
      · simp at h
    · simp at h
  · simp at h

/-- The L1 table of an address outside the recursive window is found through the same
entries in two states that agree on the entries of the labelled tables above the L1
level. -/
theorem l1Table_kept (w w' : World) (lab : Nat → Option (Nat × Nat)) (va : Nat)
    (hL : Labelled w lab) (hw : pageTableOffset va 3 ≠ 511) (hc : w'.cr3 = w.cr3)
    (hk : ∀ T l π j, lab T = some (l + 1, π) → ¬ (T = w.cr3 ∧ j = 511) →
      w'.mem T j = w.mem T j) :
    l1Table w' va = l1Table w va := by
  have h4 : w'.mem w.cr3 (pageTableOffset va 3) = w.mem w.cr3 (pageTableOffset va 3) :=
    hk _ 2 0 _ hL.root (fun h => hw h.2)
  simp only [l1Table, pageTableLevel4, pageTableLevel3, pageTableLevel2, hc, h4]
  by_cases p4 : hasFlag (w.mem w.cr3 (pageTableOffset va 3)) xenPageTablePresent = true
  · have l3 := hL.child _ 2 0 _ hL.root (pageTableOffset_lt va 3) (fun _ => hw) p4
    have n3 : pageTableEntry.mfn (w.mem w.cr3 (pageTableOffset va 3)) ≠ w.cr3 := by
      intro h
      rw [h, hL.root] at l3
      simp at l3
    have h3 := hk _ 1 _ (pageTableOffset va 2) l3 (fun h => n3 h.1)
    simp only [p4, if_true, h3]
    by_cases p3 : hasFlag (w.mem (pageTableEntry.mfn (w.mem w.cr3 (pageTableOffset va 3)))
        (pageTableOffset va 2)) xenPageTablePresent = true
    · have l2 := hL.child _ 1 _ _ l3 (pageTableOffset_lt va 2) (by omega) p3
      have n2 : pageTableEntry.mfn (w.mem (pageTableEntry.mfn
          (w.mem w.cr3 (pageTableOffset va 3))) (pageTableOffset va 2)) ≠ w.cr3 := by
        intro h
        rw [h, hL.root] at l2
        simp at l2
      have h2 := hk _ 0 _ (pageTableOffset va 1) l2 (fun h => n2 h.1)
      simp only [p3, if_true, h2]
    · simp [p3]
  · simp [p4]

set_option maxRecDepth 8192

/-- C17 (as stated, refuted): in `loaderWorld` the address `0x1000` is mapped; after
`init`, with every request accepted, the walk for `0x1000` reads present L4, L3 and
L2 entries and ends at the L1 entry, which is 0: the address is unmapped at the
leaf, and the L4 entry selected by it still has the present flag. -/
theorem init_keeps_low_l4_entry :
    translate loaderWorld 0x1000 = some 1
      ∧ pageTableWalk (init bootIdEnv loaderInfo loaderWorld) 0x1000
          = some [257 * 4096 + 3, 258 * 4096 + 3, 259 * 4096 + 3, 0]
      ∧ (init bootIdEnv loaderInfo loaderWorld).mem (init bootIdEnv loaderInfo loaderWorld).cr3
          (pageTableOffset 0x1000 pageTableLevel4) = 257 * 4096 + 3
      ∧ hasFlag (257 * 4096 + 3) xenPageTablePresent = true := by
  decide

/-- C17 (amended): when the loader's tables form a tree, its page-table base is the
table the hardware walks from, the loader's page-table frames are mapped outside the
recursive window and the hypervisor accepts every request of `init`, then after
`init` no address below `0x40000` is mapped: the walk of `pageTableWalk` for such an
address ends with an entry that is not present. The L4 entry the walk starts with is
the one the loader set, not a cleared one; where the loader had set up the tables
of the address down to the L1 table, the walk reads four entries and it is the L1
entry that is not present. -/
theorem init_unmaps_low_addresses_at_leaf (env : BootEnv) (si : xenStartInfo) (w : World)
    (lab : Nat → Option (Nat × Nat)) (hL : Labelled w lab)
    (hbase : env.p2m (vaddr.pfn si.PageTableBase) = w.cr3) (hcr3 : w.cr3 < 2 ^ 40)
    (hacc : env.mmu_update w.trace.length (w.cr3 * 4096 + 511 * 8)
      (entryOf w.cr3 PTE_PAGE_TABLE_FLAGS) = 0)
    (hpt : ∀ i, i < si.NrPageTableFrames →
      pageTableOffset (pfn.vaddr (pfn.add (vaddr.pfn si.PageTableBase) i)) 3 ≠ 511)
    (hun : ∀ n va val flags, env.update_va_mapping n va val flags = 0)
    (va : Nat) (hva : va < 0x40000) :
    translate (init env si w) va = none
      ∧ pageTableWalk (init env si w) va = some (walkEntries (init env si w) va)
      ∧ (∃ e, (walkEntries (init env si w) va).getLast? = some e
          ∧ hasFlag e xenPageTablePresent = false)
      ∧ (walkEntries (init env si w) va).head? = some (w.mem w.cr3 0)
      ∧ (∀ t1, l1Table w va = some t1 → (walkEntries (init env si w) va).length = 4) := by
  obtain ⟨hL', h511, hk⟩ := init_tables env si w lab hL hbase hcr3 hacc hpt
  obtain ⟨hmm, hc⟩ := init_mm env si w
  have ho3 : pageTableOffset va 3 = 0 := by
    simp only [pageTableOffset]
    omega
  have hr : Recursive (init env si w) := by
    unfold Recursive
    rw [hc, h511]
    constructor
    · rw [hasFlag_present]
      simp only [entryOf, setFlag, PTE_PAGE_TABLE_FLAGS, xenPageTablePresent, xenPageFlagShift]
      have h : (w.cr3 * 2 ^ 12 % 2 ^ 64 ||| 1) % 2 = 1 := by
        rw [Nat.or_mod_two_eq_one]
        right
        rfl
      exact h
    · rw [entryOf_mfn _ _ (by decide)]
      omega
  have hun0 := init_low_unmapped env si w hun va hva
  refine ⟨hun0, pageTableWalk_eq _ va hr (by rw [hmm]), walkEntries_unmapped _ va hun0, ?_, ?_⟩
  · rw [walkEntries_head, hc, ho3]
    exact congrArg some (hk _ 2 0 0 hL.root (by omega))
  · intro t1 ht1
    have hl := l1Table_kept w (init env si w) lab va hL (by omega) hc hk
    rw [← hl] at ht1
    exact walkEntries_length _ _ _ ht1

theorem init_unmaps_low_addresses_at_leaf_witness :
    translate (init bootIdEnv loaderInfo loaderWorld) 0x3F008 = none
      ∧ (walkEntries (init bootIdEnv loaderInfo loaderWorld) 0x3F008).length = 4 := by
  have h := init_unmaps_low_addresses_at_leaf bootIdEnv loaderInfo loaderWorld loaderLab
    loaderWorld_labelled (by decide) (by decide) (by decide) (by
      intro i hi
      have hi4 : i < 4 := hi
      simp only [pfn.vaddr, pfn.add, vaddr.pfn, loaderInfo, _PAGESIZE, pageTableOffset]
      omega) (fun _ _ _ _ => rfl) 0x3F008 (by decide)
  exact ⟨h.1, h.2.2.2.2 259 (by decide)⟩

/-! ### The cursors of the manager -/

theorem FramesOnly.frefl (w : World) : FramesOnly w w :=
  ⟨rfl, fun h _ => ⟨le_refl _, h⟩⟩

theorem FramesOnly.of_mm {w w' : World} (h : w'.mm = w.mm) : FramesOnly w w' := by
  refine ⟨by rw [h], fun h1 _ => ?_⟩
  rw [h]
  exact ⟨le_refl _, h1⟩

theorem FramesOnly.ftrans {a b c : World} (h1 : FramesOnly a b) (h2 : FramesOnly b c) :
    FramesOnly a c := by
  have hl : b.mm.lastPFN = a.mm.lastPFN := mm_last _ _ _ h1.1
  refine ⟨mm_trans _ _ _ _ _ h2.1 h1.1, fun h3 h4 => ?_⟩
  obtain ⟨h5, h6⟩ := h1.2 h3 h4
  obtain ⟨h7, h8⟩ := h2.2 (by rw [hl]; exact h6) (by rw [hl]; exact h4)
  rw [hl] at h8
  exact ⟨le_trans h5 h7, h8⟩

theorem reservePFN_framesOnly (w : World) : FramesOnly w (reservePFN w).2 := by
  by_cases h : w.mm.nextPFN = w.mm.lastPFN
  · rw [reservePFN_fst_of_eq w h]
    exact FramesOnly.frefl w
  · rw [reservePFN_of_ne w h]
    refine ⟨rfl, fun h1 h2 => ?_⟩
    show w.mm.nextPFN ≤ (w.mm.nextPFN + 1) % 2 ^ 64 ∧ (w.mm.nextPFN + 1) % 2 ^ 64 ≤ w.mm.lastPFN
    omega

theorem physAllocPage_framesOnly (env : Env) (w : World) :
    FramesOnly w (physAllocPage env w).2 := by
  have h := reservePFN_framesOnly w
  by_cases he : w.mm.nextPFN = w.mm.lastPFN
  · rw [physAllocPage_exhausted env w he]
    exact FramesOnly.frefl w
  · rw [reservePFN_of_ne w he] at h
    have hm : (physAllocPage env w).2.mm
        = { w.mm with nextPFN := (w.mm.nextPFN + 1) % 2 ^ 64 } := by
      by_cases hr : env.mmuext_op w.trace.length [(16, env.p2m w.mm.nextPFN)] = 0
      · simp [physAllocPage, reservePFN_of_ne w he, clearPage, mmuExtOp, HYPERVISOR_mmuext_op,
          hr]
      · simp [physAllocPage, reservePFN_of_ne w he, clearPage, mmuExtOp, HYPERVISOR_mmuext_op,
          hr]
    exact h.ftrans (FramesOnly.of_mm hm)

theorem installTable_framesOnly (env : Env) (w : World) (pte table offset : Nat)
    (r : Option Nat) (w1 : World)
    (h : mapPage.installTable env w pte table offset = (r, w1)) : FramesOnly w w1 := by
  unfold mapPage.installTable at h
  by_cases hp : hasFlag pte xenPageTablePresent = true
  · simp only [hp, Bool.not_true, Bool.false_eq_true, if_false, Prod.mk.injEq] at h
    rw [← h.2]
    exact FramesOnly.frefl w
  · have hp' : hasFlag pte xenPageTablePresent = false := by simpa using hp
    have hf := physAllocPage_framesOnly env w
    simp only [hp', Bool.not_false, if_true] at h
    cases hph : physAllocPage env w with
    | mk r0 w0 =>
      obtain ⟨pfn, ok⟩ := r0
      rw [hph] at hf h
      cases ok with
      | false =>
        simp only [Bool.not_false, if_true, Prod.mk.injEq] at h
        rw [← h.2]
        exact hf
      | true =>
        simp only [Bool.not_true, Bool.false_eq_true, if_false, Prod.mk.injEq] at h
        rw [← h.2]
        exact hf.ftrans (FramesOnly.of_mm (writePte_mm _ _ _ _ _ _))

/-- The function `mapPage` changes no field of the manager but `nextPFN`, which it
moves towards `lastPFN`. -/
theorem mapPage_framesOnly (env : Env) (w : World) (v f : Nat) (b : Bool) (w' : World)
    (h : mapPage env w v f = some (b, w')) : FramesOnly w w' := by
  simp only [mapPage] at h
  split at h
  · simp at h
  · split at h
    · rename_i h1
      simp only [Option.some.injEq, Prod.mk.injEq] at h
      rw [← h.2]
      exact installTable_framesOnly _ _ _ _ _ _ _ h1
    · rename_i h1
      have m1 := installTable_framesOnly _ _ _ _ _ _ _ h1
      split at h
      · simp at h
      · split at h
        · rename_i h2
          simp only [Option.some.injEq, Prod.mk.injEq] at h
          rw [← h.2]
          exact m1.ftrans (installTable_framesOnly _ _ _ _ _ _ _ h2)
        · rename_i h2
          have m2 := installTable_framesOnly _ _ _ _ _ _ _ h2
          split at h
          · simp at h
          · split at h
            · rename_i h3
              simp only [Option.some.injEq, Prod.mk.injEq] at h
              rw [← h.2]
              exact (m1.ftrans m2).ftrans (installTable_framesOnly _ _ _ _ _ _ _ h3)
            · rename_i h3
              have m3 := installTable_framesOnly _ _ _ _ _ _ _ h3
              split at h
              · simp at h
              · rename_i h4
                simp only [Option.some.injEq, Prod.mk.injEq] at h
                have m4 := storeZero_mm _ _ _ h4
                rw [← h.2]
                exact ((m1.ftrans m2).ftrans m3).ftrans
                  ((FramesOnly.of_mm (writePte_mm _ _ _ _ _ _)).ftrans (FramesOnly.of_mm m4))

theorem allocPage_framesOnly (env : Env) (w : World) (page : Nat) (b : Bool) (w' : World)
    (h : allocPage env w page = some (b, w')) : FramesOnly w w' := by
  unfold allocPage at h
  have m := physAllocPage_framesOnly env w
  cases hph : physAllocPage env w with
  | mk r w1 =>
    obtain ⟨pfn, ok⟩ := r
    rw [hph] at m h
    cases ok with
    | false =>
      simp only [Bool.not_false, if_true, Option.some.injEq, Prod.mk.injEq] at h
      rw [← h.2]
      exact m
    | true =>
      simp only [Bool.not_true, Bool.false_eq_true, if_false] at h
      exact m.ftrans (mapPage_framesOnly _ _ _ _ _ _ h)

theorem allocPagesLoop_framesOnly (env : Env) (v stop : Nat) (fuel : Nat) (w : World)
    (page p : Nat) (w' : World)
    (h : allocPagesLoop env v stop fuel w page = Outcome.returned p w') : FramesOnly w w' := by
  induction fuel generalizing w page with
  | zero =>
    simp only [allocPagesLoop] at h
    split at h
    · simp at h
    · simp only [Outcome.returned.injEq] at h
      rw [← h.2]
      exact FramesOnly.frefl w
  | succ k ih =>
    simp only [allocPagesLoop] at h
    split at h
    · cases hc : allocPage env w page with
      | none => simp [hc] at h
      | some r =>
        obtain ⟨b1, w1⟩ := r
        have m1 := allocPage_framesOnly _ _ _ _ _ hc
        rw [hc] at h
        cases b1 with
        | false =>
          simp only [Outcome.returned.injEq] at h
          rw [← h.2]
          exact m1
        | true =>
          simp only [] at h
          exact m1.ftrans (ih _ _ h)
    · simp only [Outcome.returned.injEq] at h
      rw [← h.2]
      exact FramesOnly.frefl w

theorem mapFramesLoop_framesOnly (env : Env) (frames : List Nat) (w : World) (addr : Nat)
    (oks : List Bool) (w' : World)
    (h : mapFramesLoop env frames w addr = some (oks, w')) : FramesOnly w w' := by
  induction frames generalizing w addr oks w' with
  | nil =>
    simp only [mapFramesLoop, Option.some.injEq, Prod.mk.injEq] at h
    rw [← h.2]
    exact FramesOnly.frefl w
  | cons f rest ih =>
    unfold mapFramesLoop at h
    split at h
    · simp at h
    · rename_i ok w1 hc
      have m1 := mapPage_framesOnly _ _ _ _ _ _ hc
      split at h
      · simp at h
      · rename_i oks2 w2 hl
        simp only [Option.some.injEq, Prod.mk.injEq] at h
        rw [← h.2]
        exact m1.ftrans (ih _ _ _ _ hl)

/-- What one operation does to the cursors: `lastPFN` is kept, `nextPFN` moves towards
`lastPFN` when the two are ordered 64-bit words, and the heap cursor moves on by
the pages the operation reserves, in 64-bit arithmetic. -/
theorem run_cursors (env : Env) (w : World) (op : Op) (w' : World)
    (h : Op.run env w op = some w') :
    w'.mm.lastPFN = w.mm.lastPFN
      ∧ (w.mm.nextPFN ≤ w.mm.lastPFN → w.mm.lastPFN < 2 ^ 64 →
          w.mm.nextPFN ≤ w'.mm.nextPFN ∧ w'.mm.nextPFN ≤ w.mm.lastPFN)
      ∧ (w.mm.nextHeapPage < 2 ^ 64 →
          w'.mm.nextHeapPage = (w.mm.nextHeapPage + op.reserved * 4096) % 2 ^ 64) := by
  have key : ∀ w1 : World, FramesOnly w1 w' → w1.mm.lastPFN = w.mm.lastPFN →
      w1.mm.nextPFN = w.mm.nextPFN →
      w1.mm.nextHeapPage = (w.mm.nextHeapPage + op.reserved * 4096) % 2 ^ 64 →
      w'.mm.lastPFN = w.mm.lastPFN
      ∧ (w.mm.nextPFN ≤ w.mm.lastPFN → w.mm.lastPFN < 2 ^ 64 →
          w.mm.nextPFN ≤ w'.mm.nextPFN ∧ w'.mm.nextPFN ≤ w.mm.lastPFN)
      ∧ (w.mm.nextHeapPage < 2 ^ 64 →
          w'.mm.nextHeapPage = (w.mm.nextHeapPage + op.reserved * 4096) % 2 ^ 64) := by
    intro w1 hf h1 h2 h3
    have hl := mm_last _ _ _ hf.1
    have hh : w'.mm.nextHeapPage = w1.mm.nextHeapPage := by rw [hf.1]
    refine ⟨by rw [hl, h1], fun h4 h5 => ?_, fun _ => by rw [hh, h3]⟩
    have := hf.2 (by rw [h1, h2]; exact h4) (by rw [h1]; exact h5)
    rw [h1, h2] at this
    exact this
  have key0 : FramesOnly w w' → Op.reserved op = 0 →
      w'.mm.lastPFN = w.mm.lastPFN
      ∧ (w.mm.nextPFN ≤ w.mm.lastPFN → w.mm.lastPFN < 2 ^ 64 →
          w.mm.nextPFN ≤ w'.mm.nextPFN ∧ w'.mm.nextPFN ≤ w.mm.lastPFN)
      ∧ (w.mm.nextHeapPage < 2 ^ 64 →
          w'.mm.nextHeapPage = (w.mm.nextHeapPage + op.reserved * 4096) % 2 ^ 64) := by
    intro hf h0
    have hl := mm_last _ _ _ hf.1
    have hh : w'.mm.nextHeapPage = w.mm.nextHeapPage := by rw [hf.1]
    refine ⟨hl, hf.2, fun hb => ?_⟩
    rw [hh, h0]
    omega
  cases op with
  | reservePFN =>
    simp only [Op.run, Option.some.injEq] at h
    exact key0 (by rw [← h]; exact reservePFN_framesOnly w) rfl
  | physAllocPage =>
    simp only [Op.run, Option.some.injEq] at h
    exact key0 (by rw [← h]; exact physAllocPage_framesOnly env w) rfl
  | reserveHeapPages n =>
    simp only [Op.run, Option.some.injEq] at h
    exact key (reserveHeapPages w n).2 (by rw [h]; exact FramesOnly.frefl w') rfl rfl
      (reserveHeapPages_cursor w n)
  | mapPage v f =>
    simp only [Op.run, Option.map_eq_some', Prod.exists, exists_eq_right] at h
    obtain ⟨b, hb⟩ := h
    exact key0 (mapPage_framesOnly _ _ _ _ _ _ hb) rfl
  | allocPage v =>
    simp only [Op.run, Option.map_eq_some', Prod.exists, exists_eq_right] at h
    obtain ⟨b, hb⟩ := h
    exact key0 (allocPage_framesOnly _ _ _ _ _ hb) rfl
  | allocPages v n =>
    simp only [Op.run, Option.map_eq_some', Prod.exists, exists_eq_right] at h
    obtain ⟨p, hp⟩ := h
    have hr : allocPages env w v n = Outcome.returned p w' := by
      cases ho : allocPages env w v n with
      | returned p1 w1 =>
        rw [ho] at hp
        simp only [Outcome.result, Option.some.injEq, Prod.mk.injEq] at hp
        rw [hp.1, hp.2]
      | fault => rw [ho] at hp; simp [Outcome.result] at hp
      | outOfFuel => rw [ho] at hp; simp [Outcome.result] at hp
    unfold allocPages at hr
    by_cases hv : v = 0
    · subst hv
      simp only [if_true] at hr
      have hf := allocPagesLoop_framesOnly _ _ _ _ _ _ _ _ hr
      have hres : (Op.allocPages 0 n).reserved = n := by simp [Op.reserved]
      rw [hres] at key ⊢
      exact key (reserveHeapPages w n).2 hf rfl rfl (reserveHeapPages_cursor w n)
    · simp only [hv, if_false] at hr
      have hf := allocPagesLoop_framesOnly _ _ _ _ _ _ _ _ hr
      exact key0 hf (by simp [Op.reserved, hv])
  | mapFrames frames =>
    simp only [Op.run, Option.map_eq_some', Prod.exists, exists_eq_right] at h
    obtain ⟨p, hp⟩ := h
    unfold mapFrames at hp
    cases hl : mapFramesLoop env frames (reserveHeapPages w frames.length).2
        (reserveHeapPages w frames.length).1 with
    | none => simp [hl] at hp
    | some r =>
      obtain ⟨oks, w2⟩ := r
      simp only [hl, Option.some.injEq, Prod.mk.injEq] at hp
      have hf := mapFramesLoop_framesOnly _ _ _ _ _ _ hl
      rw [hp.2] at hf
      exact key (reserveHeapPages w frames.length).2 hf rfl rfl
        (reserveHeapPages_cursor w frames.length)

/-- C16 (as stated, refuted): for the descriptor `tinyInfo` of a guest of 1024 frames,
`init` leaves `nextPFN = 1025` above `lastPFN = 1024`, and `reservePFN` then issues
frame 1025; and in that state `reserveHeapPages(2^52 - 1)` moves the heap cursor from
`0x401000` down to `0x400000`. -/
theorem init_leaves_nextPFN_above_lastPFN :
    (init bootIdEnv tinyInfo loaderWorld).mm.nextPFN = 1025
      ∧ (init bootIdEnv tinyInfo loaderWorld).mm.lastPFN = 1024
      ∧ ¬ ((init bootIdEnv tinyInfo loaderWorld).mm.nextPFN
            ≤ (init bootIdEnv tinyInfo loaderWorld).mm.lastPFN)
      ∧ (reservePFN (init bootIdEnv tinyInfo loaderWorld)).1 = (1025, true)
      ∧ (init bootIdEnv tinyInfo loaderWorld).mm.nextHeapPage = 0x401000
      ∧ (Op.run idEnv (init bootIdEnv tinyInfo loaderWorld)
            (Op.reserveHeapPages (2 ^ 52 - 1))).map (fun w => w.mm.nextHeapPage)
          = some 0x400000 := by
  have e : init.bootstrapEnd tinyInfo = 0x400000 := by
    simp only [init.bootstrapEnd, init.bootstrapStackPFN, pfn.add, pfn.vaddr, vaddr.pfn,
      _PAGESIZE, tinyInfo, round]
    norm_num
  have hmm := (init_mm bootIdEnv tinyInfo loaderWorld).1
  have h1 : (init bootIdEnv tinyInfo loaderWorld).mm.nextPFN = 1025 := by
    rw [hmm]
    simp only [init.ranges, e, vaddr.pfn, pfn.add, _PAGESIZE]
    norm_num
  have h2 : (init bootIdEnv tinyInfo loaderWorld).mm.lastPFN = 1024 := by
    rw [hmm]
    rfl
  have h3 : (init bootIdEnv tinyInfo loaderWorld).mm.nextHeapPage = 0x401000 := by
    rw [hmm]
    simp only [init.ranges, e, vaddr.pfn, pfn.add, pfn.vaddr, _PAGESIZE]
    norm_num
  refine ⟨h1, h2, by rw [h1, h2]; decide, ?_, h3, ?_⟩
  · rw [reservePFN_of_ne _ (by rw [h1, h2]; decide), h1]
  · simp only [Op.run, Option.map_some', reserveHeapPages_cursor, h3]
    norm_num

/-- C16 (amended): for a loader descriptor whose frame count `NrPages` is a 64-bit word
not below the `nextPFN` that `init` computes, every state reached from `init` by a
sequence of `reservePFN`, `physAllocPage`, `reserveHeapPages`, `mapPage`,
`allocPage`, `allocPages` and `mapFrames` calls that return has
`nextPFN ≤ lastPFN = NrPages`; and each such call leaves the heap cursor at the old
cursor plus 4096 times the number of pages it reserves, in 64-bit arithmetic, so
the cursor does not decrease unless that sum wraps around. -/
theorem cursor_order_invariant (env : BootEnv) (si : xenStartInfo) (w0 : World)
    (hle : pfn.add (vaddr.pfn (init.bootstrapEnd si)) 1 ≤ si.NrPages)
    (hN : si.NrPages < 2 ^ 64) (ops : List Op) (w : World)
    (hrun : runOps env.toEnv ops (init env si w0) = some w) :
    w.mm.nextPFN ≤ w.mm.lastPFN ∧ w.mm.lastPFN = si.NrPages
      ∧ ∀ op w', Op.run env.toEnv w op = some w' → w.mm.nextHeapPage < 2 ^ 64 →
          w'.mm.nextHeapPage = (w.mm.nextHeapPage + op.reserved * 4096) % 2 ^ 64
            ∧ (w.mm.nextHeapPage + op.reserved * 4096 < 2 ^ 64 →
                w.mm.nextHeapPage ≤ w'.mm.nextHeapPage) := by
  have hmm := (init_mm env si w0).1
  have h1 : (init env si w0).mm.nextPFN = pfn.add (vaddr.pfn (init.bootstrapEnd si)) 1 := by
    rw [hmm]
    rfl
  have h2 : (init env si w0).mm.lastPFN = si.NrPages := by
    rw [hmm]
    rfl
  have inv : ∀ (ops : List Op) (a b : World), runOps env.toEnv ops a = some b →
      a.mm.nextPFN ≤ a.mm.lastPFN → a.mm.lastPFN = si.NrPages →
      b.mm.nextPFN ≤ b.mm.lastPFN ∧ b.mm.lastPFN = si.NrPages := by
    intro ops
    induction ops with
    | nil =>
      intro a b h ha hb
      simp only [runOps, Option.some.injEq] at h
      rw [← h]
      exact ⟨ha, hb⟩
    | cons op rest ih =>
      intro a b h ha hb
      simp only [runOps] at h
      cases hop : Op.run env.toEnv a op with
      | none => simp [hop] at h
      | some a1 =>
        rw [hop] at h
        obtain ⟨c1, c2, -⟩ := run_cursors env.toEnv a op a1 hop
        have c3 := c2 ha (by rw [hb]; exact hN)
        exact ih a1 b h (by rw [c1]; exact c3.2) (by rw [c1]; exact hb)
  obtain ⟨i1, i2⟩ := inv ops _ w hrun (by rw [h1, h2]; exact hle) h2
  refine ⟨i1, i2, ?_⟩
  intro op w' hop hh
  obtain ⟨-, -, c3⟩ := run_cursors env.toEnv w op w' hop
  have c4 := c3 hh
  refine ⟨c4, fun hlt => ?_⟩
  rw [c4]
  omega

/-! ### Page tables that form a tree -/

theorem PathClean_of_labelled (env : Env) (w : World) (lab : Nat → Option (Nat × Nat))
    (v : Nat) (hT : Tree env w lab) (hw : pageTableOffset v 3 ≠ 511) :
    ∀ lvl T π above, lvl ≤ 3 → lab T = some (lvl, π) →
      (∀ x ∈ above, ∀ y, lab x = some y → lvl < y.1) →
      PathClean env w v lvl T above := by
  intro lvl
  induction lvl with
  | zero => intro T π above _ _ _; trivial
  | succ l ih =>
    intro T π above hl hlab hab
    simp only [PathClean]
    intro hp
    have hc := hT.labelled.child T l π _ hlab (pageTableOffset_lt v (l + 1))
      (fun h3 => by
        have : l = 2 := by omega
        subst this
        exact hw) hp
    refine ⟨?_, hT.rt _ _ hc, hT.pool _ _ hc, ih _ _ (T :: above) (by omega) hc ?_⟩
    · simp only [List.mem_cons, not_or]
      refine ⟨fun h => ?_, fun h => ?_⟩
      · rw [h, hlab] at hc
        simp only [Option.some.injEq, Prod.mk.injEq] at hc
        omega
      · have := hab _ h _ hc
        simp only at this
        omega
    · intro x hx y hy
      simp only [List.mem_cons] at hx
      rcases hx with hx | hx
      · rw [hx, hlab] at hy
        simp only [Option.some.injEq] at hy
        rw [← hy]
        simp
      · have := hab x hx y hy
        omega

/-- A tree of page tables is ready for `mapPage` on every address outside the
recursive window, with any frames that are neither labelled nor in the pool as the
frames to avoid. -/
theorem Tree.ready {env : Env} {w : World} {lab : Nat → Option (Nat × Nat)}
    (hT : Tree env w lab) (v : Nat) (hw : pageTableOffset v 3 ≠ 511) (avoid : List Nat)
    (ha : ∀ x ∈ avoid, lab x = none ∧ ∀ p, InPool w p → env.p2m p ≠ x) :
    Ready env w v avoid :=
  { installed := hT.installed
    path := PathClean_of_labelled env w lab v hT hw 3 w.cr3 0 avoid (le_refl _)
      hT.labelled.root (fun x hx y hy => by rw [(ha x hx).1] at hy; simp at hy)
    cr3_avoid := fun h => by
      have := (ha _ h).1
      rw [hT.labelled.root] at this
      simp at this
    pool_avoid := fun p hp h => (ha _ h).2 p hp rfl }

/-- The labels of the tables on the path of an address outside the recursive window,
as far as the entries leading to them are present. -/
theorem Labelled.path {w : World} {lab : Nat → Option (Nat × Nat)} (hL : Labelled w lab)
    (v : Nat) (hw : pageTableOffset v 3 ≠ 511)
    (p4 : hasFlag (w.mem w.cr3 (pageTableOffset v 3)) xenPageTablePresent = true) :
    lab (pageTableEntry.mfn (w.mem w.cr3 (pageTableOffset v 3)))
        = some (2, pageTableOffset v 3)
      ∧ (hasFlag (w.mem (pageTableEntry.mfn (w.mem w.cr3 (pageTableOffset v 3)))
          (pageTableOffset v 2)) xenPageTablePresent = true →
        lab (pageTableEntry.mfn (w.mem (pageTableEntry.mfn
            (w.mem w.cr3 (pageTableOffset v 3))) (pageTableOffset v 2)))
            = some (1, pageTableOffset v 3 * 512 + pageTableOffset v 2)
          ∧ (hasFlag (w.mem (pageTableEntry.mfn (w.mem (pageTableEntry.mfn
              (w.mem w.cr3 (pageTableOffset v 3))) (pageTableOffset v 2)))
              (pageTableOffset v 1)) xenPageTablePresent = true →
            lab (pageTableEntry.mfn (w.mem (pageTableEntry.mfn (w.mem (pageTableEntry.mfn
              (w.mem w.cr3 (pageTableOffset v 3))) (pageTableOffset v 2)))
              (pageTableOffset v 1))) = some (0, pathPrefix v))) := by
  have l3 := hL.child _ 2 0 _ hL.root (pageTableOffset_lt v 3) (fun _ => hw) p4
  simp only [Nat.zero_mul, Nat.zero_add] at l3
  refine ⟨l3, fun p3 => ?_⟩
  have l2 := hL.child _ 1 _ _ l3 (pageTableOffset_lt v 2) (by omega) p3
  refine ⟨l2, fun p2 => ?_⟩
  exact hL.child _ 0 _ _ l2 (pageTableOffset_lt v 1) (by omega) p2

/-- The function `physAllocPage` on a tree of page tables with a frame left in the pool:
the frame issued is no page table and no longer in the pool, and nothing of the
tables has changed. -/
theorem physAllocPage_tree (env : Env) (w : World) (lab : Nat → Option (Nat × Nat))
    (hT : Tree env w lab) (hne : w.mm.nextPFN ≠ w.mm.lastPFN) :
    ∃ w1, physAllocPage env w = ((env.p2m w.mm.nextPFN, true), w1)
      ∧ TreeStep env w w1 lab lab (fun _ _ => False)
      ∧ lab (env.p2m w.mm.nextPFN) = none
      ∧ (∀ p, InPool w1 p → env.p2m p ≠ env.p2m w.mm.nextPFN)
      ∧ env.p2m w.mm.nextPFN < 2 ^ 40
      ∧ InPool w w.mm.nextPFN
      ∧ w1.mm.nextPFN = w.mm.nextPFN + 1
      ∧ w1.mm.lastPFN = w.mm.lastPFN
      ∧ ∀ v, pageTableOffset v 3 ≠ 511 → missingTables w1 v = missingTables w v := by
  have hR0 : Ready env w 0 [] := hT.ready 0 (by decide) [] (by simp)
  obtain ⟨w1, hph, hR1, hmm, hc, -, hin, hsub, hmem, -, htr⟩ :=
    physAllocPage_ready env w 0 [] hR0 hne
  have hNone : lab (env.p2m w.mm.nextPFN) = none := by
    cases h : lab (env.p2m w.mm.nextPFN) with
    | none => rfl
    | some y => exact absurd rfl (hT.pool _ _ h _ hin)
  have hkeep : ∀ T y, lab T = some y → ∀ j, w1.mem T j = w.mem T j := by
    intro T y hl j
    refine hmem T j (fun hc => ?_)
    rw [hc, hNone] at hl
    simp at hl
  have hT1 : Tree env w1 lab :=
    { installed := hR1.installed
      labelled :=
        { root := by rw [hc]; exact hT.labelled.root
          child := by
            intro T l π j hl hj h511 hp
            rw [hkeep T _ hl] at hp ⊢
            exact hT.labelled.child T l π j hl hj h511 hp }
      rt := hT.rt
      pool := fun T x hl p hp => hT.pool T x hl p (hsub p hp) }
  refine ⟨w1, hph, ?_, hNone, ?_, hT.installed.pool_lt _ hin, hin, by rw [hmm], by rw [hmm],
    ?_⟩
  · exact
      { tree := hT1
        ext := fun _ _ h => h
        born := fun _ _ h => Or.inl h
        cr3 := hc
        pool_sub := hsub
        keep_tables := fun T l π j hl _ => hkeep T _ hl j
        keep_leaves := fun T π j hl _ => hkeep T _ hl j
        slot := by
          intro ptr val ret h
          rw [htr, List.drop_left] at h
          simp at h
        trace := ⟨_, htr⟩ }
  · intro p hp
    have := hR1.pool_avoid p hp
    simp only [List.mem_cons, List.not_mem_nil, or_false] at this
    exact this
  · intro v hv
    have hRv : Ready env w v [] := hT.ready v hv [] (by simp)
    have := missingFrom_congr env w w1 v
      (fun fr i hfr => hmem fr i (fun h => hfr _ hin h.symm)) 3 w.cr3 []
      (fun p hp => hT.installed.pool_cr3 p hp) hRv.path
    simp only [missingTables, hc]
    exact this

theorem bootWorldN_tree (n : Nat) (hn : n ≤ 1000) : Tree idEnv (bootWorldN n) bootLab :=
  { installed := bootWorldN_installed n hn
    labelled :=
      { root := rfl
        child := by
          intro T l π j hl hj h511 hp
          simp only [bootLab] at hl
          split at hl
          · rename_i h
            subst h
            simp only [Option.some.injEq, Prod.mk.injEq] at hl
            have hj' : j ≠ 511 := h511 (by omega)
            simp [bootWorldN, hj', hasFlag_zero] at hp
          · simp at hl }
    rt := fun _ _ _ => rfl
    pool := by
      intro T x hl p hp
      simp only [bootLab] at hl
      split at hl
      · rename_i h
        subst h
        have := hp.1
        simp only [bootWorldN] at this
        show p ≠ 1
        omega
      · simp at hl }

/-- The result of `mapPage` is dropped by `mapFrames`: with two frames in the pool and
no table for the heap range, the first `mapPage` of `mapFrames([100, 101])` runs out
of frames after two of the three tables it needs, and `mapFrames` returns the heap
cursor all the same: neither page is mapped and the walk at the returned base ends
at an L2 entry that is not present. -/
theorem mapFrames_drops_mapPage_result :
    (mapFrames idEnv (bootWorldN 2) [100, 101]).map
        (fun r => (r.1, translate r.2 r.1, translate r.2 (r.1 + 4096), pageTableWalk r.2 r.1))
      = some (0x1000000, none, none, some [16 * 4096 + 3, 17 * 4096 + 3, 0]) := by
  decide

/-- After `init` the manager is correctly bootstrapped and the page tables form a tree,
which is the state the theorems about the mapping operations start from: this holds
when the loader's tables form a tree rooted at the frame of its page-table base, the
loader's page-table frames are mapped outside the recursive window, the hypervisor
accepts every request, the frame count of the guest is a 64-bit word not below the
`nextPFN` computed by `init`, and the frames from that `nextPFN` up to the frame
count are machine frames below `2^40` that translate back and forth, are pairwise
different and are no page tables. -/
theorem init_tree (env : BootEnv) (si : xenStartInfo) (w : World)
    (lab : Nat → Option (Nat × Nat)) (hL : Labelled w lab)
    (hbase : env.p2m (vaddr.pfn si.PageTableBase) = w.cr3) (hcr3 : w.cr3 < 2 ^ 40)
    (hacc : Accepts env.toEnv)
    (hpt : ∀ i, i < si.NrPageTableFrames →
      pageTableOffset (pfn.vaddr (pfn.add (vaddr.pfn si.PageTableBase) i)) 3 ≠ 511)
    (hle : pfn.add (vaddr.pfn (init.bootstrapEnd si)) 1 ≤ si.NrPages)
    (hN : si.NrPages < 2 ^ 64)
    (hrt : ∀ T x, lab T = some x → env.p2m (env.m2p T) = T)
    (hpool : ∀ p, pfn.add (vaddr.pfn (init.bootstrapEnd si)) 1 ≤ p → p < si.NrPages →
      env.p2m p < 2 ^ 40 ∧ env.p2m (env.m2p (env.p2m p)) = env.p2m p
        ∧ lab (env.p2m p) = none)
    (hinj : ∀ p q, pfn.add (vaddr.pfn (init.bootstrapEnd si)) 1 ≤ p → p < si.NrPages →
      pfn.add (vaddr.pfn (init.bootstrapEnd si)) 1 ≤ q → q < si.NrPages →
      env.p2m p = env.p2m q → p = q) :
    Tree env.toEnv (init env si w) lab := by
  obtain ⟨hL', h511, -⟩ := init_tables env si w lab hL hbase hcr3 (hacc.1 _ _ _) hpt
  obtain ⟨hmm, hc⟩ := init_mm env si w
  have hnext : (init env si w).mm.nextPFN = pfn.add (vaddr.pfn (init.bootstrapEnd si)) 1 := by
    rw [hmm]
    rfl
  have hlast : (init env si w).mm.lastPFN = si.NrPages := by
    rw [hmm]
    rfl
  have hin : ∀ p, InPool (init env si w) p →
      pfn.add (vaddr.pfn (init.bootstrapEnd si)) 1 ≤ p ∧ p < si.NrPages := by
    intro p hp
    have h1 := hp.1
    have h2 := hp.2
    rw [hnext] at h1
    rw [hlast] at h2
    exact ⟨h1, h2⟩
  have hnone : ∀ p, InPool (init env si w) p → ∀ T x, lab T = some x → env.p2m p ≠ T := by
    intro p hp T x hl hc'
    have := (hpool p (hin p hp).1 (hin p hp).2).2.2
    rw [hc', hl] at this
    simp at this
  exact
    { installed :=
        { accepts := hacc
          next_le := by rw [hnext, hlast]; exact hle
          last_lt := by rw [hlast]; exact hN
          l4_view := by rw [hmm]
          l4_frame := by
            rw [hc, hmm]
            exact hbase
          recursive := by
            unfold Recursive
            rw [hc, h511]
            constructor
            · rw [hasFlag_present]
              simp only [entryOf, setFlag, PTE_PAGE_TABLE_FLAGS, xenPageTablePresent,
                xenPageFlagShift]
              have h : (w.cr3 * 2 ^ 12 % 2 ^ 64 ||| 1) % 2 = 1 := by
                rw [Nat.or_mod_two_eq_one]
                right
                rfl
              exact h
            · rw [entryOf_mfn _ _ (by decide)]
              omega
          pool_lt := fun p hp => (hpool p (hin p hp).1 (hin p hp).2).1
          pool_rt := fun p hp => (hpool p (hin p hp).1 (hin p hp).2).2.1
          pool_inj := fun p q hp hq =>
            hinj p q (hin p hp).1 (hin p hp).2 (hin q hq).1 (hin q hq).2
          pool_cr3 := by
            intro p hp
            rw [hc]
            exact hnone p hp _ _ hL.root }
      labelled := hL'
      rt := hrt
      pool := fun T x hl p hp => hnone p hp T x hl }

/-- The state `init` leaves from `loaderWorld` is a tree of page tables: the
hypotheses of the theorems about the mapping operations hold after an actual
bootstrap. -/
theorem loaderWorld_init_tree :
    Tree bootIdEnv.toEnv (init bootIdEnv loaderInfo loaderWorld) loaderLab := by
  have e : init.bootstrapEnd loaderInfo = 0x400000 := by
    simp only [init.bootstrapEnd, init.bootstrapStackPFN, pfn.add, pfn.vaddr, vaddr.pfn,
      _PAGESIZE, loaderInfo, round]
    norm_num
  have hn : pfn.add (vaddr.pfn (init.bootstrapEnd loaderInfo)) 1 = 1025 := by
    rw [e]
    simp only [pfn.add, vaddr.pfn, _PAGESIZE]
    norm_num
  refine init_tree bootIdEnv loaderInfo loaderWorld loaderLab loaderWorld_labelled
    (by decide) (by decide) idEnv_accepts ?_ ?_ (by decide) (fun _ _ _ => rfl) ?_ ?_
  · intro i hi
    have hi4 : i < 4 := hi
    simp only [pfn.vaddr, pfn.add, vaddr.pfn, loaderInfo, _PAGESIZE, pageTableOffset]
    omega
  · rw [hn]
    decide
  · intro p h1 h2
    rw [hn] at h1
    have h2' : p < 2048 := h2
    refine ⟨?_, rfl, ?_⟩
    · show p < 2 ^ 40
      omega
    · show loaderLab p = none
      simp only [loaderLab]
      have a1 : p ≠ 256 := by omega
      have a2 : p ≠ 257 := by omega
      have a3 : p ≠ 258 := by omega
      have a4 : p ≠ 259 := by omega
      simp [a1, a2, a3, a4]
  · intro p q _ _ _ _ h
    exact h

/-! ### Frame accounting at every address -/

theorem PathSound_zeroed (env : Env) (w : World) (v lvl F : Nat) (h : ∀ i, w.mem F i = 0) :
    PathSound env w v lvl F := by
  cases lvl with
  | zero => trivial
  | succ l =>
    simp only [PathSound]
    intro hp
    rw [h, hasFlag_zero] at hp
    exact absurd hp (by decide)

/-- In a tree of page tables the path of every address is sound, inside the recursive
window as well: there the walk passes through the top-level table more than once. -/
theorem Tree.pathSound {env : Env} {w : World} {lab : Nat → Option (Nat × Nat)}
    (hT : Tree env w lab) (v : Nat) :
    ∀ lvl T l π, lab T = some (l, π) → lvl ≤ l → l ≤ 3 → (l = 3 → T = w.cr3) →
      PathSound env w v lvl T := by
  intro lvl
  induction lvl with
  | zero => intro T l π _ _ _ _; trivial
  | succ k ih =>
    intro T l π hlab hle hl3 h3
    simp only [PathSound]
    intro hp
    by_cases hrec : l = 3 ∧ pageTableOffset v (k + 1) = 511
    · obtain ⟨hl, hj⟩ := hrec
      have hTc := h3 hl
      subst hTc
      have hr := hT.installed.recursive
      rw [hj, hr.2]
      exact ⟨hT.rt _ _ hT.labelled.root, fun p hpp => hT.installed.pool_cr3 p hpp,
        ih w.cr3 3 0 hT.labelled.root (by omega) (le_refl _) (fun _ => rfl)⟩
    · obtain ⟨l', rfl⟩ : ∃ l', l = l' + 1 := ⟨l - 1, by omega⟩
      have hc := hT.labelled.child T l' π _ hlab (pageTableOffset_lt v (k + 1))
        (fun h3' hj => hrec ⟨h3', hj⟩) hp
      exact ⟨hT.rt _ _ hc, hT.pool _ _ hc,
        ih _ l' _ hc (by omega) (by omega) (fun h => by omega)⟩

theorem missingFrom_sound (env : Env) (w w' : World) (v : Nat)
    (hmem : ∀ fr i, (∀ p, InPool w p → env.p2m p ≠ fr) → w'.mem fr i = w.mem fr i) :
    ∀ lvl T, (∀ p, InPool w p → env.p2m p ≠ T) → PathSound env w v lvl T →
      missingFrom w' v lvl T = missingFrom w v lvl T := by
  intro lvl
  induction lvl with
  | zero => intro T _ _; rfl
  | succ l ih =>
    intro T hT h
    simp only [PathSound] at h
    simp only [missingFrom]
    rw [hmem T _ hT]
    by_cases hp : hasFlag (w.mem T (pageTableOffset v (l + 1))) xenPageTablePresent = true
    · obtain ⟨-, h3, h4⟩ := h hp
      simp only [hp, if_true]
      exact ih _ h3 h4
    · simp [hp]

/-- One level of `mapPage` on a sound path: the block returns `false`, or it goes on
with a present entry `e'` in the slot, in a state that is still correctly
bootstrapped, with a sound path below the table `e'` names; what the block took from
the pool is what was missing at this level. -/
theorem installTable_sound (env : Env) (w : World) (v lvl T tp : Nat)
    (hI : Installed env w) (htp : env.p2m tp = T) (hT : T < 2 ^ 40)
    (hpool : ∀ p, InPool w p → env.p2m p ≠ T) (hs : PathSound env w v (lvl + 1) T) :
    (∃ w', mapPage.installTable env w (w.mem T (pageTableOffset v (lvl + 1))) tp
        (pageTableOffset v (lvl + 1)) = (none, w'))
      ∨ ∃ e' w', mapPage.installTable env w (w.mem T (pageTableOffset v (lvl + 1))) tp
            (pageTableOffset v (lvl + 1)) = (some e', w')
          ∧ Installed env w' ∧ w'.cr3 = w.cr3
          ∧ w'.mem T (pageTableOffset v (lvl + 1)) = e'
          ∧ hasFlag e' xenPageTablePresent = true
          ∧ env.p2m (env.m2p (pageTableEntry.mfn e')) = pageTableEntry.mfn e'
          ∧ (∀ p, InPool w' p → env.p2m p ≠ pageTableEntry.mfn e')
          ∧ PathSound env w' v lvl (pageTableEntry.mfn e')
          ∧ w'.mm.nextPFN + missingFrom w' v lvl (pageTableEntry.mfn e')
              = w.mm.nextPFN + missingFrom w v (lvl + 1) T
          ∧ (hasFlag (w.mem T (pageTableOffset v (lvl + 1))) xenPageTablePresent = true →
              w' = w)
          ∧ (∀ fr i, (∀ p, InPool w p → env.p2m p ≠ fr) →
              ¬ (fr = T ∧ i = pageTableOffset v (lvl + 1)) → w'.mem fr i = w.mem fr i) := by
  by_cases hp : hasFlag (w.mem T (pageTableOffset v (lvl + 1))) xenPageTablePresent = true
  · right
    simp only [PathSound] at hs
    obtain ⟨h1, h2, h3⟩ := hs hp
    refine ⟨_, w, by simp [mapPage.installTable, hp], hI, rfl, rfl, hp, h1, h2, h3, ?_,
      fun _ => rfl, fun _ _ _ _ => rfl⟩
    rw [missingFrom_succ_present w v lvl T hp]
  · have hp' : hasFlag (w.mem T (pageTableOffset v (lvl + 1))) xenPageTablePresent = false := by
      simpa using hp
    have hpath : PathClean env w v (lvl + 1) T [] := by
      simp only [PathClean]
      intro h
      exact absurd h hp
    have hpool' : ∀ p, InPool w p → env.p2m p ∉ T :: [] := by
      intro p hpp
      simp only [List.mem_singleton]
      exact hpool p hpp
    rcases installTable_stage env w v lvl T [] tp hI htp hT hpool' hpath with
      ⟨-, -, hi, -⟩ | ⟨e', w', hi, A⟩
    · left
      exact ⟨w, hi⟩
    · right
      obtain ⟨-, -, -, hz⟩ := A.fresh hp'
      refine ⟨e', w', hi, A.installed, A.cr3, A.entry, A.present, A.rt, ?_,
        PathSound_zeroed env w' v lvl _ hz, A.count, fun h => absurd h hp, A.frame⟩
      intro p hpp h
      exact A.pool p hpp (by rw [h]; exact List.mem_cons_self _ _)

/-- A successful `mapPage(v, f)` on a sound path takes from the pool exactly the
tables that were missing on the path of `v`, for an address inside the recursive
window as for any other. -/
theorem mapPage_count (env : Env) (w : World) (v f : Nat) (hI : Installed env w)
    (hS : PathSound env w v 3 w.cr3) (w' : World)
    (hm : mapPage env w v f = some (true, w')) :
    w'.mm.nextPFN = w.mm.nextPFN + missingTables w v := by
  have hcr3 := cr3_lt w hI.recursive
  have ho3 : pageTableOffset v 3 < 512 := pageTableOffset_lt _ _
  have ho2 : pageTableOffset v 2 < 512 := pageTableOffset_lt _ _
  have ho1 : pageTableOffset v 1 < 512 := pageTableOffset_lt _ _
  have hG1 : xenPageTable.Get w (getPageTable (-1) (-1) (-1)) (pageTableOffset v 3)
      = some (w.mem w.cr3 (pageTableOffset v 3)) := Get_l4 w hI.recursive _ ho3
  have hk : missingTables w v = missingFrom w v 3 w.cr3 := rfl
  rcases installTable_sound env w v 2 w.cr3 w.mm.l4PFN hI hI.l4_frame hcr3 hI.pool_cr3 hS with
    ⟨wf, hi1⟩ | ⟨e4, w1, hi1, hI1, hc1, hE4, hp4, hrt4, hpl4, hS1, hcnt1, -, -⟩
  · have hi1' : mapPage.installTable env w (w.mem w.cr3 (pageTableOffset v 3)) w.mm.l4PFN
        (pageTableOffset v 3) = (none, wf) := hi1
    simp only [mapPage, pageTableLevel4, hI.l4_view, hG1, hi1'] at hm
    simp at hm
  · have hi1' : mapPage.installTable env w (w.mem w.cr3 (pageTableOffset v 3)) w.mm.l4PFN
        (pageTableOffset v 3) = (some e4, w1) := hi1
    have hE4' : w1.mem w1.cr3 (pageTableOffset v 3) = e4 := by rw [hc1]; exact hE4
    have hG2 : xenPageTable.Get w1 (getPageTable (-1) (-1) (pageTableOffset v 3))
        (pageTableOffset v 2) = some (w1.mem (pageTableEntry.mfn e4) (pageTableOffset v 2)) := by
      have := Get_l3 w1 hI1.recursive _ _ ho3 ho2 (by rw [hE4']; exact hp4)
      rw [hE4'] at this
      exact this
    rcases installTable_sound env w1 v 1 (pageTableEntry.mfn e4)
        (env.m2p (pageTableEntry.mfn e4)) hI1 hrt4 (mfn_lt _) hpl4 hS1 with
      ⟨wf, hi2⟩ | ⟨e3, w2, hi2, hI2, hc2, hE3, hp3, hrt3, hpl3, hS2, hcnt2, hkept2, hfr2⟩
    · have hi2' : mapPage.installTable env w1
          (w1.mem (pageTableEntry.mfn e4) (pageTableOffset v 2))
          (env.m2p (pageTableEntry.mfn e4)) (pageTableOffset v 2) = (none, wf) := hi2
      simp only [mapPage, pageTableLevel4, pageTableLevel3, hI.l4_view, hG1, hi1', hG2,
        pageTableEntry.pfn, hi2'] at hm
      simp at hm
    · have hi2' : mapPage.installTable env w1
          (w1.mem (pageTableEntry.mfn e4) (pageTableOffset v 2))
          (env.m2p (pageTableEntry.mfn e4)) (pageTableOffset v 2) = (some e3, w2) := hi2
      have hE4'' : w2.mem w2.cr3 (pageTableOffset v 3) = e4 := by
        by_cases hq : hasFlag (w1.mem (pageTableEntry.mfn e4) (pageTableOffset v 2))
            xenPageTablePresent = true
        · rw [hkept2 hq]
          exact hE4'
        · rw [hc2, hfr2 w1.cr3 _ hI1.pool_cr3 ?_]
          · exact hE4'
          · rintro ⟨hT, hj⟩
            apply hq
            rw [← hT, ← hj, hE4']
            exact hp4
      have hG3 : xenPageTable.Get w2 (getPageTable (-1) (pageTableOffset v 3)
          (pageTableOffset v 2)) (pageTableOffset v 1)
          = some (w2.mem (pageTableEntry.mfn e3) (pageTableOffset v 1)) := by
        have := Get_l2 w2 hI2.recursive _ _ _ ho3 ho2 ho1 (by rw [hE4'']; exact hp4)
          (by rw [hE4'', hE3]; exact hp3)
        rw [hE4'', hE3] at this
        exact this
      rcases installTable_sound env w2 v 0 (pageTableEntry.mfn e3)
          (env.m2p (pageTableEntry.mfn e3)) hI2 hrt3 (mfn_lt _) hpl3 hS2 with
        ⟨wf, hi3⟩ | ⟨e2, w3, hi3, -, -, -, -, -, -, -, hcnt3, -, -⟩
      · have hi3' : mapPage.installTable env w2
            (w2.mem (pageTableEntry.mfn e3) (pageTableOffset v 1))
            (env.m2p (pageTableEntry.mfn e3)) (pageTableOffset v 1) = (none, wf) := hi3
        simp only [mapPage, pageTableLevel4, pageTableLevel3, pageTableLevel2, hI.l4_view,
          hG1, hi1', hG2, pageTableEntry.pfn, hi2', hG3, hi3'] at hm
        simp at hm
      · have hi3' : mapPage.installTable env w2
            (w2.mem (pageTableEntry.mfn e3) (pageTableOffset v 1))
            (env.m2p (pageTableEntry.mfn e3)) (pageTableOffset v 1) = (some e2, w3) := hi3
        have hm0 : missingFrom w3 v 0 (pageTableEntry.mfn e2) = 0 := rfl
        simp only [mapPage, pageTableLevel4, pageTableLevel3, pageTableLevel2, hI.l4_view,
          hG1, hi1', hG2, pageTableEntry.pfn, hi2', hG3, hi3'] at hm
        split at hm
        · simp at hm
        · rename_i w5 hw
          simp only [Option.some.injEq, Prod.mk.injEq, true_and] at hm
          have h5 := storeZero_mm _ _ _ hw
          rw [writePte_mm] at h5
          have c1 : w1.mm.nextPFN + missingFrom w1 v 2 (pageTableEntry.mfn e4)
              = w.mm.nextPFN + missingFrom w v 3 w.cr3 := hcnt1
          have c2 : w2.mm.nextPFN + missingFrom w2 v 1 (pageTableEntry.mfn e3)
              = w1.mm.nextPFN + missingFrom w1 v 2 (pageTableEntry.mfn e4) := hcnt2
          have c3 : w3.mm.nextPFN + missingFrom w3 v 0 (pageTableEntry.mfn e2)
              = w2.mm.nextPFN + missingFrom w2 v 1 (pageTableEntry.mfn e3) := hcnt3
          rw [← hm, h5, hk]
          omega

/-- Taking a frame from the pool of a tree of page tables changes no table: the
number of tables missing on the path of any address is as before. -/
theorem physAllocPage_missing (env : Env) (w : World) (lab : Nat → Option (Nat × Nat))
    (hT : Tree env w lab) (hne : w.mm.nextPFN ≠ w.mm.lastPFN) (v : Nat) :
    missingTables (physAllocPage env w).2 v = missingTables w v := by
  have hI := hT.installed
  have hin : InPool w w.mm.nextPFN := ⟨le_refl _, lt_of_le_of_ne hI.next_le hne⟩
  have hlast := hI.last_lt
  rw [physAllocPage_fresh env w hI.accepts hne (by have := hin.2; omega)]
  exact missingFrom_sound env w _ v
    (fun fr i hfr => clearFrame_other _ _ _ _ (fun h => hfr _ hin h.symm)) 3 w.cr3
    (fun p hpp => hI.pool_cr3 p hpp)
    (hT.pathSound v 3 w.cr3 3 0 hT.labelled.root (le_refl _) (le_refl _) (fun _ => rfl))

/-- C20 (amended): on a correctly bootstrapped manager (accepting hypervisor, fresh pool
frames) whose page tables form a tree, for every address `v`, inside the recursive
window or not, and every frame `f`, a successful
`mapPage(v, f)` advances `nextPFN` by exactly `k = missingTables w v`, the number in
`{0, 1, 2, 3}` of intermediate tables missing on the path of `v` before the call (3
if the L4 entry is absent, else 2 if the entry of the L3 table is absent, else 1 if
the entry of the L2 table is absent, else 0), and a successful `allocPage(v)` by
exactly `k + 1`; neither changes `nextHeapPage` or `lastPFN`. -/
theorem mapPage_allocPage_frame_accounting (env : Env) (w : World)
    (lab : Nat → Option (Nat × Nat)) (hT : Tree env w lab) (v f : Nat) :
    missingTables w v ≤ 3
      ∧ (∀ w', mapPage env w v f = some (true, w') →
          w'.mm.nextPFN = w.mm.nextPFN + missingTables w v
            ∧ w'.mm.nextHeapPage = w.mm.nextHeapPage ∧ w'.mm.lastPFN = w.mm.lastPFN)
      ∧ (∀ w', allocPage env w v = some (true, w') →
          w'.mm.nextPFN = w.mm.nextPFN + (missingTables w v + 1)
            ∧ w'.mm.nextHeapPage = w.mm.nextHeapPage ∧ w'.mm.lastPFN = w.mm.lastPFN) := by
  refine ⟨missingFrom_le _ _ _ _, ?_, ?_⟩
  · intro w' hm
    have h := mapPage_count env w v f hT.installed
      (hT.pathSound v 3 w.cr3 3 0 hT.labelled.root (le_refl _) (le_refl _) (fun _ => rfl)) w' hm
    have hmm := mapPage_mm env w v f true w' hm
    refine ⟨h, ?_, ?_⟩
    · rw [hmm]
    · rw [hmm]
  · intro w' hm
    have hmm := allocPage_mm env w v true w' hm
    by_cases hne : w.mm.nextPFN = w.mm.lastPFN
    · simp [allocPage, physAllocPage_exhausted env w hne] at hm
    · obtain ⟨w1, hph, S1, -, -, -, -, hn1, -, -⟩ := physAllocPage_tree env w lab hT hne
      have hk := physAllocPage_missing env w lab hT hne v
      rw [hph] at hk
      simp only [allocPage, hph, Bool.not_true, Bool.false_eq_true, if_false] at hm
      have hT1 := S1.tree
      have h := mapPage_count env w1 v _ hT1.installed
        (hT1.pathSound v 3 w1.cr3 3 0 hT1.labelled.root (le_refl _) (le_refl _) (fun _ => rfl))
        w' hm
      refine ⟨?_, ?_, ?_⟩
      · rw [h, hn1, hk]
        omega
      · rw [hmm]
      · rw [hmm]

theorem mapPage_allocPage_frame_accounting_witness :
    missingTables bootWorld bootPage = 3
      ∧ (mapPage idEnv bootWorld bootPage 100).map (fun r => (r.1, r.2.mm.nextPFN))
          = some (true, bootWorld.mm.nextPFN + 3)
      ∧ (allocPage idEnv bootWorld bootPage).map (fun r => (r.1, r.2.mm.nextPFN))
          = some (true, bootWorld.mm.nextPFN + 4)
      ∧ pageTableOffset windowPage pageTableLevel4 = 511
      ∧ missingTables bootWorld windowPage = 2
      ∧ (mapPage idEnv bootWorld windowPage 100).map (fun r => (r.1, r.2.mm.nextPFN))
          = some (true, bootWorld.mm.nextPFN + 2)
      ∧ (∀ w', mapPage idEnv bootWorld windowPage 100 = some (true, w') →
          w'.mm.nextPFN = bootWorld.mm.nextPFN + missingTables bootWorld windowPage
            ∧ w'.mm.nextHeapPage = bootWorld.mm.nextHeapPage
            ∧ w'.mm.lastPFN = bootWorld.mm.lastPFN) :=
  ⟨by decide, by decide, by decide, by decide, by decide, by decide,
    (mapPage_allocPage_frame_accounting idEnv bootWorld bootLab
      (bootWorldN_tree 10 (by decide)) windowPage 100).2.1⟩

/-! ### The final store of `mapPage` away from word boundaries -/

/-- The store that ends `mapPage` at an address that is not a multiple of 8: at
`0x1000ffc` the 8 bytes reach into the next page, which is not mapped, and the call
faults; at `0x1000ff8` the store stays inside the page and the call returns `true`. -/
theorem mapPage_unaligned_store :
    (mapPage idEnv bootWorld 0x1000ffc 100).isNone = true
      ∧ (mapPage idEnv bootWorld 0x1000ff8 100).map (fun r => r.1) = some true := by
  decide

/-! ### Refused update requests and the result of `mapPage` -/

/-- What `writePte` does with a status that is not 0: it prints it, changes nothing
else and returns the entry it asked for. -/
theorem writePte_refused (env : Env) (w : World) (table offset value flags : Nat)
    (h : env.mmu_update w.trace.length (writePte.ptr env table offset) (entryOf value flags)
      ≠ 0) :
    writePte env w table offset value flags
      = (entryOf value flags,
          { w with
            trace := w.trace ++
              [Event.mmu_update (writePte.ptr env table offset) (entryOf value flags)
                (env.mmu_update w.trace.length (writePte.ptr env table offset)
                  (entryOf value flags)),
               Event.println_mmu_update
                (env.mmu_update w.trace.length (writePte.ptr env table offset)
                  (entryOf value flags))] }) := by
  simp only [writePte.ptr, entryOf] at h
  simp only [writePte, HYPERVISOR_mmu_update, writePte.ptr, entryOf, h, ne_eq, not_false_eq_true,
    if_true, if_false, List.append_assoc, List.singleton_append]

/-- C7 (amended): a non-zero status of `HYPERVISOR_mmu_update` is printed by
`writePte` and not reported: whatever the status, `writePte` returns the entry it
asked for and leaves the manager unchanged, and for a status other than 0 it records
the request, prints the status and changes nothing else; when `mapPage(v, f)`
returns `false` the pool is exhausted (`nextPFN = lastPFN`), whatever the hypervisor
answered; the same holds for `allocPage`. -/
theorem mapPage_false_only_when_exhausted (env : Env) (w : World) (v f : Nat) (w' : World)
    (h : mapPage env w v f = some (false, w')) :
    w'.mm.nextPFN = w'.mm.lastPFN
      ∧ (∀ w0 table offset value flags,
          (writePte env w0 table offset value flags).1 = entryOf value flags
            ∧ (writePte env w0 table offset value flags).2.mm = w0.mm
            ∧ (env.mmu_update w0.trace.length (writePte.ptr env table offset)
                  (entryOf value flags) ≠ 0 →
                (writePte env w0 table offset value flags).2
                  = { w0 with
                      trace := w0.trace ++
                        [Event.mmu_update (writePte.ptr env table offset) (entryOf value flags)
                          (env.mmu_update w0.trace.length (writePte.ptr env table offset)
                            (entryOf value flags)),
                         Event.println_mmu_update
                          (env.mmu_update w0.trace.length (writePte.ptr env table offset)
                            (entryOf value flags))] }))
      ∧ (∀ w0 page w1, allocPage env w0 page = some (false, w1) →
          w1.mm.nextPFN = w1.mm.lastPFN) := by
  refine ⟨mapPage_false_exhausted env w v f w' h, ?_, ?_⟩
  · intro w0 table offset value flags
    refine ⟨writePte_fst _ _ _ _ _ _, writePte_mm _ _ _ _ _ _, fun hr => ?_⟩
    rw [writePte_refused env w0 table offset value flags hr]
  · intro w0 page w1 h1
    unfold allocPage at h1
    by_cases he : w0.mm.nextPFN = w0.mm.lastPFN
    · simp [physAllocPage_exhausted env w0 he] at h1
      rw [← h1]
      exact he
    · simp only [physAllocPage, reservePFN_of_ne w0 he] at h1
      simp at h1
      exact mapPage_false_exhausted _ _ _ _ _ h1

/-- Witness of `mapPage_false_only_when_exhausted`: in `strayWorld`, under a hypervisor
that refuses every update, `mapPage` takes the one frame of the pool for the L3
table, its update request is refused with status `-1`, which is printed, and the
call returns `false` when it needs a frame for the L2 table. -/
theorem mapPage_false_only_when_exhausted_witness :
    (mapPage rejectEnv strayWorld bootPage 100).map (fun r => (r.1, r.2.trace))
        = some (false, [Event.mmuext_op [(16, 16)] 0,
            Event.mmu_update 4096 (16 * 4096 + 3) (-1), Event.println_mmu_update (-1)])
      ∧ (stateAfter (mapPage rejectEnv strayWorld bootPage 100) strayWorld).mm.nextPFN
          = (stateAfter (mapPage rejectEnv strayWorld bootPage 100) strayWorld).mm.lastPFN :=
  ⟨by decide,
    (mapPage_false_only_when_exhausted rejectEnv strayWorld bootPage 100
      (stateAfter (mapPage rejectEnv strayWorld bootPage 100) strayWorld) (by rfl)).1⟩

/-! ### States outside the standing hypotheses -/

/-- C12 (as stated, refuted): for the descriptor `topInfo`, whose page-table base is the
last page of the address space, with every request accepted, `mapL4` installs the
recursive entry in slot 511 of the top-level table in frame 256, and the unmapping
of the bootstrap page tables that ends `init` clears it again: the address of the
loader's page-table frame has all four indices 511, so its L1 entry is that very
slot. After `init` slot 511 holds 0 and is not present. -/
theorem init_unmaps_recursive_slot :
    Accepts topEnv.toEnv
      ∧ topEnv.p2m (vaddr.pfn topInfo.PageTableBase) = loaderWorld.cr3
      ∧ (mapL4 topEnv (init.ranges topInfo loaderWorld) (vaddr.pfn topInfo.PageTableBase)).2.mem
          256 511 = 256 * 4096 + 1
      ∧ (init topEnv topInfo loaderWorld).cr3 = 256
      ∧ (init topEnv topInfo loaderWorld).mem 256 511 = 0
      ∧ hasFlag ((init topEnv topInfo loaderWorld).mem (init topEnv topInfo loaderWorld).cr3 511)
          xenPageTablePresent = false :=
  ⟨⟨fun _ _ _ => rfl, fun _ _ => rfl⟩, by decide, by decide, by decide, by decide, by decide⟩

/-- C20 (as stated, refuted): in `stalePoolWorld 10` the L4 entry of `bootPage` is
absent, so three tables are missing on its path. With a hypervisor that refuses the
clear-page requests, `mapPage(bootPage, 100)` takes frame 16 for the L3 table, finds
in it the entries left from its earlier use and returns `true` with the page mapped:
`nextPFN` has advanced by 1, not by 3; and `allocPage(bootPage)` returns `true`
having advanced `nextPFN` by 2, not by 4. -/
theorem mapPage_stale_table_skips_allocations :
    bootPage % 4096 = 0
      ∧ missingTables (stalePoolWorld 10) bootPage = 3
      ∧ (mapPage rejectExtEnv (stalePoolWorld 10) bootPage 100).map
          (fun r => (r.1, r.2.mm.nextPFN, translate r.2 bootPage))
        = some (true, (stalePoolWorld 10).mm.nextPFN + 1, some 100)
      ∧ (allocPage rejectExtEnv (stalePoolWorld 10) bootPage).map
          (fun r => (r.1, r.2.mm.nextPFN))
        = some (true, (stalePoolWorld 10).mm.nextPFN + 2) := by
  decide

/-! ### A run of operations after `init` -/

/-- Witness of `cursor_order_invariant`: the calls of `sampleOps` after `init` for
`loaderInfo` all return; they take four frames from the pool, one of them for a
page table, and reserve two heap pages, and the cursors are still ordered. -/
theorem cursor_order_invariant_witness :
    (runOps bootIdEnv.toEnv sampleOps (init bootIdEnv loaderInfo loaderWorld)).map
        (fun w => (w.mm.nextPFN, w.mm.lastPFN, w.mm.nextHeapPage))
        = some (1029, 2048, 0x403000)
      ∧ ∃ w, runOps bootIdEnv.toEnv sampleOps (init bootIdEnv loaderInfo loaderWorld) = some w
          ∧ w.mm.nextPFN ≤ w.mm.lastPFN ∧ w.mm.lastPFN = loaderInfo.NrPages := by
  have e : init.bootstrapEnd loaderInfo = 0x400000 := by
    simp only [init.bootstrapEnd, init.bootstrapStackPFN, pfn.add, pfn.vaddr, vaddr.pfn,
      _PAGESIZE, loaderInfo, round]
    norm_num
  have hle : pfn.add (vaddr.pfn (init.bootstrapEnd loaderInfo)) 1 ≤ loaderInfo.NrPages := by
    rw [e]
    simp only [pfn.add, vaddr.pfn, _PAGESIZE, loaderInfo]
    norm_num
  have hs : (runOps bootIdEnv.toEnv sampleOps (init bootIdEnv loaderInfo loaderWorld)).isSome
      = true := by decide
  have hrun := (Option.some_get hs).symm
  have h := cursor_order_invariant bootIdEnv loaderInfo loaderWorld hle (by decide) sampleOps
    _ hrun
  exact ⟨by decide, _, hrun, h.1, h.2.1⟩

end Atman
